import Mathlib

/-!
# ASN.1/BER decoding of the SPNEGO negTokenInit blob (fs/cifs/asn1.c)

A shallow embedding of the decoder in `fs/cifs/asn1.c` and theorems about it.

Modelling conventions

* The security blob is a `List Nat`; a pointer into it is its offset from
  `security_blob` (a `Nat`), so `ctx->begin` is `0` and `ctx->end` is the
  length handed to `asn1_open`.  Reading `*p` yields `buf.getD p 0 % 256`
  (an `unsigned char`).
* The `NULL` pointer stored in `*eoc` for an indefinite length is `none`.
* `unsigned int` and `unsigned long` are `Nat` reduced modulo `2 ^ 32`
  (the ARM EABI target of this kernel tree is ILP32).
* A C function returning `0`/`1` and writing through out-parameters returns
  the new context together with `none` (returned `0`) or `some outputs`
  (returned `1`).
* Loops whose termination is not evident from a counter take a fuel argument;
  running out of fuel is the outer `none`.  The same outer `none` stands for
  handing a `NULL` end pointer to `asn1_oid_decode`.  Totality theorems show
  that neither ever happens.
* `kmalloc` is taken to succeed (the specification treats the scratch buffer
  as available).
* `cFYI` is the debugging macro of `cifs_debug.h`, a header outside `asn1.c`:
  it evaluates its arguments exactly when debugging output is switched on.
  That switch is the parameter `dbg`, and the pointer dereferences among the
  arguments are collected in a log, so that they can be stated and checked.
-/

namespace Asn1

/-! ## Constants -/

def ASN1_UNI : Nat := 0
def ASN1_APL : Nat := 1
def ASN1_CTX : Nat := 2
def ASN1_PRV : Nat := 3

def ASN1_EOC : Nat := 0
def ASN1_OJI : Nat := 6
def ASN1_SEQ : Nat := 16

def ASN1_PRI : Nat := 0
def ASN1_CON : Nat := 1

def ASN1_ERR_NOERROR : Nat := 0
def ASN1_ERR_DEC_EMPTY : Nat := 2
def ASN1_ERR_DEC_EOC_MISMATCH : Nat := 3
def ASN1_ERR_DEC_LENGTH_MISMATCH : Nat := 4
def ASN1_ERR_DEC_BADVALUE : Nat := 5

def SPNEGO_OID_LEN : Nat := 7
def NTLMSSP_OID_LEN : Nat := 10
def KRB5_OID_LEN : Nat := 7
def KRB5U2U_OID_LEN : Nat := 8
def MSKRB5_OID_LEN : Nat := 7
def SPNEGO_OID : List Nat := [1, 3, 6, 1, 5, 5, 2]
def NTLMSSP_OID : List Nat := [1, 3, 6, 1, 4, 1, 311, 2, 2, 10]
def KRB5_OID : List Nat := [1, 2, 840, 113554, 1, 2, 2]
def KRB5U2U_OID : List Nat := [1, 2, 840, 113554, 1, 2, 2, 3]
def MSKRB5_OID : List Nat := [1, 2, 840, 48018, 1, 2, 2]

/-- Width of `unsigned int`. -/
def UINT_BITS : Nat := 32
/-- Width of `unsigned long` (ILP32). -/
def ULONG_BITS : Nat := 32
/-- The constant `UINT_MAX`. -/
def UINT_MAX : Nat := 2 ^ 32 - 1
/-- The value of `sizeof(unsigned long)` (ILP32). -/
def SIZEOF_ULONG : Nat := 4

/-! ## Data model -/

/-- The `struct asn1_ctx`; pointers are offsets into the blob. -/
structure asn1_ctx where
  error : Nat
  pointer : Nat
  begin : Nat
  end_ : Nat
deriving DecidableEq, Repr

/-- The four capability flags of `struct TCP_Server_Info` written by the decoder. -/
structure TCP_Server_Info where
  sec_mskerberos : Bool
  sec_kerberosu2u : Bool
  sec_kerberos : Bool
  sec_ntlmssp : Bool
deriving DecidableEq, Repr

/-- The outputs of `asn1_header_decode`: `*eoc`, `*cls`, `*con`, `*tag`. -/
structure asn1_hdr where
  eoc : Option Nat
  cls : Nat
  con : Nat
  tag : Nat
deriving DecidableEq, Repr

/-- A pointer dereference made while evaluating the arguments of a `cFYI`:
`end_ptr e` is the read `*end` with `end = e`;
`oid_elem i len size` is the read `*(oid + i)` of an array of `size`
allocated elements of which the first `len` have been written. -/
inductive Deref where
  | end_ptr (e : Option Nat)
  | oid_elem (i len size : Nat)
deriving DecidableEq, Repr

/-- What `decode_negTokenInit` leaves behind: the return value, the flags,
the final decode context and the dereference log. -/
structure neg_result where
  rc : Nat
  server : TCP_Server_Info
  ctx : asn1_ctx
  derefs : List Deref
deriving DecidableEq, Repr

/-! ## The decoder -/

def asn1_open (len : Nat) : asn1_ctx :=
  { begin := 0, end_ := 0 + len, pointer := 0, error := ASN1_ERR_NOERROR }

def asn1_octet_decode (buf : List Nat) (ctx : asn1_ctx) : asn1_ctx × Option Nat :=
  if ctx.pointer ≥ ctx.end_ then
    ({ ctx with error := ASN1_ERR_DEC_EMPTY }, none)
  else
    ({ ctx with pointer := ctx.pointer + 1 }, some (buf.getD ctx.pointer 0 % 256))

/-- The `do ... while` loop of `asn1_tag_decode`; `tag` is the current `*tag`. -/
def asn1_tag_loop (buf : List Nat) : Nat → asn1_ctx → Nat → Option (asn1_ctx × Option Nat)
  | 0, _, _ => none
  | fuel + 1, ctx, tag =>
    match asn1_octet_decode buf ctx with
    | (ctx1, none) => some (ctx1, none)
    | (ctx1, some ch) =>
      let tag1 := (tag <<< 7) % 2 ^ UINT_BITS
      let tag2 := tag1 ||| (ch &&& 0x7F)
      if ch &&& 0x80 = 0x80 then asn1_tag_loop buf fuel ctx1 tag2
      else some (ctx1, some tag2)

def asn1_tag_decode (buf : List Nat) (ctx : asn1_ctx) : Option (asn1_ctx × Option Nat) :=
  asn1_tag_loop buf (ctx.end_ - ctx.pointer + 1) ctx 0

/-- Outputs on success are `(*cls, *con, *tag)`. -/
def asn1_id_decode (buf : List Nat) (ctx : asn1_ctx) :
    Option (asn1_ctx × Option (Nat × Nat × Nat)) :=
  match asn1_octet_decode buf ctx with
  | (ctx1, none) => some (ctx1, none)
  | (ctx1, some ch) =>
    let cls := (ch &&& 0xC0) >>> 6
    let con := (ch &&& 0x20) >>> 5
    let tag := ch &&& 0x1F
    if tag = 0x1F then
      match asn1_tag_decode buf ctx1 with
      | none => none
      | some (ctx2, none) => some (ctx2, none)
      | some (ctx2, some tag1) => some (ctx2, some (cls, con, tag1))
    else some (ctx1, some (cls, con, tag))

/-- The `while (cnt > 0)` loop of `asn1_length_decode`; `len` is the current `*len`. -/
def asn1_length_loop (buf : List Nat) : Nat → asn1_ctx → Nat → asn1_ctx × Option Nat
  | 0, ctx, len => (ctx, some len)
  | cnt + 1, ctx, len =>
    match asn1_octet_decode buf ctx with
    | (ctx1, none) => (ctx1, none)
    | (ctx1, some ch) =>
      let len1 := (len <<< 8) % 2 ^ UINT_BITS
      asn1_length_loop buf cnt ctx1 (len1 ||| ch)

/-- The argument `len0` is the value `*len` holds on entry (it is left untouched
for an indefinite length); outputs are `(*def, *len)`. -/
def asn1_length_decode (buf : List Nat) (ctx : asn1_ctx) (len0 : Nat) :
    asn1_ctx × Option (Nat × Nat) :=
  match asn1_octet_decode buf ctx with
  | (ctx1, none) => (ctx1, none)
  | (ctx1, some ch) =>
    let r : asn1_ctx × Option (Nat × Nat) :=
      if ch = 0x80 then (ctx1, some (0, len0))
      else if ch < 0x80 then (ctx1, some (1, ch))
      else
        match asn1_length_loop buf ((ch &&& 0x7F) % 256) ctx1 0 with
        | (ctx2, none) => (ctx2, none)
        | (ctx2, some len) => (ctx2, some (1, len))
    match r with
    | (ctx2, none) => (ctx2, none)
    | (ctx2, some (d, len)) =>
      if len > ctx2.end_ - ctx2.pointer then (ctx2, none)
      else (ctx2, some (d, len))

def asn1_header_decode (buf : List Nat) (ctx : asn1_ctx) :
    Option (asn1_ctx × Option asn1_hdr) :=
  match asn1_id_decode buf ctx with
  | none => none
  | some (ctx1, none) => some (ctx1, none)
  | some (ctx1, some (cls, con, tag)) =>
    match asn1_length_decode buf ctx1 0 with
    | (ctx2, none) => some (ctx2, none)
    | (ctx2, some (d, len)) =>
      if con = ASN1_PRI ∧ d = 0 then some (ctx2, none)
      else if d ≠ 0 then
        some (ctx2, some { eoc := some (ctx2.pointer + len), cls := cls, con := con, tag := tag })
      else
        some (ctx2, some { eoc := none, cls := cls, con := con, tag := tag })

def asn1_eoc_decode (buf : List Nat) (ctx : asn1_ctx) (eoc : Option Nat) : asn1_ctx × Bool :=
  match eoc with
  | none =>
    match asn1_octet_decode buf ctx with
    | (ctx1, none) => (ctx1, false)
    | (ctx1, some ch) =>
      if ch ≠ 0x00 then ({ ctx1 with error := ASN1_ERR_DEC_EOC_MISMATCH }, false)
      else
        match asn1_octet_decode buf ctx1 with
        | (ctx2, none) => (ctx2, false)
        | (ctx2, some ch2) =>
          if ch2 ≠ 0x00 then ({ ctx2 with error := ASN1_ERR_DEC_EOC_MISMATCH }, false)
          else (ctx2, true)
  | some e =>
    if ctx.pointer ≠ e then ({ ctx with error := ASN1_ERR_DEC_LENGTH_MISMATCH }, false)
    else (ctx, true)

/-- The `do ... while` loop of `asn1_subid_decode`; `subid` is the current `*subid`. -/
def asn1_subid_loop (buf : List Nat) : Nat → asn1_ctx → Nat → Option (asn1_ctx × Option Nat)
  | 0, _, _ => none
  | fuel + 1, ctx, subid =>
    match asn1_octet_decode buf ctx with
    | (ctx1, none) => some (ctx1, none)
    | (ctx1, some ch) =>
      let subid1 := (subid <<< 7) % 2 ^ ULONG_BITS
      let subid2 := subid1 ||| (ch &&& 0x7F)
      if ch &&& 0x80 = 0x80 then asn1_subid_loop buf fuel ctx1 subid2
      else some (ctx1, some subid2)

def asn1_subid_decode (buf : List Nat) (ctx : asn1_ctx) : Option (asn1_ctx × Option Nat) :=
  asn1_subid_loop buf (ctx.end_ - ctx.pointer + 1) ctx 0

/-- The value `size = eoc - ctx->pointer + 1` as an `unsigned int`. -/
def asn1_oid_size (ctx : asn1_ctx) (eoc : Nat) : Nat :=
  (((eoc : Int) - (ctx.pointer : Int) + 1) % 4294967296).toNat

/-- The `while (ctx->pointer < eoc)` loop of `asn1_oid_decode`; `oid` holds the
elements written through `optr` so far and `len` is the current `*len`. -/
def asn1_oid_loop (buf : List Nat) (eoc size : Nat) :
    Nat → asn1_ctx → List Nat → Nat → Option (asn1_ctx × Option (List Nat × Nat))
  | 0, _, _, _ => none
  | fuel + 1, ctx, oid, len =>
    if ctx.pointer < eoc then
      let len1 := (len + 1) % 2 ^ UINT_BITS
      if len1 > size then some ({ ctx with error := ASN1_ERR_DEC_BADVALUE }, none)
      else
        match asn1_subid_decode buf ctx with
        | none => none
        | some (ctx1, none) => some (ctx1, none)
        | some (ctx1, some subid) => asn1_oid_loop buf eoc size fuel ctx1 (oid ++ [subid]) len1
    else some (ctx, some (oid, len))

/-- Outputs on success are the written part of `*oid` and `*len`. -/
def asn1_oid_decode (buf : List Nat) (ctx : asn1_ctx) (eoc : Nat) :
    Option (asn1_ctx × Option (List Nat × Nat)) :=
  let size := asn1_oid_size ctx eoc
  if size < 2 ∨ size > UINT_MAX / SIZEOF_ULONG then some (ctx, none)
  else
    match asn1_subid_decode buf ctx with
    | none => none
    | some (ctx1, none) => some (ctx1, none)
    | some (ctx1, some subid) =>
      let optr : List Nat :=
        if subid < 40 then [0, subid]
        else if subid < 80 then [1, subid - 40]
        else [2, subid - 80]
      asn1_oid_loop buf eoc size (ctx1.end_ - ctx1.pointer + 1) ctx1 optr 2

/-- The `for` loop of `compare_oid`, with `n` iterations left and index `i`. -/
def compare_oid_loop (oid1 oid2 : List Nat) : Nat → Nat → Nat
  | 0, _ => 1
  | n + 1, i =>
    if oid1.getD i 0 ≠ oid2.getD i 0 then 0
    else compare_oid_loop oid1 oid2 n (i + 1)

def compare_oid (oid1 : List Nat) (oid1len : Nat) (oid2 : List Nat) (oid2len : Nat) : Nat :=
  if oid1len ≠ oid2len then 0
  else compare_oid_loop oid1 oid2 oid1len 0

/-- The flag assignments of the mechanism-list loop for one decoded OID. -/
def set_mech_flags (server : TCP_Server_Info) (oid : List Nat) (oidlen : Nat) :
    TCP_Server_Info :=
  if compare_oid oid oidlen MSKRB5_OID MSKRB5_OID_LEN ≠ 0 then
    { server with sec_mskerberos := true }
  else if compare_oid oid oidlen KRB5U2U_OID KRB5U2U_OID_LEN ≠ 0 then
    { server with sec_kerberosu2u := true }
  else if compare_oid oid oidlen KRB5_OID KRB5_OID_LEN ≠ 0 then
    { server with sec_kerberos := true }
  else if compare_oid oid oidlen NTLMSSP_OID NTLMSSP_OID_LEN ≠ 0 then
    { server with sec_ntlmssp := true }
  else server

/-- One pass of the `while (!asn1_eoc_decode(&ctx, sequence_end))` loop of
`decode_negTokenInit`: the loop condition followed by the body.  The result is
`inl` when the function returns in this pass and `inr` with the new context,
flags and log when the loop goes round again. -/
def negTokenInit_iter (dbg : Bool) (buf : List Nat) (sequence_end : Option Nat)
    (ctx : asn1_ctx) (server : TCP_Server_Info) (log : List Deref) :
    Option (neg_result ⊕ (asn1_ctx × TCP_Server_Info × List Deref)) :=
  match asn1_eoc_decode buf ctx sequence_end with
  | (ctx1, true) => some (Sum.inl { rc := 1, server := server, ctx := ctx1, derefs := log })
  | (ctx1, false) =>
    match asn1_header_decode buf ctx1 with
    | none => none
    | some (ctx2, none) =>
      some (Sum.inl { rc := 0, server := server, ctx := ctx2, derefs := log })
    | some (ctx2, some h) =>
      if h.tag = ASN1_OJI ∧ h.con = ASN1_PRI then
        match h.eoc with
        | none => none
        | some e =>
          match asn1_oid_decode buf ctx2 e with
          | none => none
          | some (ctx3, none) => some (Sum.inr (ctx3, server, log))
          | some (ctx3, some (oid, oidlen)) =>
            let size := asn1_oid_size ctx2 e
            let log1 :=
              if dbg then
                log ++ [Deref.oid_elem 0 oidlen size, Deref.oid_elem 1 oidlen size,
                        Deref.oid_elem 2 oidlen size, Deref.oid_elem 3 oidlen size]
              else log
            some (Sum.inr (ctx3, set_mech_flags server oid oidlen, log1))
      else some (Sum.inr (ctx2, server, log))

/-- The `while (!asn1_eoc_decode(&ctx, sequence_end))` loop of `decode_negTokenInit`;
`fuel` bounds the number of passes. -/
def negTokenInit_loop (dbg : Bool) (buf : List Nat) (sequence_end : Option Nat) :
    Nat → asn1_ctx → TCP_Server_Info → List Deref → Option neg_result
  | 0, _, _, _ => none
  | fuel + 1, ctx, server, log =>
    match negTokenInit_iter dbg buf sequence_end ctx server log with
    | none => none
    | some (Sum.inl r) => some r
    | some (Sum.inr (ctx1, server1, log1)) =>
      negTokenInit_loop dbg buf sequence_end fuel ctx1 server1 log1

/-- What the six header steps of `decode_negTokenInit` hand on: either the
function has returned (`inl`), or the loop is entered with the context and
`sequence_end` (`inr`). -/
def negTokenInit_steps (dbg : Bool) (buf : List Nat) (length : Nat)
    (server : TCP_Server_Info) : Option (neg_result ⊕ (asn1_ctx × Option Nat)) :=
  let ret0 (ctx : asn1_ctx) (log : List Deref) : Option (neg_result ⊕ (asn1_ctx × Option Nat)) :=
    some (Sum.inl { rc := 0, server := server, ctx := ctx, derefs := log })
  let ctx := asn1_open length
  match asn1_header_decode buf ctx with
  | none => none
  | some (ctx1, none) => ret0 ctx1 []
  | some (ctx1, some h1) =>
  if h1.cls ≠ ASN1_APL ∨ h1.con ≠ ASN1_CON ∨ h1.tag ≠ ASN1_EOC then ret0 ctx1 []
  else
  match asn1_header_decode buf ctx1 with
  | none => none
  | some (ctx2, none) => ret0 ctx2 []
  | some (ctx2, some h2) =>
  if h2.tag = ASN1_OJI ∧ h2.con = ASN1_PRI ∧ h2.cls = ASN1_UNI then
    match h2.eoc with
    | none => none
    | some e2 =>
    match asn1_oid_decode buf ctx2 e2 with
    | none => none
    | some (ctx3, none) => ret0 ctx3 []
    | some (ctx3, some (oid, oidlen)) =>
    if compare_oid oid oidlen SPNEGO_OID SPNEGO_OID_LEN = 0 then ret0 ctx3 []
    else
    match asn1_header_decode buf ctx3 with
    | none => none
    | some (ctx4, none) => ret0 ctx4 []
    | some (ctx4, some h3) =>
    if h3.cls ≠ ASN1_CTX ∨ h3.con ≠ ASN1_CON ∨ h3.tag ≠ ASN1_EOC then
      ret0 ctx4 (if dbg then [Deref.end_ptr h3.eoc] else [])
    else
    match asn1_header_decode buf ctx4 with
    | none => none
    | some (ctx5, none) => ret0 ctx5 []
    | some (ctx5, some h4) =>
    if h4.cls ≠ ASN1_UNI ∨ h4.con ≠ ASN1_CON ∨ h4.tag ≠ ASN1_SEQ then
      ret0 ctx5 (if dbg then [Deref.end_ptr h4.eoc] else [])
    else
    match asn1_header_decode buf ctx5 with
    | none => none
    | some (ctx6, none) => ret0 ctx6 []
    | some (ctx6, some h5) =>
    if h5.cls ≠ ASN1_CTX ∨ h5.con ≠ ASN1_CON ∨ h5.tag ≠ ASN1_EOC then
      ret0 ctx6 (if dbg then [Deref.end_ptr h5.eoc] else [])
    else
    match asn1_header_decode buf ctx6 with
    | none => none
    | some (ctx7, none) => ret0 ctx7 []
    | some (ctx7, some h6) =>
    if h6.cls ≠ ASN1_UNI ∨ h6.con ≠ ASN1_CON ∨ h6.tag ≠ ASN1_SEQ then
      ret0 ctx7 (if dbg then [Deref.end_ptr h5.eoc] else [])
    else some (Sum.inr (ctx7, h6.eoc))
  else ret0 ctx2 []

/-- The function `decode_negTokenInit(security_blob, length, server)`; `server`
holds the flags on entry. -/
def decode_negTokenInit (dbg : Bool) (buf : List Nat) (length : Nat)
    (server : TCP_Server_Info) : Option neg_result :=
  match negTokenInit_steps dbg buf length server with
  | none => none
  | some (Sum.inl r) => some r
  | some (Sum.inr (ctx, sequence_end)) =>
    negTokenInit_loop dbg buf sequence_end ((ctx.end_ - ctx.pointer) / 2 + 1) ctx server []

/-- All four capability flags false. -/
def no_flags : TCP_Server_Info :=
  { sec_mskerberos := false, sec_kerberosu2u := false, sec_kerberos := false,
    sec_ntlmssp := false }

/-- The 30-byte NTLMSSP token. -/
def tok_ntlmssp : List Nat :=
  [0x60, 0x1c, 0x06, 0x06, 0x2b, 0x06, 0x01, 0x05, 0x05, 0x02, 0xa0, 0x12, 0x30, 0x10,
   0xa0, 0x0e, 0x30, 0x0c, 0x06, 0x0a, 0x2b, 0x06, 0x01, 0x04, 0x01, 0x82, 0x37, 0x02,
   0x02, 0x0a]

/-! ## Sample blobs -/

/-- The encoded SPNEGO OID element `06 06 2b 06 01 05 05 02`. -/
def spnego_tlv : List Nat := [0x06, 0x06, 0x2b, 0x06, 0x01, 0x05, 0x05, 0x02]

/-- The encoded NTLMSSP OID element. -/
def ntlmssp_tlv : List Nat :=
  [0x06, 0x0a, 0x2b, 0x06, 0x01, 0x04, 0x01, 0x82, 0x37, 0x02, 0x02, 0x0a]

/-- A token whose mechanism list declares 13 octets: the NTLMSSP element
followed by a lone identifier octet `05` at the end of the blob. -/
def tok_cut_element : List Nat :=
  [0x60, 0x1d] ++ spnego_tlv ++ [0xa0, 0x13, 0x30, 0x11, 0xa0, 0x0f, 0x30, 0x0d] ++
    ntlmssp_tlv ++ [0x05]

/-- A blob whose third header is a SEQUENCE of indefinite length where the
context tag is expected. -/
def tok_shape_indef : List Nat := [0x60, 0x80] ++ spnego_tlv ++ [0x30, 0x80]

/-- A blob whose third header is `a1 00`, an empty element ending the blob,
where the context tag `a0` is expected. -/
def tok_shape_end : List Nat := [0x60, 0x0a] ++ spnego_tlv ++ [0xa1, 0x00]

/-- Going from `c` to `c1` the buffer bounds are kept and the cursor only moves
forward, staying inside the buffer when it started there. -/
def Frame (c c1 : asn1_ctx) : Prop :=
  c1.begin = c.begin ∧ c1.end_ = c.end_ ∧ c.pointer ≤ c1.pointer ∧
    (c.pointer ≤ c.end_ → c1.pointer ≤ c.end_)

/-- The update both continuation loops apply to their accumulator. -/
def vstep (acc ch : Nat) : Nat := ((acc <<< 7) % 2 ^ 32) ||| (ch &&& 0x7F)

/-- No flag that is set in `a` is clear in `b`. -/
def flags_le (a b : TCP_Server_Info) : Prop :=
  (a.sec_mskerberos = true → b.sec_mskerberos = true) ∧
  (a.sec_kerberosu2u = true → b.sec_kerberosu2u = true) ∧
  (a.sec_kerberos = true → b.sec_kerberos = true) ∧
  (a.sec_ntlmssp = true → b.sec_ntlmssp = true)

/-- The bytes of the blob from the cursor to its end are `bs`, and the end of
the decode context is the end of the blob. -/
def At (buf : List Nat) (ctx : asn1_ctx) (bs : List Nat) : Prop :=
  ctx.end_ = buf.length ∧ buf.drop ctx.pointer = bs

/-- The update the length-octet loop applies to `*len`. -/
def lstep (len ch : Nat) : Nat := ((len <<< 8) % 2 ^ 32) ||| ch

/-- The unbounded integer a run of base-128 octets stands for, continuing
from `acc`: seven value bits per octet, most significant first. -/
def base128 (acc : Nat) (bs : List Nat) : Nat :=
  bs.foldl (fun a b => a * 128 + b % 128) acc

/-- The unbounded integer a run of octets stands for, most significant first. -/
def be_value (ds : List Nat) : Nat :=
  ds.foldl (fun a o => a * 256 + o) 0

/-- The definite length declared by the length octets at the head of `bs`,
with the number of length octets: a first octet below `0x80` is the length
itself; a first octet above `0x80` gives the count `b & 0x7F` of octets that
follow and hold the length, most significant first.  There is none for the
indefinite form `0x80` or when the octets are not all there. -/
def declared_length : List Nat → Option (Nat × Nat)
  | [] => none
  | b :: rest =>
    if b < 0x80 then some (b, 1)
    else if b = 0x80 ∨ 0x100 ≤ b ∨ rest.length < b - 0x80 then none
    else some (be_value (rest.take (b - 0x80)), 1 + (b - 0x80))

/-- The contexts `c` and `c1` differ at most in the recorded error. -/
def same_cursor (c c1 : asn1_ctx) : Prop :=
  c1.pointer = c.pointer ∧ c1.begin = c.begin ∧ c1.end_ = c.end_

/-- Two outcomes of an operation agree in everything but the recorded error:
both return, with the same return value and outputs and the same cursor. -/
def agree {α : Type} (r r1 : Option (asn1_ctx × α)) : Prop :=
  match r, r1 with
  | some (c, v), some (c1, v1) => same_cursor c c1 ∧ v = v1
  | none, none => True
  | _, _ => False

/-- A complete token with indefinite-length outer wrappers: application
wrapper, SPNEGO OID, context tag and SEQUENCE of indefinite length, then the
definite-length context tag and mechanism list holding the NTLMSSP OID, and
the three end-of-contents markers that close the wrappers. -/
def tok_indef_outer : List Nat :=
  [0x60, 0x80] ++ spnego_tlv ++ [0xa0, 0x80, 0x30, 0x80, 0xa0, 0x0e, 0x30, 0x0c] ++
    ntlmssp_tlv ++ [0, 0, 0, 0, 0, 0]

/-- The continuation octets (high bit set) for the part `v` of a
sub-identifier above its last seven bits, most significant first; `fuel`
bounds the number of octets and `v` itself is always enough. -/
def enc_hi : Nat → Nat → List Nat
  | 0, _ => []
  | fuel + 1, v => if v = 0 then [] else enc_hi fuel (v / 128) ++ [0x80 + v % 128]

/-- The standard encoding of one sub-identifier: base-128 octets, most
significant first, the high bit set on all but the last. -/
def enc_subid (v : Nat) : List Nat := enc_hi v (v / 128) ++ [v % 128]

/-- The encodings of the sub-identifiers of `arcs`, one after the other. -/
def enc_subids : List Nat → List Nat
  | [] => []
  | a :: t => enc_subid a ++ enc_subids t

/-- The standard encoding of the value of an OID: the first two arcs are
folded into the sub-identifier `40 * a0 + a1`. -/
def enc_oid : List Nat → List Nat
  | a0 :: a1 :: rest => enc_subid (40 * a0 + a1) ++ enc_subids rest
  | _ => []

/-- An OID that the standard rule can encode and `unsigned long` can hold: a
first arc of 0, 1 or 2, a second arc below 40 under the first arcs 0 and 1,
and the first sub-identifier and every later arc below `2 ^ 32`. -/
def valid_oid : List Nat → Prop
  | a0 :: a1 :: rest =>
    a0 ≤ 2 ∧ (a0 < 2 → a1 < 40) ∧ 40 * a0 + a1 < 2 ^ ULONG_BITS ∧
      ∀ a ∈ rest, a < 2 ^ ULONG_BITS
  | _ => False

/-- An OID of `2 ^ 30` arcs: `1.0` followed by `2 ^ 30 - 2` zero arcs. -/
def long_oid : List Nat := 1 :: 0 :: List.replicate (2 ^ 30 - 2) 0

/-- The octets `ls` are exactly the length octets of a definite length `L`. -/
def is_length (ls : List Nat) (L : Nat) : Prop :=
  declared_length ls = some (L, ls.length) ∧ ∀ b ∈ ls, b < 256

/-- Legal length octets for a constructed wrapper that has `after` octets behind
them in the blob: the indefinite form `80`, or a definite length that does not
reach beyond the end of the blob. -/
def is_wrapper_length (ls : List Nat) (after : Nat) : Prop :=
  ls = [0x80] ∨ ∃ L, is_length ls L ∧ L ≤ after

/-- One element of the mechanism list, given by the length octets and the OID:
the identifier octet `06`, the length octets, the encoded OID. -/
def enc_mech (m : List Nat × List Nat) : List Nat := 0x06 :: (m.1 ++ enc_oid m.2)

/-- The elements of a mechanism list, one after the other. -/
def enc_mechs : List (List Nat × List Nat) → List Nat
  | [] => []
  | m :: t => enc_mech m ++ enc_mechs t

/-- A well-formed element: the length octets declare the length of the encoded
OID, the OID is valid, and its encoding passes the size guard of the decoder. -/
def valid_mech (m : List Nat × List Nat) : Prop :=
  is_length m.1 (enc_oid m.2).length ∧ valid_oid m.2 ∧
    (enc_oid m.2).length + 1 ≤ UINT_MAX / SIZEOF_ULONG

/-- The parts of a negTokenInit token with a definite-length mechanism list:
the length octets `l1` of the application wrapper `60`, `lS` of the SPNEGO OID
element, `l3` of the context tag `a0`, `l4` of the SEQUENCE `30`, `l5` of the
context tag `a0`, `l6` of the mechanism-list SEQUENCE `30`; the elements
`mechs` of the mechanism list, each given by its length octets and its OID; and
`trailer`, whatever follows the mechanism list (further fields of the token,
end-of-contents markers of indefinite-length wrappers). -/
structure neg_token where
  l1 : List Nat
  lS : List Nat
  l3 : List Nat
  l4 : List Nat
  l5 : List Nat
  l6 : List Nat
  mechs : List (List Nat × List Nat)
  trailer : List Nat

/-- The token from the mechanism-list SEQUENCE on. -/
def neg_token.part6 (t : neg_token) : List Nat :=
  0x30 :: (t.l6 ++ (enc_mechs t.mechs ++ t.trailer))

/-- The token from the second context tag on. -/
def neg_token.part5 (t : neg_token) : List Nat := 0xa0 :: (t.l5 ++ t.part6)

/-- The token from the negTokenInit SEQUENCE on. -/
def neg_token.part4 (t : neg_token) : List Nat := 0x30 :: (t.l4 ++ t.part5)

/-- The token from the first context tag on. -/
def neg_token.part3 (t : neg_token) : List Nat := 0xa0 :: (t.l3 ++ t.part4)

/-- The token from the SPNEGO OID element on. -/
def neg_token.part2 (t : neg_token) : List Nat :=
  0x06 :: (t.lS ++ (enc_oid SPNEGO_OID ++ t.part3))

/-- The octets of the token. -/
def neg_token.bytes (t : neg_token) : List Nat := 0x60 :: (t.l1 ++ t.part2)

/-- The token is well formed: every wrapper has legal length octets, the OID
elements declare the lengths of their encodings, the mechanism list declares
the length of its elements, the elements are well formed, and the length of the
token fits the `int` it is passed in. -/
def neg_token.valid (t : neg_token) : Prop :=
  is_wrapper_length t.l1 t.part2.length ∧
  is_length t.lS (enc_oid SPNEGO_OID).length ∧
  is_wrapper_length t.l3 t.part4.length ∧
  is_wrapper_length t.l4 t.part5.length ∧
  is_wrapper_length t.l5 t.part6.length ∧
  is_length t.l6 (enc_mechs t.mechs).length ∧
  (∀ m ∈ t.mechs, valid_mech m) ∧
  t.bytes.length < 2 ^ 31

/-- The sample NTLMSSP token, in parts. -/
def ntlmssp_token : neg_token :=
  { l1 := [0x1c], lS := [0x06], l3 := [0x12], l4 := [0x10], l5 := [0x0e], l6 := [0x0c],
    mechs := [([0x0a], NTLMSSP_OID)], trailer := [] }

/-- The flags that stand for the mechanisms among `oids`. -/
def mech_flags (oids : List (List Nat)) : TCP_Server_Info :=
  { sec_mskerberos := decide (MSKRB5_OID ∈ oids),
    sec_kerberosu2u := decide (KRB5U2U_OID ∈ oids),
    sec_kerberos := decide (KRB5_OID ∈ oids),
    sec_ntlmssp := decide (NTLMSSP_OID ∈ oids) }

/-- A complete token whose mechanism list, like its wrappers, has indefinite
length: it holds the NTLMSSP OID and is closed by five end-of-contents
markers. -/
def tok_indef_list : List Nat :=
  [0x60, 0x80] ++ spnego_tlv ++ [0xa0, 0x80, 0x30, 0x80, 0xa0, 0x80, 0x30, 0x80] ++
    ntlmssp_tlv ++ [0, 0, 0, 0, 0, 0, 0, 0, 0, 0]

/-- A token whose mechanism list holds the single OID
`1.2.840.(2 ^ 32 + 113554).1.2.2`, which is no known mechanism. -/
def tok_wide_arc : List Nat :=
  [0x60, 0x1d] ++ spnego_tlv ++ [0xa0, 0x13, 0x30, 0x11, 0xa0, 0x0f, 0x30, 0x0d, 0x06, 0x0b,
    0x2a, 0x86, 0x48, 0x90, 0x80, 0x86, 0xf7, 0x12, 0x01, 0x02, 0x02]

/-- The NTLMSSP token with the identifier octet of its mechanism element
changed from `06` to `86`: context class, primitive, tag 6. -/
def tok_ctx_class_mech : List Nat :=
  [0x60, 0x1c] ++ spnego_tlv ++
    [0xa0, 0x12, 0x30, 0x10, 0xa0, 0x0e, 0x30, 0x0c,
     0x86, 0x0a, 0x2b, 0x06, 0x01, 0x04, 0x01, 0x82, 0x37, 0x02, 0x02, 0x0a]

/-- The NTLMSSP token with the identifier octet of its SPNEGO element changed
from `06` to `86`. -/
def tok_ctx_class_spnego : List Nat :=
  [0x60, 0x1c, 0x86, 0x06, 0x2b, 0x06, 0x01, 0x05, 0x05, 0x02] ++
    [0xa0, 0x12, 0x30, 0x10, 0xa0, 0x0e, 0x30, 0x0c] ++ ntlmssp_tlv


/-- The context in which the `while` loop of `asn1_oid_decode`, started in
`ctx`, stops after reading exactly the sub-identifiers `vs` one after another;
`none` when the loop does something else. -/
def later_subids (buf : List Nat) (eoc : Nat) : asn1_ctx → List Nat → Option asn1_ctx
  | ctx, [] => if ctx.pointer < eoc then none else some ctx
  | ctx, v :: vs =>
    if ctx.pointer < eoc then
      match asn1_subid_decode buf ctx with
      | some (ctx1, some w) => if w = v then later_subids buf eoc ctx1 vs else none
      | _ => none
    else none

/-- The encoded Kerberos OID value `2a 86 48 86 f7 12 01 02 02`. -/
def krb5_value : List Nat := [0x2a, 0x86, 0x48, 0x86, 0xf7, 0x12, 0x01, 0x02, 0x02]


/-- The states in which the `while` loop of `asn1_oid_decode buf ctx eoc`
tests its condition: the context, the elements written through `optr` so far
and the current `*len`.  The first state follows the size guard and the first
sub-identifier; each further one follows a pass of the loop body. -/
inductive oid_loop_at (buf : List Nat) (ctx : asn1_ctx) (eoc : Nat) :
    asn1_ctx → List Nat → Nat → Prop
  | first (c : asn1_ctx) (v : Nat) :
      ¬ (asn1_oid_size ctx eoc < 2 ∨ asn1_oid_size ctx eoc > UINT_MAX / SIZEOF_ULONG) →
      asn1_subid_decode buf ctx = some (c, some v) →
      oid_loop_at buf ctx eoc c
        (if v < 40 then [0, v] else if v < 80 then [1, v - 40] else [2, v - 80]) 2
  | next (c c1 : asn1_ctx) (oid : List Nat) (len v : Nat) :
      oid_loop_at buf ctx eoc c oid len → c.pointer < eoc →
      ¬ ((len + 1) % 2 ^ UINT_BITS > asn1_oid_size ctx eoc) →
      asn1_subid_decode buf c = some (c1, some v) →
      oid_loop_at buf ctx eoc c1 (oid ++ [v]) ((len + 1) % 2 ^ UINT_BITS)


/-- A long-form length `81 02` followed by two content octets. -/
def length_long_form : List Nat := [0x81, 0x02, 0xaa, 0xbb]


/-- A token whose mechanism list holds one OID element with a value of one
octet, `06 01 2b`: the OID decodes to the two elements `1.3`. -/
def tok_one_octet_oid : List Nat :=
  [0x60, 0x13] ++ spnego_tlv ++
    [0xa0, 0x09, 0x30, 0x07, 0xa0, 0x05, 0x30, 0x03, 0x06, 0x01, 0x2b]

/-- A token whose mechanism list holds one OID element with a value of two
octets, `06 02 2b 06`: the OID decodes to the three elements `1.3.6`. -/
def tok_two_octet_oid : List Nat :=
  [0x60, 0x14] ++ spnego_tlv ++
    [0xa0, 0x0a, 0x30, 0x08, 0xa0, 0x06, 0x30, 0x04, 0x06, 0x02, 0x2b, 0x06]


/-- The states in which the mechanism-list loop of `decode_negTokenInit` tests
its condition: `sequence_end`, the context, the flags and the dereference log.
The first state follows the six header steps; each further one follows a pass
of the loop that goes round again. -/
inductive neg_loop_at (dbg : Bool) (buf : List Nat) (length : Nat) (server : TCP_Server_Info) :
    Option Nat → asn1_ctx → TCP_Server_Info → List Deref → Prop
  | entry (c : asn1_ctx) (seq : Option Nat) :
      negTokenInit_steps dbg buf length server = some (Sum.inr (c, seq)) →
      neg_loop_at dbg buf length server seq c server []
  | pass (seq : Option Nat) (c c1 : asn1_ctx) (s s1 : TCP_Server_Info) (l l1 : List Deref) :
      neg_loop_at dbg buf length server seq c s l →
      negTokenInit_iter dbg buf seq c s l = some (Sum.inr (c1, s1, l1)) →
      neg_loop_at dbg buf length server seq c1 s1 l1


theorem Frame.rfl_ (c : asn1_ctx) : Frame c c := ⟨rfl, rfl, le_refl _, fun h => h⟩

theorem Frame.trans_ {a b c : asn1_ctx} (h1 : Frame a b) (h2 : Frame b c) : Frame a c := by
  obtain ⟨hb1, he1, hp1, hq1⟩ := h1
  obtain ⟨hb2, he2, hp2, hq2⟩ := h2
  refine ⟨by rw [hb2, hb1], by rw [he2, he1], le_trans hp1 hp2, fun h => ?_⟩
  have := hq1 h
  have := hq2 (by rw [he1]; exact this)
  rw [he1] at this
  exact this

theorem frame_adv (c : asn1_ctx) (h : c.pointer < c.end_) :
    Frame c { c with pointer := c.pointer + 1 } :=
  ⟨rfl, rfl, Nat.le_succ _, fun _ => h⟩

theorem octet_ok (buf : List Nat) (ctx : asn1_ctx) (h : ctx.pointer < ctx.end_) :
    asn1_octet_decode buf ctx =
      ({ ctx with pointer := ctx.pointer + 1 }, some (buf.getD ctx.pointer 0 % 256)) := by
  unfold asn1_octet_decode
  rw [if_neg (by omega)]

theorem octet_empty (buf : List Nat) (ctx : asn1_ctx) (h : ctx.end_ ≤ ctx.pointer) :
    asn1_octet_decode buf ctx = ({ ctx with error := ASN1_ERR_DEC_EMPTY }, none) := by
  unfold asn1_octet_decode
  rw [if_pos h]

/-- Everything `asn1_octet_decode` can do. -/
theorem octet_cases (buf : List Nat) (ctx : asn1_ctx) :
    (ctx.pointer < ctx.end_ ∧ asn1_octet_decode buf ctx =
      ({ ctx with pointer := ctx.pointer + 1 }, some (buf.getD ctx.pointer 0 % 256))) ∨
    (ctx.end_ ≤ ctx.pointer ∧ asn1_octet_decode buf ctx =
      ({ ctx with error := ASN1_ERR_DEC_EMPTY }, none)) := by
  by_cases h : ctx.pointer < ctx.end_
  · exact Or.inl ⟨h, octet_ok buf ctx h⟩
  · exact Or.inr ⟨by omega, octet_empty buf ctx (by omega)⟩

/-! ## Basic facts: the continuation loops -/

theorem vstep_eq (acc ch : Nat) : vstep acc ch = (acc * 128 + ch % 128) % 2 ^ 32 := by
  unfold vstep
  have h1 : acc <<< 7 = acc * 128 := by rw [Nat.shiftLeft_eq]
  have h2 : ch &&& 0x7F = ch % 128 := Nat.and_pow_two_sub_one_eq_mod ch 7
  have h3 : (acc * 128) % 2 ^ 32 = 2 ^ 7 * (acc % 2 ^ 25) := by norm_num; omega
  rw [h1, h2, h3, ← Nat.mul_add_lt_is_or (Nat.mod_lt _ (by norm_num))]
  norm_num
  omega

theorem tag_loop_succ (buf : List Nat) (fuel : Nat) (ctx : asn1_ctx) (tag : Nat) :
    asn1_tag_loop buf (fuel + 1) ctx tag =
      match asn1_octet_decode buf ctx with
      | (ctx1, none) => some (ctx1, none)
      | (ctx1, some ch) =>
        if ch &&& 0x80 = 0x80 then asn1_tag_loop buf fuel ctx1 (vstep tag ch)
        else some (ctx1, some (vstep tag ch)) := rfl

theorem subid_loop_eq (buf : List Nat) : ∀ (fuel : Nat) (ctx : asn1_ctx) (acc : Nat),
    asn1_subid_loop buf fuel ctx acc = asn1_tag_loop buf fuel ctx acc := by
  intro fuel
  induction fuel with
  | zero => intro ctx acc; rfl
  | succ n ih =>
    intro ctx acc
    rw [tag_loop_succ]
    unfold asn1_subid_loop
    rcases octet_cases buf ctx with ⟨_, e⟩ | ⟨_, e⟩ <;> rw [e]
    · simp only [ih]
      rfl

theorem subid_decode_eq (buf : List Nat) (ctx : asn1_ctx) :
    asn1_subid_decode buf ctx = asn1_tag_decode buf ctx := by
  unfold asn1_subid_decode asn1_tag_decode
  exact subid_loop_eq buf _ _ _

/-- With fuel beyond the bytes left the loop returns, keeps the bounds, leaves
the error alone on success and records `Empty` on failure. -/
theorem tag_loop_spec (buf : List Nat) : ∀ (fuel : Nat) (ctx : asn1_ctx) (tag : Nat),
    ctx.end_ - ctx.pointer < fuel →
    ∃ c r, asn1_tag_loop buf fuel ctx tag = some (c, r) ∧ Frame ctx c ∧
      (r.isSome = true → ctx.pointer < c.pointer ∧ c.error = ctx.error ∧ ctx.pointer < ctx.end_) ∧
      (r = none → c.error = ASN1_ERR_DEC_EMPTY) := by
  intro fuel
  induction fuel with
  | zero => intro ctx tag h; omega
  | succ n ih =>
    intro ctx tag h
    rw [tag_loop_succ]
    rcases octet_cases buf ctx with ⟨hp, e⟩ | ⟨hp, e⟩ <;> rw [e]
    · by_cases hc : (buf.getD ctx.pointer 0 % 256) &&& 0x80 = 0x80
      · simp only [hc, if_true]
        obtain ⟨c, r, h1, h2, h3, h4⟩ := ih { ctx with pointer := ctx.pointer + 1 }
          (vstep tag (buf.getD ctx.pointer 0 % 256)) (by simp only; omega)
        refine ⟨c, r, h1, ?_, ?_, h4⟩
        · exact Frame.trans_ (frame_adv ctx hp) h2
        · intro hr
          have := h3 hr
          simp only at this
          exact ⟨by omega, this.2.1, hp⟩
      · simp only [hc, if_false]
        exact ⟨_, _, rfl, frame_adv ctx hp, fun _ => ⟨by simp, rfl, hp⟩, fun h => by simp at h⟩
    · exact ⟨_, _, rfl, ⟨rfl, rfl, le_refl _, fun h => h⟩, fun h => by simp at h, fun _ => rfl⟩

theorem tag_loop_mono (buf : List Nat) : ∀ (fuel : Nat) (ctx : asn1_ctx) (tag : Nat)
    (r : asn1_ctx × Option Nat), asn1_tag_loop buf fuel ctx tag = some r →
    asn1_tag_loop buf (fuel + 1) ctx tag = some r := by
  intro fuel
  induction fuel with
  | zero => intro ctx tag r h; simp [asn1_tag_loop] at h
  | succ n ih =>
    intro ctx tag r h
    rw [tag_loop_succ] at h
    rw [tag_loop_succ]
    rcases octet_cases buf ctx with ⟨hp, e⟩ | ⟨hp, e⟩ <;> rw [e] at h ⊢
    · by_cases hc : (buf.getD ctx.pointer 0 % 256) &&& 0x80 = 0x80
      · simp only [hc, if_true] at h ⊢
        exact ih _ _ _ h
      · simp only [hc, if_false] at h ⊢
        exact h
    · exact h

theorem tag_loop_fuel (buf : List Nat) (fuel fuel1 : Nat) (ctx : asn1_ctx) (tag : Nat)
    (r : asn1_ctx × Option Nat) (h : asn1_tag_loop buf fuel ctx tag = some r)
    (hle : fuel ≤ fuel1) : asn1_tag_loop buf fuel1 ctx tag = some r := by
  induction hle with
  | refl => exact h
  | step _ ih => exact tag_loop_mono buf _ _ _ _ ih

/-- The tag decoder always returns. -/
theorem tag_decode_spec (buf : List Nat) (ctx : asn1_ctx) :
    ∃ c r, asn1_tag_decode buf ctx = some (c, r) ∧ Frame ctx c ∧
      (r.isSome = true → ctx.pointer < c.pointer ∧ c.error = ctx.error ∧ ctx.pointer < ctx.end_) ∧
      (r = none → c.error = ASN1_ERR_DEC_EMPTY) :=
  tag_loop_spec buf _ ctx 0 (by omega)

/-- The sub-identifier decoder always returns. -/
theorem subid_decode_spec (buf : List Nat) (ctx : asn1_ctx) :
    ∃ c r, asn1_subid_decode buf ctx = some (c, r) ∧ Frame ctx c ∧
      (r.isSome = true → ctx.pointer < c.pointer ∧ c.error = ctx.error ∧ ctx.pointer < ctx.end_) ∧
      (r = none → c.error = ASN1_ERR_DEC_EMPTY) := by
  rw [subid_decode_eq]
  exact tag_decode_spec buf ctx

/-! ## Basic facts: identifier, length and header -/

theorem id_decode_spec (buf : List Nat) (ctx : asn1_ctx) :
    ∃ c r, asn1_id_decode buf ctx = some (c, r) ∧ Frame ctx c ∧
      (r.isSome = true → ctx.pointer < c.pointer ∧ c.error = ctx.error) ∧
      (r = none → c.error = ASN1_ERR_DEC_EMPTY) := by
  unfold asn1_id_decode
  rcases octet_cases buf ctx with ⟨hp, e⟩ | ⟨hp, e⟩ <;> rw [e]
  · by_cases ht : (buf.getD ctx.pointer 0 % 256) &&& 0x1F = 0x1F
    · simp only [ht, if_true]
      obtain ⟨c, r, h1, h2, h3, h4⟩ := tag_decode_spec buf { ctx with pointer := ctx.pointer + 1 }
      rw [h1]
      cases r with
      | none =>
        exact ⟨_, _, rfl, Frame.trans_ (frame_adv ctx hp) h2, fun h => by simp at h,
          fun _ => h4 rfl⟩
      | some v =>
        refine ⟨_, _, rfl, Frame.trans_ (frame_adv ctx hp) h2, fun _ => ?_, fun h => by simp at h⟩
        have := h3 rfl
        simp only at this
        exact ⟨by omega, this.2.1⟩
    · simp only [ht, if_false]
      exact ⟨_, _, rfl, frame_adv ctx hp, fun _ => ⟨by simp, rfl⟩, fun h => by simp at h⟩
  · exact ⟨_, _, rfl, ⟨rfl, rfl, le_refl _, fun h => h⟩, fun h => by simp at h, fun _ => rfl⟩

theorem length_loop_spec (buf : List Nat) : ∀ (cnt : Nat) (ctx : asn1_ctx) (len : Nat),
    Frame ctx (asn1_length_loop buf cnt ctx len).1 ∧
    ((asn1_length_loop buf cnt ctx len).2.isSome = true →
      (asn1_length_loop buf cnt ctx len).1.pointer = ctx.pointer + cnt ∧
      (asn1_length_loop buf cnt ctx len).1.error = ctx.error) ∧
    ((asn1_length_loop buf cnt ctx len).2 = none →
      (asn1_length_loop buf cnt ctx len).1.error = ASN1_ERR_DEC_EMPTY) := by
  intro cnt
  induction cnt with
  | zero =>
    intro ctx len
    simp only [asn1_length_loop]
    exact ⟨Frame.rfl_ _, fun _ => ⟨rfl, trivial⟩, fun h => by simp at h⟩
  | succ n ih =>
    intro ctx len
    unfold asn1_length_loop
    rcases octet_cases buf ctx with ⟨hp, e⟩ | ⟨hp, e⟩ <;> rw [e]
    · simp only
      obtain ⟨h1, h2, h3⟩ := ih { ctx with pointer := ctx.pointer + 1 }
        ((len <<< 8) % 2 ^ UINT_BITS ||| (buf.getD ctx.pointer 0 % 256))
      refine ⟨Frame.trans_ (frame_adv ctx hp) h1, fun h => ?_, h3⟩
      have := h2 h
      simp only at this
      exact ⟨by omega, this.2⟩
    · exact ⟨Frame.rfl_ _, fun h => by simp at h, fun _ => rfl⟩

theorem length_loop_le (buf : List Nat) : ∀ (cnt : Nat) (ctx : asn1_ctx) (len : Nat),
    (asn1_length_loop buf cnt ctx len).1.pointer ≤ ctx.pointer + cnt := by
  intro cnt
  induction cnt with
  | zero => intro ctx len; simp [asn1_length_loop]
  | succ n ih =>
    intro ctx len
    unfold asn1_length_loop
    rcases octet_cases buf ctx with ⟨hp, e⟩ | ⟨hp, e⟩ <;> rw [e]
    · simp only
      have := ih { ctx with pointer := ctx.pointer + 1 }
        ((len <<< 8) % 2 ^ UINT_BITS ||| (buf.getD ctx.pointer 0 % 256))
      simp only at this
      omega
    · simp only
      omega

theorem length_decode_spec (buf : List Nat) (ctx : asn1_ctx) (len0 : Nat) :
    Frame ctx (asn1_length_decode buf ctx len0).1 ∧
    (∀ d len, (asn1_length_decode buf ctx len0).2 = some (d, len) →
      ctx.pointer < (asn1_length_decode buf ctx len0).1.pointer ∧
      (asn1_length_decode buf ctx len0).1.error = ctx.error ∧
      len ≤ (asn1_length_decode buf ctx len0).1.end_ - (asn1_length_decode buf ctx len0).1.pointer ∧
      (d = 0 ∨ d = 1)) ∧
    ((asn1_length_decode buf ctx len0).2 = none →
      (asn1_length_decode buf ctx len0).1.error = ctx.error ∨
      (asn1_length_decode buf ctx len0).1.error = ASN1_ERR_DEC_EMPTY) := by
  unfold asn1_length_decode
  rcases octet_cases buf ctx with ⟨hp, e⟩ | ⟨hp, e⟩ <;> rw [e]
  · simp only
    generalize hb : buf.getD ctx.pointer 0 % 256 = b
    by_cases h80 : b = 0x80
    · simp only [h80, if_true]
      split_ifs with hl
      · exact ⟨frame_adv ctx hp, fun d len h => by simp at h, fun _ => Or.inl rfl⟩
      · refine ⟨frame_adv ctx hp, fun d len h => ?_, fun h => by simp at h⟩
        simp only [Option.some.injEq, Prod.mk.injEq] at h
        obtain ⟨rfl, rfl⟩ := h
        simp only at hl ⊢
        exact ⟨by omega, trivial, by omega, Or.inl trivial⟩
    · simp only [h80, if_false]
      by_cases hlt : b < 0x80
      · simp only [hlt, if_true]
        split_ifs with hl
        · exact ⟨frame_adv ctx hp, fun d len h => by simp at h, fun _ => Or.inl rfl⟩
        · refine ⟨frame_adv ctx hp, fun d len h => ?_, fun h => by simp at h⟩
          simp only [Option.some.injEq, Prod.mk.injEq] at h
          obtain ⟨rfl, rfl⟩ := h
          simp only at hl ⊢
          exact ⟨by omega, trivial, by omega, Or.inr trivial⟩
      · simp only [hlt, if_false]
        obtain ⟨h1, h2, h3⟩ := length_loop_spec buf ((b &&& 0x7F) % 256)
          { ctx with pointer := ctx.pointer + 1 } 0
        rcases hr : asn1_length_loop buf ((b &&& 0x7F) % 256)
          { ctx with pointer := ctx.pointer + 1 } 0 with ⟨c2, _ | len⟩
        · rw [hr] at h1 h3
          simp only
          exact ⟨Frame.trans_ (frame_adv ctx hp) h1, fun d len h => by simp at h,
            fun _ => Or.inr (h3 rfl)⟩
        · rw [hr] at h1 h2
          simp only
          have h2 := h2 rfl
          simp only at h2
          split_ifs with hl
          · exact ⟨Frame.trans_ (frame_adv ctx hp) h1, fun d len h => by simp at h,
              fun _ => Or.inl h2.2⟩
          · refine ⟨Frame.trans_ (frame_adv ctx hp) h1, fun d l h => ?_, fun h => by simp at h⟩
            simp only [Option.some.injEq, Prod.mk.injEq] at h
            obtain ⟨rfl, rfl⟩ := h
            simp only at hl ⊢
            exact ⟨by omega, h2.2, by omega, Or.inr trivial⟩
  · exact ⟨Frame.rfl_ _, fun d len h => by simp at h, fun _ => Or.inr rfl⟩

/-- The header decoder always returns.  A decoded header took at least two
octets, left the error alone, is definite when primitive, and a definite end
offset lies between the cursor and the buffer end. -/
theorem header_decode_spec (buf : List Nat) (ctx : asn1_ctx) :
    ∃ c r, asn1_header_decode buf ctx = some (c, r) ∧ Frame ctx c ∧
      (∀ h, r = some h → ctx.pointer + 2 ≤ c.pointer ∧ c.error = ctx.error ∧
        (h.con = ASN1_PRI → h.eoc ≠ none) ∧
        (∀ e, h.eoc = some e → c.pointer ≤ e ∧ (ctx.pointer ≤ ctx.end_ → e ≤ c.end_))) ∧
      (r = none → c.error = ctx.error ∨ c.error = ASN1_ERR_DEC_EMPTY) := by
  unfold asn1_header_decode
  obtain ⟨c1, r1, h1, hf1, hs1, he1⟩ := id_decode_spec buf ctx
  rw [h1]
  cases r1 with
  | none => exact ⟨_, _, rfl, hf1, fun h hh => by simp at hh, fun _ => Or.inr (he1 rfl)⟩
  | some v =>
    obtain ⟨cls, con, tag⟩ := v
    have hs1 := hs1 rfl
    obtain ⟨hf2, hs2, he2⟩ := length_decode_spec buf c1 0
    simp only
    rcases hr : asn1_length_decode buf c1 0 with ⟨c2, _ | ⟨d, len⟩⟩
    · rw [hr] at hf2 he2
      simp only
      refine ⟨_, _, rfl, Frame.trans_ hf1 hf2, fun h hh => by simp at hh, fun _ => ?_⟩
      rcases he2 rfl with h | h
      · exact Or.inl (by rw [h, hs1.2])
      · exact Or.inr h
    · rw [hr] at hf2 hs2
      obtain ⟨hp, herr, hlen, hd⟩ := hs2 d len rfl
      simp only at hp herr hlen hf2
      simp only
      have hfr := Frame.trans_ hf1 hf2
      by_cases hpi : con = ASN1_PRI ∧ d = 0
      · rw [if_pos hpi]
        exact ⟨_, _, rfl, hfr, fun h hh => by simp at hh, fun _ => Or.inl (by rw [herr, hs1.2])⟩
      · rw [if_neg hpi]
        by_cases hd0 : d ≠ 0
        · rw [if_pos hd0]
          refine ⟨_, _, rfl, hfr, fun h hh => ?_, fun h => by simp at h⟩
          simp only [Option.some.injEq] at hh
          subst hh
          refine ⟨by omega, by rw [herr, hs1.2], fun _ => by simp, fun e he => ?_⟩
          simp only [Option.some.injEq] at he
          subst he
          refine ⟨by omega, fun hle => ?_⟩
          have := hfr.2.2.2 hle
          have := hfr.2.1
          omega
        · rw [if_neg hd0]
          refine ⟨_, _, rfl, hfr, fun h hh => ?_, fun h => by simp at h⟩
          simp only [Option.some.injEq] at hh
          subst hh
          refine ⟨by omega, by rw [herr, hs1.2], fun hc => ?_, fun e he => by simp at he⟩
          simp only at hc
          exact absurd ⟨hc, by omega⟩ hpi

/-- Everything `asn1_eoc_decode` can do: bounds kept; success leaves the context
as it is for a definite end (the cursor stands on it) and consumes two zero
octets otherwise; failure records an error. -/
theorem eoc_decode_spec (buf : List Nat) (ctx : asn1_ctx) (eoc : Option Nat) :
    Frame ctx (asn1_eoc_decode buf ctx eoc).1 ∧
    ((asn1_eoc_decode buf ctx eoc).2 = true →
      (asn1_eoc_decode buf ctx eoc).1.error = ctx.error ∧
      (∀ e, eoc = some e → ctx.pointer = e ∧ (asn1_eoc_decode buf ctx eoc).1 = ctx)) ∧
    ((asn1_eoc_decode buf ctx eoc).2 = false →
      ((asn1_eoc_decode buf ctx eoc).1.error = ASN1_ERR_DEC_EMPTY ∨
       (asn1_eoc_decode buf ctx eoc).1.error = ASN1_ERR_DEC_EOC_MISMATCH ∨
       (asn1_eoc_decode buf ctx eoc).1.error = ASN1_ERR_DEC_LENGTH_MISMATCH) ∧
      (∀ e, eoc = some e → ctx.pointer ≠ e ∧
        (asn1_eoc_decode buf ctx eoc).1 = { ctx with error := ASN1_ERR_DEC_LENGTH_MISMATCH })) := by
  unfold asn1_eoc_decode
  cases eoc with
  | none =>
    simp only
    rcases octet_cases buf ctx with ⟨hp, e⟩ | ⟨hp, e⟩ <;> rw [e]
    · simp only
      by_cases h0 : buf.getD ctx.pointer 0 % 256 ≠ 0
      · rw [if_pos h0]
        exact ⟨frame_adv ctx hp, fun h => by simp at h,
          fun _ => ⟨Or.inr (Or.inl rfl), fun e he => by simp at he⟩⟩
      · rw [if_neg h0]
        rcases octet_cases buf { ctx with pointer := ctx.pointer + 1 } with ⟨hp2, e2⟩ | ⟨hp2, e2⟩ <;>
          rw [e2]
        · simp only
          have hfr : Frame ctx { ctx with pointer := ctx.pointer + 1 + 1 } :=
            ⟨rfl, rfl, by simp only; omega, fun _ => by simp only at hp2 ⊢; omega⟩
          by_cases h1 : buf.getD (ctx.pointer + 1) 0 % 256 ≠ 0
          · rw [if_pos h1]
            exact ⟨hfr, fun h => by simp at h,
              fun _ => ⟨Or.inr (Or.inl rfl), fun e he => by simp at he⟩⟩
          · rw [if_neg h1]
            exact ⟨hfr, fun _ => ⟨rfl, fun e he => by simp at he⟩, fun h => by simp at h⟩
        · exact ⟨frame_adv ctx hp, fun h => by simp at h,
            fun _ => ⟨Or.inl rfl, fun e he => by simp at he⟩⟩
    · exact ⟨Frame.rfl_ _, fun h => by simp at h, fun _ => ⟨Or.inl rfl, fun e he => by simp at he⟩⟩
  | some e =>
    simp only
    by_cases hne : ctx.pointer ≠ e
    · rw [if_pos hne]
      refine ⟨Frame.rfl_ _, fun h => by simp at h, fun _ => ⟨Or.inr (Or.inr rfl), fun e1 he => ?_⟩⟩
      simp only [Option.some.injEq] at he
      subst he
      exact ⟨hne, rfl⟩
    · rw [if_neg hne]
      refine ⟨Frame.rfl_ _, fun _ => ⟨rfl, fun e1 he => ?_⟩, fun h => by simp at h⟩
      simp only [Option.some.injEq] at he
      subst he
      exact ⟨by omega, rfl⟩

/-! ## Basic facts: object identifiers -/

theorem oid_loop_spec (buf : List Nat) (eoc size : Nat) :
    ∀ (fuel : Nat) (ctx : asn1_ctx) (oid : List Nat) (len : Nat),
    ctx.end_ - ctx.pointer < fuel →
    ∃ c r, asn1_oid_loop buf eoc size fuel ctx oid len = some (c, r) ∧ Frame ctx c ∧
      (r.isSome = true → c.error = ctx.error) ∧
      (r = none → c.error = ASN1_ERR_DEC_EMPTY ∨ c.error = ASN1_ERR_DEC_BADVALUE) := by
  intro fuel
  induction fuel with
  | zero => intro ctx oid len h; omega
  | succ n ih =>
    intro ctx oid len h
    unfold asn1_oid_loop
    by_cases hp : ctx.pointer < eoc
    · rw [if_pos hp]
      simp only
      by_cases hl : (len + 1) % 2 ^ UINT_BITS > size
      · rw [if_pos hl]
        exact ⟨_, _, rfl, Frame.rfl_ _, fun h => by simp at h, fun _ => Or.inr rfl⟩
      · rw [if_neg hl]
        obtain ⟨c1, r1, h1, hf1, hs1, he1⟩ := subid_decode_spec buf ctx
        rw [h1]
        cases r1 with
        | none =>
          exact ⟨_, _, rfl, hf1, fun h => by simp at h, fun _ => Or.inl (he1 rfl)⟩
        | some v =>
          simp only
          have hs1 := hs1 rfl
          obtain ⟨c, r, h2, hf2, hs2, he2⟩ := ih c1 (oid ++ [v]) ((len + 1) % 2 ^ UINT_BITS)
            (by have := hf1.2.1; have := hf1.2.2.2 (by omega); omega)
          exact ⟨c, r, h2, Frame.trans_ hf1 hf2, fun hr => by rw [hs2 hr, hs1.2.1], he2⟩
    · rw [if_neg hp]
      exact ⟨_, _, rfl, Frame.rfl_ _, fun _ => rfl, fun h => by simp at h⟩

/-- The OID decoder always returns and keeps the bounds. -/
theorem oid_decode_spec (buf : List Nat) (ctx : asn1_ctx) (eoc : Nat) :
    ∃ c r, asn1_oid_decode buf ctx eoc = some (c, r) ∧ Frame ctx c ∧
      (r.isSome = true → c.error = ctx.error) ∧
      (r = none → c.error = ctx.error ∨ c.error = ASN1_ERR_DEC_EMPTY ∨
        c.error = ASN1_ERR_DEC_BADVALUE) := by
  unfold asn1_oid_decode
  simp only
  by_cases hs : asn1_oid_size ctx eoc < 2 ∨ asn1_oid_size ctx eoc > UINT_MAX / SIZEOF_ULONG
  · rw [if_pos hs]
    exact ⟨_, _, rfl, Frame.rfl_ _, fun h => by simp at h, fun _ => Or.inl rfl⟩
  · rw [if_neg hs]
    obtain ⟨c1, r1, h1, hf1, hs1, he1⟩ := subid_decode_spec buf ctx
    rw [h1]
    cases r1 with
    | none =>
      exact ⟨_, _, rfl, hf1, fun h => by simp at h, fun _ => Or.inr (Or.inl (he1 rfl))⟩
    | some v =>
      simp only
      have hs1 := hs1 rfl
      obtain ⟨c, r, h2, hf2, hs2, he2⟩ := oid_loop_spec buf eoc (asn1_oid_size ctx eoc)
        (c1.end_ - c1.pointer + 1) c1
        (if v < 40 then [0, v] else if v < 80 then [1, v - 40] else [2, v - 80]) 2 (by omega)
      exact ⟨c, r, h2, Frame.trans_ hf1 hf2, fun hr => by rw [hs2 hr, hs1.2.1],
        fun hr => Or.inr (he2 hr)⟩

/-! ## Basic facts: the mechanism-list loop -/

theorem flags_le_refl (a : TCP_Server_Info) : flags_le a a := ⟨id, id, id, id⟩

theorem flags_le_trans {a b c : TCP_Server_Info} (h1 : flags_le a b) (h2 : flags_le b c) :
    flags_le a c :=
  ⟨fun h => h2.1 (h1.1 h), fun h => h2.2.1 (h1.2.1 h), fun h => h2.2.2.1 (h1.2.2.1 h),
    fun h => h2.2.2.2 (h1.2.2.2 h)⟩

theorem set_mech_flags_le (server : TCP_Server_Info) (oid : List Nat) (oidlen : Nat) :
    flags_le server (set_mech_flags server oid oidlen) := by
  unfold set_mech_flags
  split_ifs <;> exact ⟨by simp, by simp, by simp, by simp⟩

/-- Everything one pass of the loop can do. -/
theorem iter_spec (dbg : Bool) (buf : List Nat) (seq : Option Nat) (ctx : asn1_ctx)
    (server : TCP_Server_Info) (log : List Deref) :
    (∃ r, negTokenInit_iter dbg buf seq ctx server log = some (Sum.inl r) ∧
      Frame ctx r.ctx ∧ r.server = server ∧ r.derefs = log ∧
      ((r.rc = 1 ∧ r.ctx.error = ctx.error ∧ ∀ e, seq = some e → ctx.pointer = e ∧ r.ctx = ctx) ∨
       (r.rc = 0 ∧ ∀ e, seq = some e → ctx.pointer ≠ e ∧
          (r.ctx.error = ASN1_ERR_DEC_LENGTH_MISMATCH ∨ r.ctx.error = ASN1_ERR_DEC_EMPTY)))) ∨
    (∃ c s l, negTokenInit_iter dbg buf seq ctx server log = some (Sum.inr (c, s, l)) ∧
      Frame ctx c ∧ ctx.pointer + 2 ≤ c.pointer ∧ flags_le server s ∧
      (∀ e, seq = some e → ctx.pointer ≠ e)) := by
  unfold negTokenInit_iter
  obtain ⟨hf0, hs0, he0⟩ := eoc_decode_spec buf ctx seq
  rcases hr0 : asn1_eoc_decode buf ctx seq with ⟨c0, _ | _⟩
  · -- the loop condition holds: decode a header
    rw [hr0] at hf0 he0
    simp only at hf0
    obtain ⟨herr0, hdef0⟩ := he0 rfl
    simp only at herr0 hdef0
    simp only
    obtain ⟨c1, r1, h1, hf1, hs1, he1⟩ := header_decode_spec buf c0
    rw [h1]
    cases r1 with
    | none =>
      refine Or.inl ⟨_, rfl, Frame.trans_ hf0 hf1, rfl, rfl, Or.inr ⟨rfl, fun e he => ?_⟩⟩
      obtain ⟨hne, hc0⟩ := hdef0 e he
      refine ⟨hne, ?_⟩
      rcases he1 rfl with h | h
      · left; simp only; rw [h, hc0]
      · right; exact h
    | some h =>
      obtain ⟨hadv, herr1, hpri, heoc⟩ := hs1 h rfl
      simp only
      have hadv0 : ctx.pointer + 2 ≤ c1.pointer := by have := hf0.2.2.1; omega
      by_cases hoid : h.tag = ASN1_OJI ∧ h.con = ASN1_PRI
      · rw [if_pos hoid]
        rcases hq : h.eoc with _ | e
        · exact absurd hq (hpri hoid.2)
        · simp only
          obtain ⟨c2, r2, h2, hf2, _, _⟩ := oid_decode_spec buf c1 e
          rw [h2]
          have hfr := Frame.trans_ (Frame.trans_ hf0 hf1) hf2
          have hadv2 : ctx.pointer + 2 ≤ c2.pointer := by have := hf2.2.2.1; omega
          cases r2 with
          | none =>
            exact Or.inr ⟨_, _, _, rfl, hfr, hadv2, flags_le_refl _, fun e he => (hdef0 e he).1⟩
          | some v =>
            obtain ⟨oid, oidlen⟩ := v
            exact Or.inr ⟨_, _, _, rfl, hfr, hadv2, set_mech_flags_le _ _ _,
              fun e he => (hdef0 e he).1⟩
      · rw [if_neg hoid]
        exact Or.inr ⟨_, _, _, rfl, Frame.trans_ hf0 hf1, hadv0, flags_le_refl _,
          fun e he => (hdef0 e he).1⟩
  · -- the end of the list has been found
    rw [hr0] at hf0 hs0
    obtain ⟨herr0, hdef0⟩ := hs0 rfl
    simp only at hf0 herr0 hdef0
    exact Or.inl ⟨_, rfl, hf0, rfl, rfl, Or.inl ⟨rfl, herr0, hdef0⟩⟩

/-- With a pass budget above half the bytes left the loop returns; the flags
only grow; success is returned with the cursor on a definite `sequence_end`,
failure with `LengthMismatch` or `Empty` left in the context. -/
theorem loop_spec (dbg : Bool) (buf : List Nat) (seq : Option Nat) :
    ∀ (fuel : Nat) (ctx : asn1_ctx) (server : TCP_Server_Info) (log : List Deref),
    ctx.pointer ≤ ctx.end_ → (ctx.end_ - ctx.pointer) / 2 < fuel →
    ∃ r, negTokenInit_loop dbg buf seq fuel ctx server log = some r ∧
      Frame ctx r.ctx ∧ flags_le server r.server ∧
      ((r.rc = 1 ∧ ∀ e, seq = some e → r.ctx.pointer = e) ∨
       (r.rc = 0 ∧ ∀ e, seq = some e →
          (r.ctx.error = ASN1_ERR_DEC_LENGTH_MISMATCH ∨ r.ctx.error = ASN1_ERR_DEC_EMPTY))) := by
  intro fuel
  induction fuel with
  | zero => intro ctx server log _ h; omega
  | succ n ih =>
    intro ctx server log hle hfuel
    unfold negTokenInit_loop
    rcases iter_spec dbg buf seq ctx server log with
      ⟨r, hr, hf, hsrv, _, hrc⟩ | ⟨c, s, l, hr, hf, hadv, hfl, _⟩
    · rw [hr]
      refine ⟨r, rfl, hf, by rw [hsrv]; exact flags_le_refl _, ?_⟩
      rcases hrc with ⟨h1, _, h2⟩ | ⟨h0, h2⟩
      · exact Or.inl ⟨h1, fun e he => by rw [(h2 e he).2]; exact (h2 e he).1⟩
      · exact Or.inr ⟨h0, fun e he => (h2 e he).2⟩
    · rw [hr]
      simp only
      have hc := hf.2.2.2 hle
      have he := hf.2.1
      obtain ⟨r, h1, h2, h3, h4⟩ := ih c s l (by omega) (by omega)
      exact ⟨r, h1, Frame.trans_ hf h2, flags_le_trans hfl h3, h4⟩

set_option maxHeartbeats 2000000 in
/-- The six header steps always return; an early return is a failure that
leaves the flags alone; otherwise the loop is entered inside the buffer. -/
theorem steps_spec (dbg : Bool) (buf : List Nat) (length : Nat) (server : TCP_Server_Info) :
    (∃ r, negTokenInit_steps dbg buf length server = some (Sum.inl r) ∧
      r.rc = 0 ∧ r.server = server ∧ Frame (asn1_open length) r.ctx) ∨
    (∃ c seq, negTokenInit_steps dbg buf length server = some (Sum.inr (c, seq)) ∧
      Frame (asn1_open length) c ∧ c.error = ASN1_ERR_NOERROR ∧
      ∀ e, seq = some e → c.pointer ≤ e ∧ e ≤ c.end_) := by
  have hopen : (asn1_open length).pointer ≤ (asn1_open length).end_ := by
    simp [asn1_open]
  unfold negTokenInit_steps
  simp only
  obtain ⟨c1, r1, h1, hf1, hs1, -⟩ := header_decode_spec buf (asn1_open length)
  rw [h1]
  cases r1 with
  | none => exact Or.inl ⟨_, rfl, rfl, rfl, hf1⟩
  | some x1 =>
  have he1 := (hs1 x1 rfl).2.1
  simp only
  by_cases hsh1 : x1.cls ≠ ASN1_APL ∨ x1.con ≠ ASN1_CON ∨ x1.tag ≠ ASN1_EOC
  · rw [if_pos hsh1]
    exact Or.inl ⟨_, rfl, rfl, rfl, hf1⟩
  rw [if_neg hsh1]
  obtain ⟨c2, r2, h2, hf2, hs2, -⟩ := header_decode_spec buf c1
  rw [h2]
  have hF2 := Frame.trans_ hf1 hf2
  cases r2 with
  | none => exact Or.inl ⟨_, rfl, rfl, rfl, hF2⟩
  | some x2 =>
  have he2 := (hs2 x2 rfl).2.1
  simp only
  by_cases hsh2 : x2.tag = ASN1_OJI ∧ x2.con = ASN1_PRI ∧ x2.cls = ASN1_UNI
  swap
  · rw [if_neg hsh2]
    exact Or.inl ⟨_, rfl, rfl, rfl, hF2⟩
  rw [if_pos hsh2]
  rcases hq : x2.eoc with _ | e2
  · exact absurd hq ((hs2 x2 rfl).2.2.1 hsh2.2.1)
  simp only
  obtain ⟨c3, r3, h3, hf3, hs3, -⟩ := oid_decode_spec buf c2 e2
  rw [h3]
  have hF3 := Frame.trans_ hF2 hf3
  cases r3 with
  | none => exact Or.inl ⟨_, rfl, rfl, rfl, hF3⟩
  | some v =>
  obtain ⟨oid, oidlen⟩ := v
  have he3 := hs3 rfl
  simp only
  by_cases hcmp : compare_oid oid oidlen SPNEGO_OID SPNEGO_OID_LEN = 0
  · rw [if_pos hcmp]
    exact Or.inl ⟨_, rfl, rfl, rfl, hF3⟩
  rw [if_neg hcmp]
  obtain ⟨c4, r4, h4, hf4, hs4, -⟩ := header_decode_spec buf c3
  rw [h4]
  have hF4 := Frame.trans_ hF3 hf4
  cases r4 with
  | none => exact Or.inl ⟨_, rfl, rfl, rfl, hF4⟩
  | some x4 =>
  have he4 := (hs4 x4 rfl).2.1
  simp only
  by_cases hsh4 : x4.cls ≠ ASN1_CTX ∨ x4.con ≠ ASN1_CON ∨ x4.tag ≠ ASN1_EOC
  · rw [if_pos hsh4]
    exact Or.inl ⟨_, rfl, rfl, rfl, hF4⟩
  rw [if_neg hsh4]
  obtain ⟨c5, r5, h5, hf5, hs5, -⟩ := header_decode_spec buf c4
  rw [h5]
  have hF5 := Frame.trans_ hF4 hf5
  cases r5 with
  | none => exact Or.inl ⟨_, rfl, rfl, rfl, hF5⟩
  | some x5 =>
  have he5 := (hs5 x5 rfl).2.1
  simp only
  by_cases hsh5 : x5.cls ≠ ASN1_UNI ∨ x5.con ≠ ASN1_CON ∨ x5.tag ≠ ASN1_SEQ
  · rw [if_pos hsh5]
    exact Or.inl ⟨_, rfl, rfl, rfl, hF5⟩
  rw [if_neg hsh5]
  obtain ⟨c6, r6, h6, hf6, hs6, -⟩ := header_decode_spec buf c5
  rw [h6]
  have hF6 := Frame.trans_ hF5 hf6
  cases r6 with
  | none => exact Or.inl ⟨_, rfl, rfl, rfl, hF6⟩
  | some x6 =>
  have he6 := (hs6 x6 rfl).2.1
  simp only
  by_cases hsh6 : x6.cls ≠ ASN1_CTX ∨ x6.con ≠ ASN1_CON ∨ x6.tag ≠ ASN1_EOC
  · rw [if_pos hsh6]
    exact Or.inl ⟨_, rfl, rfl, rfl, hF6⟩
  rw [if_neg hsh6]
  obtain ⟨c7, r7, h7, hf7, hs7, -⟩ := header_decode_spec buf c6
  rw [h7]
  have hF7 := Frame.trans_ hF6 hf7
  cases r7 with
  | none => exact Or.inl ⟨_, rfl, rfl, rfl, hF7⟩
  | some x7 =>
  have he7 := (hs7 x7 rfl).2.1
  simp only
  by_cases hsh7 : x7.cls ≠ ASN1_UNI ∨ x7.con ≠ ASN1_CON ∨ x7.tag ≠ ASN1_SEQ
  · rw [if_pos hsh7]
    exact Or.inl ⟨_, rfl, rfl, rfl, hF7⟩
  rw [if_neg hsh7]
  refine Or.inr ⟨_, _, rfl, hF7, ?_, fun e he => ?_⟩
  · rw [he7, he6, he5, he4, he3, he2, he1]; rfl
  · have h := (hs7 x7 rfl).2.2.2 e he
    have hle6 : c6.pointer ≤ c6.end_ := by
      have := hF6.2.2.2 hopen
      rw [hF6.2.1]
      exact this
    exact ⟨h.1, h.2 hle6⟩

/-- The decoder returns on every input. -/
theorem decode_total (dbg : Bool) (buf : List Nat) (length : Nat) (server : TCP_Server_Info) :
    ∃ r, decode_negTokenInit dbg buf length server = some r ∧
      Frame (asn1_open length) r.ctx ∧ flags_le server r.server ∧ (r.rc = 1 ∨ r.rc = 0) := by
  unfold decode_negTokenInit
  rcases steps_spec dbg buf length server with ⟨r, hr, h0, hsrv, hf⟩ | ⟨c, seq, hr, hf, _, _⟩
  · rw [hr]
    exact ⟨r, rfl, hf, by rw [hsrv]; exact flags_le_refl _, Or.inr h0⟩
  · rw [hr]
    simp only
    have hle : c.pointer ≤ c.end_ := by
      have := hf.2.2.2 (by simp [asn1_open])
      rw [hf.2.1]
      exact this
    obtain ⟨r, h1, h2, h3, h4⟩ := loop_spec dbg buf seq ((c.end_ - c.pointer) / 2 + 1) c server []
      hle (by omega)
    refine ⟨r, h1, Frame.trans_ hf h2, h3, ?_⟩
    rcases h4 with ⟨h, _⟩ | ⟨h, _⟩
    · exact Or.inl h
    · exact Or.inr h

/-! ## Decoding given bytes -/

theorem drop_cons_inv {buf : List Nat} {p b : Nat} {t : List Nat} (h : buf.drop p = b :: t) :
    p < buf.length ∧ buf.getD p 0 = b ∧ buf.drop (p + 1) = t := by
  have hp : p < buf.length := by
    by_contra hc
    rw [List.drop_eq_nil_of_le (by omega)] at h
    cases h
  rw [List.drop_eq_getElem_cons hp] at h
  injection h with h1 h2
  refine ⟨hp, ?_, h2⟩
  rw [List.getD_eq_getElem _ _ hp]
  exact h1

set_option maxRecDepth 100000 in
theorem bit80 : ∀ b, b < 256 → ((b &&& 0x80 = 0x80) ↔ 128 ≤ b) := by decide

set_option maxRecDepth 100000 in
theorem and7f : ∀ b, b < 256 → 128 ≤ b → (b &&& 0x7F) % 256 = b - 128 := by decide

theorem at_length {buf : List Nat} {ctx : asn1_ctx} {bs : List Nat} (h : At buf ctx bs) :
    bs.length = ctx.end_ - ctx.pointer := by
  obtain ⟨he, hd⟩ := h
  rw [← hd, List.length_drop, he]

theorem at_cons {buf : List Nat} {ctx : asn1_ctx} {b : Nat} {t : List Nat}
    (h : At buf ctx (b :: t)) :
    asn1_octet_decode buf ctx = ({ ctx with pointer := ctx.pointer + 1 }, some (b % 256)) ∧
    At buf { ctx with pointer := ctx.pointer + 1 } t := by
  obtain ⟨he, hd⟩ := h
  obtain ⟨hp, hg, ht⟩ := drop_cons_inv hd
  refine ⟨?_, he, ht⟩
  rw [octet_ok buf ctx (by omega), hg]

theorem at_nil {buf : List Nat} {ctx : asn1_ctx} (h : At buf ctx []) :
    asn1_octet_decode buf ctx = ({ ctx with error := ASN1_ERR_DEC_EMPTY }, none) := by
  have := at_length h
  simp only [List.length_nil] at this
  have hp : ctx.end_ ≤ ctx.pointer := by omega
  exact octet_empty buf ctx hp

theorem at_append {buf : List Nat} {ctx : asn1_ctx} {xs ys : List Nat}
    (h : At buf ctx (xs ++ ys)) :
    At buf { ctx with pointer := ctx.pointer + xs.length } ys := by
  obtain ⟨he, hd⟩ := h
  refine ⟨he, ?_⟩
  show buf.drop (ctx.pointer + xs.length) = ys
  rw [← List.drop_drop, hd, List.drop_left]

theorem foldl_vstep (bs : List Nat) : ∀ (a a1 : Nat), a = a1 % 2 ^ 32 →
    bs.foldl vstep a = base128 a1 bs % 2 ^ 32 := by
  induction bs with
  | nil => intro a a1 h; simpa [base128] using h
  | cons b t ih =>
    intro a a1 h
    simp only [List.foldl_cons, base128]
    apply ih
    rw [vstep_eq, h]
    norm_num
    omega

/-- A run of continuation octets closed by a final octet is consumed whole and
yields the machine fold of the update. -/
theorem tag_loop_run (buf : List Nat) : ∀ (cont : List Nat) (last : Nat) (post : List Nat)
    (fuel : Nat) (ctx : asn1_ctx) (acc : Nat),
    (∀ b ∈ cont, 128 ≤ b ∧ b < 256) → last < 128 → At buf ctx (cont ++ last :: post) →
    cont.length < fuel →
    asn1_tag_loop buf fuel ctx acc =
      some ({ ctx with pointer := ctx.pointer + (cont.length + 1) },
            some ((cont ++ [last]).foldl vstep acc)) := by
  intro cont
  induction cont with
  | nil =>
    intro last post fuel ctx acc _ hl hat hf
    obtain ⟨n, rfl⟩ : ∃ n, fuel = n + 1 := ⟨fuel - 1, by simp at hf; omega⟩
    obtain ⟨ho, _⟩ := at_cons (by simpa using hat)
    rw [tag_loop_succ, ho]
    have h256 : last % 256 = last := Nat.mod_eq_of_lt (by omega)
    have hb : ¬ (last &&& 0x80 = 0x80) := by
      rw [bit80 last (by omega)]
      omega
    simp only [h256, hb, if_false, List.nil_append, List.foldl_cons, List.foldl_nil,
      List.length_nil, Nat.zero_add]
  | cons b t ih =>
    intro last post fuel ctx acc hc hl hat hf
    obtain ⟨n, rfl⟩ : ∃ n, fuel = n + 1 := ⟨fuel - 1, by simp at hf; omega⟩
    obtain ⟨ho, hat1⟩ := at_cons (by simpa using hat)
    obtain ⟨hb1, hb2⟩ := hc b (by simp)
    rw [tag_loop_succ, ho]
    have h256 : b % 256 = b := Nat.mod_eq_of_lt hb2
    have hb : b &&& 0x80 = 0x80 := (bit80 b hb2).mpr hb1
    simp only [h256, hb, if_true]
    rw [ih last post n _ (vstep acc b) (fun x hx => hc x (by simp [hx])) hl hat1
      (by simp at hf; omega)]
    simp only [List.cons_append, List.foldl_cons, List.length_cons]
    congr 3
    omega

/-- Continuation octets running up to the end of the buffer: the read past the
end fails with `Empty`. -/
theorem tag_loop_short (buf : List Nat) : ∀ (cont : List Nat) (fuel : Nat) (ctx : asn1_ctx)
    (acc : Nat), (∀ b ∈ cont, 128 ≤ b ∧ b < 256) → At buf ctx cont → cont.length < fuel →
    asn1_tag_loop buf fuel ctx acc =
      some ({ ctx with pointer := ctx.pointer + cont.length, error := ASN1_ERR_DEC_EMPTY },
            none) := by
  intro cont
  induction cont with
  | nil =>
    intro fuel ctx acc _ hat hf
    obtain ⟨n, rfl⟩ : ∃ n, fuel = n + 1 := ⟨fuel - 1, by simp at hf; omega⟩
    rw [tag_loop_succ, at_nil hat]
    rfl
  | cons b t ih =>
    intro fuel ctx acc hc hat hf
    obtain ⟨n, rfl⟩ : ∃ n, fuel = n + 1 := ⟨fuel - 1, by simp at hf; omega⟩
    obtain ⟨ho, hat1⟩ := at_cons hat
    obtain ⟨hb1, hb2⟩ := hc b (by simp)
    rw [tag_loop_succ, ho]
    have h256 : b % 256 = b := Nat.mod_eq_of_lt hb2
    have hb : b &&& 0x80 = 0x80 := (bit80 b hb2).mpr hb1
    simp only [h256, hb, if_true]
    rw [ih n _ (vstep acc b) (fun x hx => hc x (by simp [hx])) hat1 (by simp at hf; omega)]
    simp only [List.length_cons]
    congr 3
    omega

theorem lstep_eq (len ch : Nat) (h : ch < 256) : lstep len ch = (len * 256 + ch) % 2 ^ 32 := by
  unfold lstep
  have h1 : len <<< 8 = len * 256 := by rw [Nat.shiftLeft_eq]
  have h3 : (len * 256) % 2 ^ 32 = 2 ^ 8 * (len % 2 ^ 24) := by norm_num; omega
  rw [h1, h3, ← Nat.mul_add_lt_is_or (by norm_num; exact h)]
  norm_num
  omega

theorem foldl_lstep (ds : List Nat) : ∀ (a a1 : Nat), (∀ d ∈ ds, d < 256) → a = a1 % 2 ^ 32 →
    ds.foldl lstep a = ds.foldl (fun x o => x * 256 + o) a1 % 2 ^ 32 := by
  induction ds with
  | nil => intro a a1 _ h; simpa using h
  | cons b t ih =>
    intro a a1 hd h
    simp only [List.foldl_cons]
    apply ih _ _ (fun d hd1 => hd d (by simp [hd1]))
    rw [lstep_eq _ _ (hd b (by simp)), h]
    norm_num
    omega

theorem length_loop_succ (buf : List Nat) (cnt : Nat) (ctx : asn1_ctx) (len : Nat) :
    asn1_length_loop buf (cnt + 1) ctx len =
      match asn1_octet_decode buf ctx with
      | (ctx1, none) => (ctx1, none)
      | (ctx1, some ch) => asn1_length_loop buf cnt ctx1 (lstep len ch) := rfl

/-- The length-octet loop on octets that are all there. -/
theorem length_loop_run (buf : List Nat) : ∀ (ds post : List Nat) (ctx : asn1_ctx) (acc : Nat),
    At buf ctx (ds ++ post) → (∀ d ∈ ds, d < 256) →
    asn1_length_loop buf ds.length ctx acc =
      ({ ctx with pointer := ctx.pointer + ds.length }, some (ds.foldl lstep acc)) := by
  intro ds
  induction ds with
  | nil => intro post ctx acc _ _; rfl
  | cons b t ih =>
    intro post ctx acc hat hd
    obtain ⟨ho, hat1⟩ := at_cons (by simpa using hat)
    simp only [List.length_cons]
    rw [length_loop_succ, ho]
    simp only [Nat.mod_eq_of_lt (hd b (by simp))]
    rw [ih post _ _ hat1 (fun d hd1 => hd d (by simp [hd1]))]
    simp only [List.foldl_cons]
    congr 2
    omega

/-- The length-octet loop when the buffer ends before the count is used up. -/
theorem length_loop_short (buf : List Nat) : ∀ (bs : List Nat) (cnt : Nat) (ctx : asn1_ctx)
    (acc : Nat), At buf ctx bs → bs.length < cnt →
    asn1_length_loop buf cnt ctx acc =
      ({ ctx with pointer := ctx.pointer + bs.length, error := ASN1_ERR_DEC_EMPTY }, none) := by
  intro bs
  induction bs with
  | nil =>
    intro cnt ctx acc hat hc
    obtain ⟨n, rfl⟩ : ∃ n, cnt = n + 1 := ⟨cnt - 1, by simp at hc; omega⟩
    rw [length_loop_succ, at_nil hat]
    rfl
  | cons b t ih =>
    intro cnt ctx acc hat hc
    obtain ⟨n, rfl⟩ : ∃ n, cnt = n + 1 := ⟨cnt - 1, by simp at hc; omega⟩
    obtain ⟨ho, hat1⟩ := at_cons hat
    rw [length_loop_succ, ho]
    simp only
    rw [ih n _ _ hat1 (by simp at hc; omega)]
    simp only [List.length_cons]
    congr 2
    omega

theorem be_value_mod (ds : List Nat) (h : ∀ d ∈ ds, d < 256) :
    ds.foldl lstep 0 = be_value ds % 2 ^ 32 :=
  foldl_lstep ds 0 0 h rfl

/-- The length decoder on a definite length whose octets are all there: it
stops right behind them and accepts the length, reduced modulo `2 ^ 32`, when
that many bytes are left. -/
theorem length_decode_run (buf : List Nat) (ctx : asn1_ctx) (bs : List Nat) (L n len0 : Nat)
    (hat : At buf ctx bs) (hb : ∀ b ∈ bs.take n, b < 256)
    (hd : declared_length bs = some (L, n)) :
    asn1_length_decode buf ctx len0 =
      if L % 2 ^ 32 > bs.length - n then ({ ctx with pointer := ctx.pointer + n }, none)
      else ({ ctx with pointer := ctx.pointer + n }, some (1, L % 2 ^ 32)) := by
  cases bs with
  | nil => simp [declared_length] at hd
  | cons b rest =>
    obtain ⟨ho, hat1⟩ := at_cons hat
    simp only [declared_length] at hd
    by_cases hlt : b < 0x80
    · rw [if_pos hlt] at hd
      simp only [Option.some.injEq, Prod.mk.injEq] at hd
      obtain ⟨rfl, rfl⟩ := hd
      have hb256 : b < 256 := by omega
      unfold asn1_length_decode
      rw [ho]
      simp only [Nat.mod_eq_of_lt hb256]
      have h80 : ¬ (b = 0x80) := by omega
      have hmod : b % 2 ^ 32 = b := Nat.mod_eq_of_lt (by omega)
      simp only [h80, hlt, if_true, if_false, hmod, List.length_cons]
      have hlen := at_length hat1
      simp only at hlen
      rw [← hlen]
      simp only [Nat.add_sub_cancel]
    · rw [if_neg hlt] at hd
      by_cases hbad : b = 0x80 ∨ 0x100 ≤ b ∨ rest.length < b - 0x80
      · rw [if_pos hbad] at hd
        cases hd
      · rw [if_neg hbad] at hd
        simp only [Option.some.injEq, Prod.mk.injEq] at hd
        obtain ⟨rfl, rfl⟩ := hd
        have hb256 : b < 256 := by
          by_contra hc
          exact hbad (Or.inr (Or.inl (by omega)))
        have htake : ∀ d ∈ rest.take (b - 128), d < 256 := by
          intro d hd1
          apply hb d
          rw [Nat.add_comm 1, List.take_succ_cons]
          exact List.mem_cons_of_mem _ hd1
        unfold asn1_length_decode
        rw [ho]
        simp only [Nat.mod_eq_of_lt hb256]
        have h80 : ¬ (b = 0x80) := fun h => hbad (Or.inl h)
        have hcnt : (b &&& 0x7F) % 256 = b - 128 := and7f b hb256 (by omega)
        simp only [h80, hlt, if_false, hcnt]
        have hsplit : rest = rest.take (b - 128) ++ rest.drop (b - 128) :=
          (List.take_append_drop _ _).symm
        have htl : (rest.take (b - 128)).length = b - 128 := by
          rw [List.length_take]
          omega
        have hat2 : At buf { ctx with pointer := ctx.pointer + 1 }
            (rest.take (b - 128) ++ rest.drop (b - 128)) := by
          rw [← hsplit]
          exact hat1
        have hrun := length_loop_run buf (rest.take (b - 128)) (rest.drop (b - 128)) _ 0 hat2
          htake
        rw [htl] at hrun
        rw [hrun]
        simp only
        rw [be_value_mod _ htake]
        have hlen := at_length hat1
        simp only at hlen
        have e1 : ctx.pointer + 1 + (b - 128) = ctx.pointer + (1 + (b - 128)) := by omega
        have e2 : ctx.end_ - (ctx.pointer + (1 + (b - 128))) =
            (b :: rest).length - (1 + (b - 128)) := by
          simp only [List.length_cons]
          omega
        rw [e1, e2]

/-- The identifier decoder on a low-tag-number identifier octet. -/
theorem id_decode_run (buf : List Nat) (ctx : asn1_ctx) (idb : Nat) (rest : List Nat)
    (hat : At buf ctx (idb :: rest)) (h256 : idb < 256) (hlow : idb &&& 0x1F ≠ 0x1F) :
    asn1_id_decode buf ctx =
      some ({ ctx with pointer := ctx.pointer + 1 },
            some ((idb &&& 0xC0) >>> 6, (idb &&& 0x20) >>> 5, idb &&& 0x1F)) := by
  obtain ⟨ho, _⟩ := at_cons hat
  unfold asn1_id_decode
  rw [ho]
  simp only [Nat.mod_eq_of_lt h256, hlow, if_false]

/-- The header decoder on a low-tag-number identifier octet followed by a
definite length whose octets are all there. -/
theorem header_decode_run (buf : List Nat) (ctx : asn1_ctx) (idb : Nat) (bs : List Nat)
    (L n : Nat) (hat : At buf ctx (idb :: bs)) (h256 : idb < 256)
    (hb : ∀ b ∈ bs.take n, b < 256)
    (hlow : idb &&& 0x1F ≠ 0x1F) (hd : declared_length bs = some (L, n)) :
    asn1_header_decode buf ctx =
      if L % 2 ^ 32 > bs.length - n then
        some ({ ctx with pointer := ctx.pointer + 1 + n }, none)
      else
        some ({ ctx with pointer := ctx.pointer + 1 + n },
              some { eoc := some (ctx.pointer + 1 + n + L % 2 ^ 32),
                     cls := (idb &&& 0xC0) >>> 6, con := (idb &&& 0x20) >>> 5,
                     tag := idb &&& 0x1F }) := by
  unfold asn1_header_decode
  rw [id_decode_run buf ctx idb bs hat h256 hlow]
  simp only
  rw [length_decode_run buf _ bs L n 0 (at_cons hat).2 hb hd]
  by_cases hov : L % 2 ^ 32 > bs.length - n
  · simp only [hov, if_true]
  · simp only [hov, if_false]
    simp

/-- The header decoder on a constructed low-tag-number identifier octet
followed by the indefinite-length octet. -/
theorem header_decode_run_indef (buf : List Nat) (ctx : asn1_ctx) (idb : Nat) (post : List Nat)
    (hat : At buf ctx (idb :: 0x80 :: post)) (h256 : idb < 256)
    (hlow : idb &&& 0x1F ≠ 0x1F) (hcon : (idb &&& 0x20) >>> 5 ≠ ASN1_PRI) :
    asn1_header_decode buf ctx =
      some ({ ctx with pointer := ctx.pointer + 2 },
            some { eoc := none, cls := (idb &&& 0xC0) >>> 6, con := (idb &&& 0x20) >>> 5,
                   tag := idb &&& 0x1F }) := by
  unfold asn1_header_decode
  rw [id_decode_run buf ctx idb _ hat h256 hlow]
  simp only
  obtain ⟨ho, _⟩ := at_cons (at_cons hat).2
  unfold asn1_length_decode
  rw [ho]
  simp [hcon]

/-! ## Failure and the capability flags -/

/-- C2 as stated fails: on `tok_cut_element` the first pass of the loop sets
`sec_ntlmssp`, the second pass fails to decode a header (the blob ends behind
the identifier octet), and the decoder returns 0 with the flag still set. -/
theorem failure_keeps_set_flag :
    decode_negTokenInit false tok_cut_element 31 no_flags =
      some { rc := 0, server := { no_flags with sec_ntlmssp := true },
             ctx := { error := ASN1_ERR_DEC_EMPTY, pointer := 31, begin := 0, end_ := 31 },
             derefs := [] } := by
  decide

/-- A pass of the loop that returns hands back the flags it was entered with. -/
theorem iter_return_flags (dbg : Bool) (buf : List Nat) (seq : Option Nat) (c : asn1_ctx)
    (s : TCP_Server_Info) (l : List Deref) (r : neg_result)
    (h : negTokenInit_iter dbg buf seq c s l = some (Sum.inl r)) : r.server = s := by
  rcases iter_spec dbg buf seq c s l with ⟨r1, h1, _, hs, _⟩ | ⟨c1, s1, l1, h1, _⟩
  · rw [h1] at h
    simp only [Option.some.injEq, Sum.inl.injEq] at h
    rw [← h]
    exact hs
  · rw [h1] at h
    simp at h

/-- The loop, whatever the fuel, returns from a pass that is reached from its
starting state, with the flags of that pass, and clears no flag on the way. -/
theorem loop_at_exit (dbg : Bool) (buf : List Nat) (length : Nat) (server : TCP_Server_Info)
    (seq : Option Nat) :
    ∀ (fuel : Nat) (c : asn1_ctx) (s : TCP_Server_Info) (l : List Deref) (r : neg_result),
      neg_loop_at dbg buf length server seq c s l →
      negTokenInit_loop dbg buf seq fuel c s l = some r →
      flags_le s r.server ∧
      ∃ c1 s1 l1, neg_loop_at dbg buf length server seq c1 s1 l1 ∧
        negTokenInit_iter dbg buf seq c1 s1 l1 = some (Sum.inl r) ∧ r.server = s1 := by
  intro fuel
  induction fuel with
  | zero => intro c s l r _ h; simp [negTokenInit_loop] at h
  | succ n ih =>
    intro c s l r hat h
    unfold negTokenInit_loop at h
    rcases hi : negTokenInit_iter dbg buf seq c s l with _ | ⟨r1 | ⟨c1, s1, l1⟩⟩
    · rw [hi] at h; simp at h
    · rw [hi] at h
      simp only [Option.some.injEq] at h
      subst h
      have hs := iter_return_flags dbg buf seq c s l r1 hi
      refine ⟨by rw [hs]; exact flags_le_refl _, c, s, l, hat, hi, hs⟩
    · rw [hi] at h
      simp only at h
      have hle : flags_le s s1 := by
        rcases iter_spec dbg buf seq c s l with ⟨r1, h1, _⟩ | ⟨c2, s2, l2, h1, _, _, hfl, _⟩
        · rw [h1] at hi
          simp at hi
        · rw [h1] at hi
          simp only [Option.some.injEq, Sum.inr.injEq, Prod.mk.injEq] at hi
          rw [← hi.2.1]
          exact hfl
      obtain ⟨g1, g2⟩ := ih c1 s1 l1 r (neg_loop_at.pass seq c c1 s s1 l l1 hat hi) h
      exact ⟨flags_le_trans hle g1, g2⟩

/-- From every state of the loop the loop goes on to the result of the decoder. -/
theorem loop_at_leads (dbg : Bool) (buf : List Nat) (length : Nat) (server : TCP_Server_Info)
    (r : neg_result) (hr : decode_negTokenInit dbg buf length server = some r)
    (seq : Option Nat) (c : asn1_ctx) (s : TCP_Server_Info) (l : List Deref)
    (hat : neg_loop_at dbg buf length server seq c s l) :
    ∃ fuel, negTokenInit_loop dbg buf seq fuel c s l = some r := by
  induction hat with
  | entry c seq hs =>
    unfold decode_negTokenInit at hr
    rw [hs] at hr
    exact ⟨_, hr⟩
  | pass seq c c1 s s1 l l1 _ hi ih =>
    obtain ⟨fuel, hf⟩ := ih
    cases fuel with
    | zero => simp [negTokenInit_loop] at hf
    | succ n =>
      unfold negTokenInit_loop at hf
      rw [hi] at hf
      exact ⟨n, hf⟩

/-- C2 (amended): the decoder returns on every input and never clears a flag.
When it returns from one of the six header steps, before the mechanism-list
loop, it returns 0 and the flags are exactly as on entry.  When it enters the
loop, it returns from a pass of the loop with exactly the flags that pass was
entered with, and every flag that was set at the start of any pass of the loop
is still set on exit, whether the decoder returns 1 or 0: nothing is rolled
back. -/
theorem no_rollback_of_flags (dbg : Bool) (buf : List Nat) (length : Nat)
    (server : TCP_Server_Info) :
    ∃ r, decode_negTokenInit dbg buf length server = some r ∧ flags_le server r.server ∧
      (∀ r0, negTokenInit_steps dbg buf length server = some (Sum.inl r0) →
        r = r0 ∧ r.rc = 0 ∧ r.server = server) ∧
      (∀ seq c s l, neg_loop_at dbg buf length server seq c s l → flags_le s r.server) ∧
      (∀ c0 seq, negTokenInit_steps dbg buf length server = some (Sum.inr (c0, seq)) →
        ∃ c s l, neg_loop_at dbg buf length server seq c s l ∧
          negTokenInit_iter dbg buf seq c s l = some (Sum.inl r) ∧ r.server = s) := by
  obtain ⟨r, hr, _, hfl, _⟩ := decode_total dbg buf length server
  refine ⟨r, hr, hfl, fun r0 h0 => ?_, fun seq c s l hat => ?_, fun c0 seq h0 => ?_⟩
  · rcases steps_spec dbg buf length server with ⟨r1, h1, hrc, hsrv, _⟩ | ⟨c, seq, h1, _⟩
    · rw [h1] at h0
      simp only [Option.some.injEq, Sum.inl.injEq] at h0
      subst h0
      unfold decode_negTokenInit at hr
      rw [h1] at hr
      simp only [Option.some.injEq] at hr
      subst hr
      exact ⟨rfl, hrc, hsrv⟩
    · rw [h1] at h0
      simp at h0
  · obtain ⟨fuel, hf⟩ := loop_at_leads dbg buf length server r hr seq c s l hat
    exact (loop_at_exit dbg buf length server seq fuel c s l r hat hf).1
  · have hat : neg_loop_at dbg buf length server seq c0 server [] :=
      neg_loop_at.entry c0 seq h0
    obtain ⟨fuel, hf⟩ := loop_at_leads dbg buf length server r hr seq c0 server [] hat
    exact (loop_at_exit dbg buf length server seq fuel c0 server [] r hat hf).2

/-- C2 (amended) on `tok_cut_element`: the second pass of the loop is entered
with `sec_ntlmssp` set by the first, and the decoder returns 0 from it with the
flag still set. -/
theorem no_rollback_of_flags_witness :
    neg_loop_at false tok_cut_element 31 no_flags (some 31)
      { error := ASN1_ERR_DEC_LENGTH_MISMATCH, pointer := 30, begin := 0, end_ := 31 }
      { no_flags with sec_ntlmssp := true } [] ∧
    ∃ r, decode_negTokenInit false tok_cut_element 31 no_flags = some r ∧ r.rc = 0 ∧
      r.server.sec_ntlmssp = true := by
  have hat : neg_loop_at false tok_cut_element 31 no_flags (some 31)
      { error := ASN1_ERR_DEC_LENGTH_MISMATCH, pointer := 30, begin := 0, end_ := 31 }
      { no_flags with sec_ntlmssp := true } [] :=
    neg_loop_at.pass (some 31)
      { error := ASN1_ERR_NOERROR, pointer := 18, begin := 0, end_ := 31 } _ no_flags _ [] []
      (neg_loop_at.entry _ _ (by decide)) (by decide)
  obtain ⟨r, hr, _, _, h4, _⟩ := no_rollback_of_flags false tok_cut_element 31 no_flags
  have e : decode_negTokenInit false tok_cut_element 31 no_flags =
      some { rc := 0, server := { no_flags with sec_ntlmssp := true },
             ctx := { error := ASN1_ERR_DEC_EMPTY, pointer := 31, begin := 0, end_ := 31 },
             derefs := [] } := by decide
  have hrc : r.rc = 0 := by
    rw [e] at hr
    simp only [Option.some.injEq] at hr
    rw [← hr]
  exact ⟨hat, r, hr, hrc, (h4 _ _ _ _ hat).2.2.2 rfl⟩

/-! ## Dereferences in the debugging statements -/

/-- C3, the code at two failing inputs, with debugging output switched on.  On
`tok_shape_indef` the third header is of indefinite length, so `end` is `NULL`
when the shape mismatch is reported and `*end` dereferences `NULL`.  On
`tok_shape_end` the third header is an empty element at the end of the
12-octet blob, so `end` is offset 12 and `*end` reads one past the buffer. -/
theorem debug_dereferences_end :
    decode_negTokenInit true tok_shape_indef 12 no_flags =
      some { rc := 0, server := no_flags,
             ctx := { error := ASN1_ERR_NOERROR, pointer := 12, begin := 0, end_ := 12 },
             derefs := [Deref.end_ptr none] } ∧
    decode_negTokenInit true tok_shape_end 12 no_flags =
      some { rc := 0, server := no_flags,
             ctx := { error := ASN1_ERR_NOERROR, pointer := 12, begin := 0, end_ := 12 },
             derefs := [Deref.end_ptr (some 12)] } := by
  constructor <;> decide

/-! ## The length check -/

/-- C4 as stated fails.  The header `30 05` at the end of a two-octet buffer
declares five octets where none is left: the header decoder fails, but the
error left in the context is `ASN1_ERR_NOERROR`, not `LengthMismatch`.  The
header `30 85 01 00 00 00 00` declares `2 ^ 32` octets where none is left and
is accepted with length `0`. -/
theorem length_check_records_nothing :
    asn1_header_decode [0x30, 0x05] (asn1_open 2) =
      some ({ error := ASN1_ERR_NOERROR, pointer := 2, begin := 0, end_ := 2 }, none) ∧
    declared_length [0x85, 0x01, 0, 0, 0, 0] = some (2 ^ 32, 6) ∧
    asn1_header_decode [0x30, 0x85, 0x01, 0, 0, 0, 0] (asn1_open 7) =
      some ({ error := ASN1_ERR_NOERROR, pointer := 7, begin := 0, end_ := 7 },
            some { eoc := some 7, cls := 0, con := 1, tag := 16 }) := by
  refine ⟨by decide, by decide, by decide⟩

/-- C4 (amended): when the identifier of a header has been decoded and the
length octets behind it declare a definite length below `2 ^ 32` that exceeds
the bytes left behind them, `asn1_header_decode` fails with the cursor right
behind the length octets (no value byte consumed) and with the error of the
context left as it was on entry: the length check records no error. -/
theorem header_length_overrun (buf : List Nat) (ctx ctx1 : asn1_ctx) (cls con tag : Nat)
    (bs : List Nat) (L n : Nat)
    (hid : asn1_id_decode buf ctx = some (ctx1, some (cls, con, tag)))
    (hat : At buf ctx1 bs) (hb : ∀ b ∈ bs, b < 256)
    (hd : declared_length bs = some (L, n)) (h32 : L < 2 ^ 32) (hover : bs.length - n < L) :
    asn1_header_decode buf ctx =
      some ({ ctx1 with pointer := ctx1.pointer + n, error := ctx.error }, none) := by
  obtain ⟨c, r, h1, _, hs, _⟩ := id_decode_spec buf ctx
  rw [hid] at h1
  simp only [Option.some.injEq, Prod.mk.injEq] at h1
  obtain ⟨rfl, rfl⟩ := h1
  have herr := (hs rfl).2
  unfold asn1_header_decode
  rw [hid]
  simp only
  rw [length_decode_run buf ctx1 bs L n 0 hat (fun b hb1 => hb b (List.mem_of_mem_take hb1)) hd,
    Nat.mod_eq_of_lt h32, if_pos hover]
  simp only [herr]

/-- C4 (amended) on the header `30 05` at the end of a two-octet buffer. -/
theorem header_length_overrun_witness :
    asn1_header_decode [0x30, 0x05] (asn1_open 2) =
      some ({ error := 0, pointer := 2, begin := 0, end_ := 2 }, none) :=
  header_length_overrun [0x30, 0x05] (asn1_open 2)
    { error := 0, pointer := 1, begin := 0, end_ := 2 } 0 1 16 [0x05] 5 1
    (by decide) ⟨rfl, rfl⟩ (by decide) (by decide) (by decide) (by decide)

/-! ## Overflow in the continuation loops -/

/-- C6 as stated fails: seven octets, six of them with the continuation bit,
are accepted both as a tag and as a sub-identifier; the value `128 ^ 6 + 6`
they encode has wrapped to `6`. -/
theorem long_varint_wraps :
    base128 0 [0x81, 0x80, 0x80, 0x80, 0x80, 0x80, 0x06] = 128 ^ 6 + 6 ∧
    asn1_tag_decode [0x81, 0x80, 0x80, 0x80, 0x80, 0x80, 0x06] (asn1_open 7) =
      some ({ error := ASN1_ERR_NOERROR, pointer := 7, begin := 0, end_ := 7 }, some 6) ∧
    asn1_subid_decode [0x81, 0x80, 0x80, 0x80, 0x80, 0x80, 0x06] (asn1_open 7) =
      some ({ error := ASN1_ERR_NOERROR, pointer := 7, begin := 0, end_ := 7 }, some 6) := by
  refine ⟨by decide, by decide, by decide⟩

/-- C6 (amended): `asn1_tag_decode` and `asn1_subid_decode` put no cap on the
number of octets.  A run of continuation octets of any length closed by a
final octet inside the buffer is consumed whole and accepted, and the value
returned is the base-128 integer of the run reduced modulo `2 ^ 32`.  The only
failure is `Empty`, when the buffer ends before a final octet. -/
theorem varint_unbounded (buf : List Nat) (ctx : asn1_ctx) :
    (∀ cont last post, (∀ b ∈ cont, 128 ≤ b ∧ b < 256) → last < 128 →
      At buf ctx (cont ++ last :: post) →
      asn1_tag_decode buf ctx =
        some ({ ctx with pointer := ctx.pointer + (cont.length + 1) },
              some (base128 0 (cont ++ [last]) % 2 ^ UINT_BITS)) ∧
      asn1_subid_decode buf ctx =
        some ({ ctx with pointer := ctx.pointer + (cont.length + 1) },
              some (base128 0 (cont ++ [last]) % 2 ^ ULONG_BITS))) ∧
    (∀ cont, (∀ b ∈ cont, 128 ≤ b ∧ b < 256) → At buf ctx cont →
      asn1_tag_decode buf ctx =
        some ({ ctx with pointer := ctx.pointer + cont.length,
                         error := ASN1_ERR_DEC_EMPTY }, none) ∧
      asn1_subid_decode buf ctx =
        some ({ ctx with pointer := ctx.pointer + cont.length,
                         error := ASN1_ERR_DEC_EMPTY }, none)) := by
  constructor
  · intro cont last post hc hl hat
    have hlen := at_length hat
    have h := tag_loop_run buf cont last post (ctx.end_ - ctx.pointer + 1) ctx 0 hc hl hat
      (by rw [← hlen]; simp; omega)
    rw [foldl_vstep (cont ++ [last]) 0 0 rfl] at h
    exact ⟨h, by rw [subid_decode_eq]; exact h⟩
  · intro cont hc hat
    have hlen := at_length hat
    have h := tag_loop_short buf cont (ctx.end_ - ctx.pointer + 1) ctx 0 hc hat
      (by rw [← hlen]; omega)
    exact ⟨h, by rw [subid_decode_eq]; exact h⟩

/-- C6 (amended) on the three octets `86 f7 12` of the arc 113554. -/
theorem varint_unbounded_witness :
    asn1_subid_decode [0x86, 0xf7, 0x12] (asn1_open 3) =
      some ({ error := 0, pointer := 3, begin := 0, end_ := 3 }, some 113554) :=
  ((varint_unbounded [0x86, 0xf7, 0x12] (asn1_open 3)).1 [0x86, 0xf7] 0x12 []
    (by decide) (by decide) ⟨rfl, rfl⟩).2

/-! ## Termination -/

/-- C8: `decode_negTokenInit` returns on every input; a pass of the
mechanism-list loop that goes round again has moved the cursor forward by at
least two octets and kept it inside the buffer, so a budget of half the
remaining bytes plus the final pass is always enough; the continuation loops
of `asn1_tag_decode` and `asn1_subid_decode` return within one pass per
remaining byte plus the failing read, and the length-octet loop consumes at
most its count and never leaves the buffer. -/
theorem negTokenInit_terminates (dbg : Bool) (buf : List Nat) (length : Nat)
    (server : TCP_Server_Info) :
    (∃ r, decode_negTokenInit dbg buf length server = some r) ∧
    (∀ seq ctx srv log c s l,
      negTokenInit_iter dbg buf seq ctx srv log = some (Sum.inr (c, s, l)) →
      ctx.pointer + 2 ≤ c.pointer ∧ c.end_ = ctx.end_ ∧
      (ctx.pointer ≤ ctx.end_ → c.pointer ≤ c.end_)) ∧
    (∀ seq fuel ctx srv log, ctx.pointer ≤ ctx.end_ → (ctx.end_ - ctx.pointer) / 2 < fuel →
      ∃ r, negTokenInit_loop dbg buf seq fuel ctx srv log = some r) ∧
    (∀ fuel ctx acc, ctx.end_ - ctx.pointer < fuel →
      (∃ r, asn1_tag_loop buf fuel ctx acc = some r) ∧
      (∃ r, asn1_subid_loop buf fuel ctx acc = some r)) ∧
    (∀ cnt ctx len, ctx.pointer ≤ ctx.end_ →
      (asn1_length_loop buf cnt ctx len).1.pointer ≤ ctx.pointer + cnt ∧
      (asn1_length_loop buf cnt ctx len).1.pointer ≤ ctx.end_) := by
  refine ⟨?_, ?_, ?_, ?_, ?_⟩
  · obtain ⟨r, h, _⟩ := decode_total dbg buf length server
    exact ⟨r, h⟩
  · intro seq ctx srv log c s l h
    rcases iter_spec dbg buf seq ctx srv log with ⟨r, hr, _⟩ | ⟨c1, s1, l1, hr, hf, hadv, _⟩
    · rw [hr] at h
      simp at h
    · rw [hr] at h
      simp only [Option.some.injEq, Sum.inr.injEq, Prod.mk.injEq] at h
      obtain ⟨rfl, _, _⟩ := h
      exact ⟨hadv, hf.2.1, fun hle => by rw [hf.2.1]; exact hf.2.2.2 hle⟩
  · intro seq fuel ctx srv log hle hfuel
    obtain ⟨r, h, _⟩ := loop_spec dbg buf seq fuel ctx srv log hle hfuel
    exact ⟨r, h⟩
  · intro fuel ctx acc hfuel
    obtain ⟨c, r, h, _⟩ := tag_loop_spec buf fuel ctx acc hfuel
    exact ⟨⟨_, h⟩, ⟨_, by rw [subid_loop_eq]; exact h⟩⟩
  · intro cnt ctx len hle
    obtain ⟨hf, _, _⟩ := length_loop_spec buf cnt ctx len
    exact ⟨length_loop_le buf cnt ctx len, hf.2.2.2 hle⟩

/-- C8 at the 30-octet NTLMSSP token: the decoder returns, and a loop started
at its mechanism list with a budget of one pass per two octets returns. -/
theorem negTokenInit_terminates_witness :
    (∃ r, decode_negTokenInit false tok_ntlmssp 30 no_flags = some r) ∧
    (∃ r, negTokenInit_loop false tok_ntlmssp (some 30) 7
      { error := 0, pointer := 18, begin := 0, end_ := 30 } no_flags [] = some r) :=
  ⟨(negTokenInit_terminates false tok_ntlmssp 30 no_flags).1,
   (negTokenInit_terminates false tok_ntlmssp 30 no_flags).2.2.1 (some 30) 7
      { error := 0, pointer := 18, begin := 0, end_ := 30 } no_flags [] (by decide) (by decide)⟩

/-! ## The end of the mechanism list -/

theorem same_cursor_refl (c : asn1_ctx) : same_cursor c c := ⟨rfl, rfl, rfl⟩

theorem same_cursor_set (c : asn1_ctx) (e : Nat) : same_cursor c { c with error := e } :=
  ⟨rfl, rfl, rfl⟩

theorem same_cursor_eq {c c1 : asn1_ctx} (h : same_cursor c c1) :
    ∃ e, c1 = { c with error := e } := by
  obtain ⟨hp, hb, he⟩ := h
  refine ⟨c1.error, ?_⟩
  cases c
  cases c1
  simp only at hp hb he
  subst hp hb he
  rfl

theorem agree_some {α : Type} {c c1 : asn1_ctx} (v : α) (h : same_cursor c c1) :
    agree (some (c, v)) (some (c1, v)) := ⟨h, rfl⟩

theorem agree_none_elim {α : Type} {r1 : Option (asn1_ctx × α)} (h : agree none r1) :
    r1 = none := by
  cases r1 with
  | none => rfl
  | some x => exact absurd h (by simp [agree])

theorem agree_some_elim {α : Type} {c : asn1_ctx} {v : α} {r1 : Option (asn1_ctx × α)}
    (h : agree (some (c, v)) r1) : ∃ c1, r1 = some (c1, v) ∧ same_cursor c c1 := by
  cases r1 with
  | none => exact absurd h (by simp [agree])
  | some x =>
    obtain ⟨c1, v1⟩ := x
    obtain ⟨h1, h2⟩ := h
    exact ⟨c1, by rw [h2], h1⟩

theorem octet_agree (buf : List Nat) (c c1 : asn1_ctx) (h : same_cursor c c1) :
    same_cursor (asn1_octet_decode buf c).1 (asn1_octet_decode buf c1).1 ∧
    (asn1_octet_decode buf c).2 = (asn1_octet_decode buf c1).2 := by
  obtain ⟨hp, hb, he⟩ := h
  unfold asn1_octet_decode
  rw [hp, he]
  split_ifs
  · exact ⟨⟨rfl, hb, rfl⟩, rfl⟩
  · exact ⟨⟨rfl, hb, rfl⟩, rfl⟩

/-- The two outcomes of `asn1_octet_decode` from contexts that differ in the
error only, side by side. -/
theorem octet_agree_cases (buf : List Nat) (c c1 : asn1_ctx) (h : same_cursor c c1) :
    (∃ d d1, asn1_octet_decode buf c = (d, none) ∧ asn1_octet_decode buf c1 = (d1, none) ∧
      same_cursor d d1) ∨
    (∃ d d1 ch, asn1_octet_decode buf c = (d, some ch) ∧
      asn1_octet_decode buf c1 = (d1, some ch) ∧ same_cursor d d1) := by
  obtain ⟨hs, hv⟩ := octet_agree buf c c1 h
  rcases h1 : asn1_octet_decode buf c with ⟨d, _ | ch⟩ <;>
    rcases h2 : asn1_octet_decode buf c1 with ⟨d1, _ | ch1⟩ <;>
    rw [h1, h2] at hs hv <;> simp only at hs hv
  · exact Or.inl ⟨d, d1, rfl, rfl, hs⟩
  · cases hv
  · cases hv
  · simp only [Option.some.injEq] at hv
    subst hv
    exact Or.inr ⟨d, d1, ch, rfl, rfl, hs⟩

theorem tag_loop_agree (buf : List Nat) : ∀ (fuel : Nat) (c c1 : asn1_ctx) (acc : Nat),
    same_cursor c c1 →
    agree (asn1_tag_loop buf fuel c acc) (asn1_tag_loop buf fuel c1 acc) := by
  intro fuel
  induction fuel with
  | zero => intro c c1 acc _; simp [asn1_tag_loop, agree]
  | succ n ih =>
    intro c c1 acc h
    rw [tag_loop_succ, tag_loop_succ]
    rcases octet_agree_cases buf c c1 h with ⟨d, d1, e, e1, hs⟩ | ⟨d, d1, ch, e, e1, hs⟩ <;>
      rw [e, e1] <;> simp only
    · exact agree_some _ hs
    · split_ifs
      · exact ih d d1 _ hs
      · exact agree_some _ hs

theorem tag_decode_agree (buf : List Nat) (c c1 : asn1_ctx) (h : same_cursor c c1) :
    agree (asn1_tag_decode buf c) (asn1_tag_decode buf c1) := by
  unfold asn1_tag_decode
  rw [h.1, h.2.2]
  exact tag_loop_agree buf _ c c1 0 h

theorem subid_decode_agree (buf : List Nat) (c c1 : asn1_ctx) (h : same_cursor c c1) :
    agree (asn1_subid_decode buf c) (asn1_subid_decode buf c1) := by
  rw [subid_decode_eq, subid_decode_eq]
  exact tag_decode_agree buf c c1 h

theorem id_decode_agree (buf : List Nat) (c c1 : asn1_ctx) (h : same_cursor c c1) :
    agree (asn1_id_decode buf c) (asn1_id_decode buf c1) := by
  unfold asn1_id_decode
  rcases octet_agree_cases buf c c1 h with ⟨d, d1, e, e1, hs⟩ | ⟨d, d1, ch, e, e1, hs⟩ <;>
    rw [e, e1] <;> simp only
  · exact agree_some _ hs
  · split_ifs
    · have ha := tag_decode_agree buf d d1 hs
      rcases hr : asn1_tag_decode buf d with _ | ⟨d2, _ | v⟩ <;> rw [hr] at ha
      · rw [agree_none_elim ha]
        simp [agree]
      · obtain ⟨d3, h3, hs3⟩ := agree_some_elim ha
        rw [h3]
        exact agree_some _ hs3
      · obtain ⟨d3, h3, hs3⟩ := agree_some_elim ha
        rw [h3]
        exact agree_some _ hs3
    · exact agree_some _ hs

theorem length_loop_agree (buf : List Nat) : ∀ (cnt : Nat) (c c1 : asn1_ctx) (len : Nat),
    same_cursor c c1 →
    same_cursor (asn1_length_loop buf cnt c len).1 (asn1_length_loop buf cnt c1 len).1 ∧
    (asn1_length_loop buf cnt c len).2 = (asn1_length_loop buf cnt c1 len).2 := by
  intro cnt
  induction cnt with
  | zero => intro c c1 len h; exact ⟨h, rfl⟩
  | succ n ih =>
    intro c c1 len h
    rw [length_loop_succ, length_loop_succ]
    rcases octet_agree_cases buf c c1 h with ⟨d, d1, e, e1, hs⟩ | ⟨d, d1, ch, e, e1, hs⟩ <;>
      rw [e, e1] <;> simp only
    · first | exact ⟨hs, rfl⟩ | exact ⟨hs, trivial⟩
    · exact ih d d1 _ hs

theorem length_decode_agree (buf : List Nat) (c c1 : asn1_ctx) (len0 : Nat)
    (h : same_cursor c c1) :
    same_cursor (asn1_length_decode buf c len0).1 (asn1_length_decode buf c1 len0).1 ∧
    (asn1_length_decode buf c len0).2 = (asn1_length_decode buf c1 len0).2 := by
  unfold asn1_length_decode
  rcases octet_agree_cases buf c c1 h with ⟨d, d1, e, e1, hs⟩ | ⟨d, d1, ch, e, e1, hs⟩ <;>
    rw [e, e1] <;> simp only
  · first | exact ⟨hs, rfl⟩ | exact ⟨hs, trivial⟩
  · by_cases h80 : ch = 0x80
    · simp only [h80, if_true, hs.1, hs.2.2]
      split_ifs <;> exact ⟨hs, rfl⟩
    · by_cases hlt : ch < 0x80
      · simp only [h80, hlt, if_true, if_false, hs.1, hs.2.2]
        split_ifs <;> exact ⟨hs, rfl⟩
      · simp only [h80, hlt, if_false]
        obtain ⟨hs2, hv2⟩ := length_loop_agree buf ((ch &&& 0x7F) % 256) d d1 0 hs
        rcases hr : asn1_length_loop buf ((ch &&& 0x7F) % 256) d 0 with ⟨d2, _ | len⟩ <;>
          rcases hr1 : asn1_length_loop buf ((ch &&& 0x7F) % 256) d1 0 with ⟨d3, _ | len1⟩ <;>
          rw [hr, hr1] at hs2 hv2 <;> simp only at hs2 hv2 ⊢
        · first | exact ⟨hs2, rfl⟩ | exact ⟨hs2, trivial⟩
        · cases hv2
        · cases hv2
        · simp only [Option.some.injEq] at hv2
          subst hv2
          simp only [hs2.1, hs2.2.2]
          split_ifs <;> exact ⟨hs2, rfl⟩

theorem header_decode_agree (buf : List Nat) (c c1 : asn1_ctx) (h : same_cursor c c1) :
    agree (asn1_header_decode buf c) (asn1_header_decode buf c1) := by
  unfold asn1_header_decode
  have ha := id_decode_agree buf c c1 h
  rcases hr : asn1_id_decode buf c with _ | ⟨d, _ | ⟨cls, con, tag⟩⟩ <;> rw [hr] at ha
  · rw [agree_none_elim ha]
    simp [agree]
  · obtain ⟨d1, h1, hs1⟩ := agree_some_elim ha
    rw [h1]
    exact agree_some _ hs1
  · obtain ⟨d1, h1, hs1⟩ := agree_some_elim ha
    rw [h1]
    simp only
    obtain ⟨hs2, hv2⟩ := length_decode_agree buf d d1 0 hs1
    rcases hl : asn1_length_decode buf d 0 with ⟨d2, _ | ⟨df, len⟩⟩ <;>
      rcases hl1 : asn1_length_decode buf d1 0 with ⟨d3, _ | ⟨df1, len1⟩⟩ <;>
      rw [hl, hl1] at hs2 hv2 <;> simp only at hs2 hv2 ⊢
    · exact agree_some _ hs2
    · cases hv2
    · cases hv2
    · simp only [Option.some.injEq, Prod.mk.injEq] at hv2
      obtain ⟨rfl, rfl⟩ := hv2
      split_ifs
      · exact agree_some _ hs2
      · rw [hs2.1]
        exact agree_some _ hs2
      · exact agree_some _ hs2

theorem eoc_decode_agree (buf : List Nat) (c c1 : asn1_ctx) (eoc : Option Nat)
    (h : same_cursor c c1) :
    same_cursor (asn1_eoc_decode buf c eoc).1 (asn1_eoc_decode buf c1 eoc).1 ∧
    (asn1_eoc_decode buf c eoc).2 = (asn1_eoc_decode buf c1 eoc).2 := by
  unfold asn1_eoc_decode
  cases eoc with
  | none =>
    simp only
    rcases octet_agree_cases buf c c1 h with ⟨d, d1, e, e1, hs⟩ | ⟨d, d1, ch, e, e1, hs⟩ <;>
      rw [e, e1] <;> simp only
    · first | exact ⟨hs, rfl⟩ | exact ⟨hs, trivial⟩
    · by_cases h0 : ch ≠ 0
      · simp only [h0, if_true, ne_eq, not_false_eq_true]
        first | exact ⟨hs, rfl⟩ | exact ⟨hs, trivial⟩
      · simp only [h0, if_false]
        rcases octet_agree_cases buf d d1 hs with
          ⟨d2, d3, e2, e3, hs2⟩ | ⟨d2, d3, ch2, e2, e3, hs2⟩ <;>
          rw [e2, e3] <;> simp only
        · first | exact ⟨hs2, rfl⟩ | exact ⟨hs2, trivial⟩
        · split_ifs <;> exact ⟨hs2, rfl⟩
  | some e =>
    obtain ⟨e1, rfl⟩ := same_cursor_eq h
    simp only
    split_ifs <;> exact ⟨⟨rfl, rfl, rfl⟩, rfl⟩

theorem oid_loop_agree (buf : List Nat) (eoc size : Nat) :
    ∀ (fuel : Nat) (c c1 : asn1_ctx) (oid : List Nat) (len : Nat), same_cursor c c1 →
    agree (asn1_oid_loop buf eoc size fuel c oid len)
      (asn1_oid_loop buf eoc size fuel c1 oid len) := by
  intro fuel
  induction fuel with
  | zero => intro c c1 oid len _; simp [asn1_oid_loop, agree]
  | succ n ih =>
    intro c c1 oid len h
    unfold asn1_oid_loop
    rw [h.1]
    by_cases hp : c.pointer < eoc
    · simp only [hp, if_true]
      by_cases hl : (len + 1) % 2 ^ UINT_BITS > size
      · simp only [hl, if_true]
        exact agree_some _ ⟨rfl, h.2.1, h.2.2⟩
      · simp only [hl, if_false]
        have ha := subid_decode_agree buf c c1 h
        rcases hr : asn1_subid_decode buf c with _ | ⟨d, _ | v⟩ <;> rw [hr] at ha
        · rw [agree_none_elim ha]
          simp [agree]
        · obtain ⟨d1, h1, hs1⟩ := agree_some_elim ha
          rw [h1]
          exact agree_some _ hs1
        · obtain ⟨d1, h1, hs1⟩ := agree_some_elim ha
          rw [h1]
          exact ih d d1 _ _ hs1
    · simp only [hp, if_false]
      exact agree_some _ h

theorem oid_decode_agree (buf : List Nat) (c c1 : asn1_ctx) (eoc : Nat)
    (h : same_cursor c c1) :
    agree (asn1_oid_decode buf c eoc) (asn1_oid_decode buf c1 eoc) := by
  unfold asn1_oid_decode
  have hsz : asn1_oid_size c1 eoc = asn1_oid_size c eoc := by
    unfold asn1_oid_size
    rw [h.1]
  simp only [hsz]
  split_ifs
  · exact agree_some _ h
  · have ha := subid_decode_agree buf c c1 h
    rcases hr : asn1_subid_decode buf c with _ | ⟨d, _ | v⟩ <;> rw [hr] at ha
    · rw [agree_none_elim ha]
      simp [agree]
    · obtain ⟨d1, h1, hs1⟩ := agree_some_elim ha
      rw [h1]
      exact agree_some _ hs1
    · obtain ⟨d1, h1, hs1⟩ := agree_some_elim ha
      rw [h1]
      simp only [hs1.1, hs1.2.2]
      exact oid_loop_agree buf eoc _ _ d d1 _ _ hs1

/-- C9 as stated fails: with `LengthMismatch` already recorded,
`asn1_octet_decode` still consumes an octet and succeeds; and in the loop, on
the NTLMSSP token, `asn1_eoc_decode` records `LengthMismatch` at offset 18 and
the header decode that follows consumes two octets and succeeds. -/
theorem recorded_error_ignored :
    asn1_octet_decode [0x00]
        { error := ASN1_ERR_DEC_LENGTH_MISMATCH, pointer := 0, begin := 0, end_ := 1 } =
      ({ error := ASN1_ERR_DEC_LENGTH_MISMATCH, pointer := 1, begin := 0, end_ := 1 },
       some 0) ∧
    asn1_eoc_decode tok_ntlmssp
        { error := ASN1_ERR_NOERROR, pointer := 18, begin := 0, end_ := 30 } (some 30) =
      ({ error := ASN1_ERR_DEC_LENGTH_MISMATCH, pointer := 18, begin := 0, end_ := 30 },
       false) ∧
    asn1_header_decode tok_ntlmssp
        { error := ASN1_ERR_DEC_LENGTH_MISMATCH, pointer := 18, begin := 0, end_ := 30 } =
      some ({ error := ASN1_ERR_DEC_LENGTH_MISMATCH, pointer := 20, begin := 0, end_ := 30 },
            some { eoc := some 30, cls := 0, con := 0, tag := 6 }) := by
  refine ⟨by decide, by decide, by decide⟩

/-- C9 (amended): the recorded error is never consulted.  Whatever error `e`
is already recorded, `asn1_octet_decode`, `asn1_header_decode`,
`asn1_eoc_decode` and `asn1_oid_decode` return the same value and outputs and
leave the cursor where they leave it from the same context with its own error;
and when they succeed the recorded error is still `e`. -/
theorem error_not_consulted (buf : List Nat) (ctx : asn1_ctx) (e : Nat) (eoc : Option Nat)
    (eo : Nat) :
    ((asn1_octet_decode buf { ctx with error := e }).2 = (asn1_octet_decode buf ctx).2 ∧
      same_cursor (asn1_octet_decode buf ctx).1
        (asn1_octet_decode buf { ctx with error := e }).1) ∧
    agree (asn1_header_decode buf ctx) (asn1_header_decode buf { ctx with error := e }) ∧
    ((asn1_eoc_decode buf { ctx with error := e } eoc).2 = (asn1_eoc_decode buf ctx eoc).2 ∧
      same_cursor (asn1_eoc_decode buf ctx eoc).1
        (asn1_eoc_decode buf { ctx with error := e } eoc).1) ∧
    agree (asn1_oid_decode buf ctx eo) (asn1_oid_decode buf { ctx with error := e } eo) ∧
    ((asn1_octet_decode buf { ctx with error := e }).2.isSome = true →
      (asn1_octet_decode buf { ctx with error := e }).1.error = e) ∧
    (∀ c h, asn1_header_decode buf { ctx with error := e } = some (c, some h) →
      c.error = e) ∧
    ((asn1_eoc_decode buf { ctx with error := e } eoc).2 = true →
      (asn1_eoc_decode buf { ctx with error := e } eoc).1.error = e) ∧
    (∀ c v, asn1_oid_decode buf { ctx with error := e } eo = some (c, some v) →
      c.error = e) := by
  have hs := same_cursor_set ctx e
  refine ⟨?_, header_decode_agree buf _ _ hs, ?_, oid_decode_agree buf _ _ eo hs, ?_, ?_, ?_, ?_⟩
  · obtain ⟨h1, h2⟩ := octet_agree buf _ _ hs
    exact ⟨h2.symm, h1⟩
  · obtain ⟨h1, h2⟩ := eoc_decode_agree buf _ _ eoc hs
    exact ⟨h2.symm, h1⟩
  · intro h
    rcases octet_cases buf { ctx with error := e } with ⟨_, he⟩ | ⟨_, he⟩
    · rw [he]
    · rw [he] at h
      simp at h
  · intro c h hh
    obtain ⟨c1, r1, h1, _, hs1, _⟩ := header_decode_spec buf { ctx with error := e }
    rw [hh] at h1
    simp only [Option.some.injEq, Prod.mk.injEq] at h1
    obtain ⟨rfl, rfl⟩ := h1
    exact (hs1 h rfl).2.1
  · intro h
    exact ((eoc_decode_spec buf { ctx with error := e } eoc).2.1 h).1
  · intro c v hh
    obtain ⟨c1, r1, h1, _, hs1, _⟩ := oid_decode_spec buf { ctx with error := e } eo
    rw [hh] at h1
    simp only [Option.some.injEq, Prod.mk.injEq] at h1
    obtain ⟨rfl, rfl⟩ := h1
    exact hs1 rfl

/-- C9 (amended) at the NTLMSSP element of the sample token with
`LengthMismatch` recorded: the header decode succeeds and the error stays. -/
theorem error_not_consulted_witness :
    ∀ c h, asn1_header_decode tok_ntlmssp
        { error := ASN1_ERR_DEC_LENGTH_MISMATCH, pointer := 18, begin := 0, end_ := 30 } =
      some (c, some h) → c.error = ASN1_ERR_DEC_LENGTH_MISMATCH :=
  (error_not_consulted tok_ntlmssp
    { error := ASN1_ERR_NOERROR, pointer := 18, begin := 0, end_ := 30 }
    ASN1_ERR_DEC_LENGTH_MISMATCH none 0).2.2.2.2.2.1

/-! ## Truncated tokens -/

theorem decode_first_header_fails (dbg : Bool) (buf : List Nat) (length : Nat)
    (server : TCP_Server_Info) (c : asn1_ctx)
    (h : asn1_header_decode buf (asn1_open length) = some (c, none)) :
    decode_negTokenInit dbg buf length server =
      some { rc := 0, server := server, ctx := c, derefs := [] } := by
  unfold decode_negTokenInit negTokenInit_steps
  simp only [h]

theorem header_decode_at_nil (buf : List Nat) (ctx : asn1_ctx) (hat : At buf ctx []) :
    ∃ c, asn1_header_decode buf ctx = some (c, none) := by
  unfold asn1_header_decode asn1_id_decode
  rw [at_nil hat]
  exact ⟨_, rfl⟩

theorem length_decode_at_nil (buf : List Nat) (ctx : asn1_ctx) (len0 : Nat)
    (hat : At buf ctx []) : (asn1_length_decode buf ctx len0).2 = none := by
  unfold asn1_length_decode
  rw [at_nil hat]

theorem length_decode_short (buf : List Nat) (ctx : asn1_ctx) (len0 b : Nat) (tl : List Nat)
    (hat : At buf ctx (b :: tl)) (h256 : b < 256) (h80 : 0x80 < b) (hshort : tl.length < b - 0x80) :
    (asn1_length_decode buf ctx len0).2 = none := by
  obtain ⟨ho, hat1⟩ := at_cons hat
  unfold asn1_length_decode
  rw [ho]
  have hne : ¬ (b = 0x80) := by omega
  have hlt : ¬ (b < 0x80) := by omega
  simp only [Nat.mod_eq_of_lt h256, hne, hlt, if_false, and7f b h256 (by omega)]
  rw [length_loop_short buf tl (b - 128) _ 0 hat1 hshort]

theorem header_decode_length_missing (buf : List Nat) (ctx : asn1_ctx) (idb : Nat)
    (bs : List Nat) (hat : At buf ctx (idb :: bs)) (h256 : idb < 256)
    (hlow : idb &&& 0x1F ≠ 0x1F)
    (hl : (asn1_length_decode buf { ctx with pointer := ctx.pointer + 1 } 0).2 = none) :
    ∃ c, asn1_header_decode buf ctx = some (c, none) := by
  unfold asn1_header_decode
  rw [id_decode_run buf ctx idb bs hat h256 hlow]
  simp only
  rcases hr : asn1_length_decode buf { ctx with pointer := ctx.pointer + 1 } 0 with ⟨c2, r⟩
  rw [hr] at hl
  simp only at hl
  subst hl
  exact ⟨c2, rfl⟩

/-- C5 as stated fails: `tok_indef_outer` is a complete encoding whose outer
wrappers have indefinite length; cut one octet short, inside the closing
end-of-contents markers, it is still decoded with success and `sec_ntlmssp`
set, and so is every prefix down to the end of the mechanism list at 30. -/
theorem truncated_indefinite_token_accepted :
    tok_indef_outer.length = 36 ∧
    decode_negTokenInit false (tok_indef_outer.take 35) 35 no_flags =
      some { rc := 1, server := { no_flags with sec_ntlmssp := true },
             ctx := { error := ASN1_ERR_DEC_LENGTH_MISMATCH, pointer := 30, begin := 0,
                      end_ := 35 },
             derefs := [] } ∧
    decode_negTokenInit false (tok_indef_outer.take 30) 30 no_flags =
      some { rc := 1, server := { no_flags with sec_ntlmssp := true },
             ctx := { error := ASN1_ERR_DEC_LENGTH_MISMATCH, pointer := 30, begin := 0,
                      end_ := 30 },
             derefs := [] } := by
  refine ⟨by decide, by decide, by decide⟩

/-- C5 (amended): let `E` be the application identifier octet `60` followed by
`rest`, where the length octets at the head of `rest` declare a definite length
that covers exactly what follows them (the outermost wrapper has definite
length and `E` is complete).  Then for every `k` below the length of `E` the
decoder, run on the first `k` octets of `E`, returns 0 and leaves the flags as
they were on entry: it fails in the first header. -/
theorem truncated_definite_token_fails (dbg : Bool) (rest : List Nat) (L n k : Nat)
    (server : TCP_Server_Info) (hb : ∀ b ∈ rest, b < 256)
    (hd : declared_length rest = some (L, n)) (hcomplete : n + L = rest.length)
    (h32 : rest.length < 2 ^ 32) (hk : k < (0x60 :: rest).length) :
    ∃ r, decode_negTokenInit dbg ((0x60 :: rest).take k) k server = some r ∧
      r.rc = 0 ∧ r.server = server := by
  suffices hsuff : ∃ c, asn1_header_decode ((0x60 :: rest).take k) (asn1_open k) = some (c, none) by
    obtain ⟨c, hc⟩ := hsuff
    exact ⟨_, decode_first_header_fails dbg _ k server c hc, rfl, rfl⟩
  cases k with
  | zero => exact header_decode_at_nil _ _ ⟨rfl, rfl⟩
  | succ k1 =>
    have hk1 : k1 < rest.length := by simpa using hk
    simp only [List.take_succ_cons]
    have hat : At (0x60 :: rest.take k1) (asn1_open (k1 + 1)) (0x60 :: rest.take k1) := by
      refine ⟨?_, rfl⟩
      simp only [asn1_open, List.length_cons, List.length_take]
      omega
    cases rest with
    | nil => simp at hk1
    | cons b tl =>
      have hb256 : b < 256 := hb b (by simp)
      simp only [List.length_cons] at hk1 hcomplete h32
      cases k1 with
      | zero =>
        exact header_decode_length_missing _ _ 0x60 [] hat (by decide) (by decide)
          (length_decode_at_nil _ _ 0 (at_cons hat).2)
      | succ k2 =>
        simp only [List.take_succ_cons] at hat ⊢
        have hbR : ∀ x ∈ b :: tl.take k2, x < 256 := by
          intro x hx
          rcases List.mem_cons.mp hx with rfl | hx
          · exact hb256
          · exact hb x (by simp [List.mem_of_mem_take hx])
        simp only [declared_length] at hd
        by_cases hlt : b < 0x80
        · rw [if_pos hlt] at hd
          simp only [Option.some.injEq, Prod.mk.injEq] at hd
          obtain ⟨rfl, rfl⟩ := hd
          have hdR : declared_length (b :: tl.take k2) = some (b, 1) := by
            simp only [declared_length, hlt, if_true]
          rw [header_decode_run _ _ 0x60 _ b 1 hat (by decide)
            (fun x hx => hbR x (List.mem_of_mem_take hx)) (by decide) hdR,
            if_pos (by
              rw [Nat.mod_eq_of_lt (by omega)]
              simp only [List.length_cons, List.length_take]
              omega)]
          exact ⟨_, rfl⟩
        · rw [if_neg hlt] at hd
          by_cases hbad : b = 0x80 ∨ 0x100 ≤ b ∨ tl.length < b - 0x80
          · rw [if_pos hbad] at hd
            cases hd
          · rw [if_neg hbad] at hd
            simp only [Option.some.injEq, Prod.mk.injEq] at hd
            obtain ⟨hL, hn⟩ := hd
            have hne : b ≠ 0x80 := fun h => hbad (Or.inl h)
            have hcnt : b - 0x80 ≤ tl.length := by
              by_contra hc
              exact hbad (Or.inr (Or.inr (by omega)))
            by_cases hshort : k2 < b - 0x80
            · exact header_decode_length_missing _ _ 0x60 _ hat (by decide) (by decide)
                (length_decode_short _ _ 0 b (tl.take k2) (at_cons hat).2 hb256 (by omega)
                  (by rw [List.length_take]; omega))
            · have hdR : declared_length (b :: tl.take k2) =
                  some (L, 1 + (b - 0x80)) := by
                have hbad2 : ¬ (b = 0x80 ∨ 0x100 ≤ b ∨ (tl.take k2).length < b - 0x80) := by
                  rw [List.length_take]
                  omega
                simp only [declared_length, hlt, hbad2, if_false, List.take_take]
                rw [Nat.min_eq_left (by omega), hL]
              rw [header_decode_run _ _ 0x60 _ L (1 + (b - 0x80)) hat (by decide)
                (fun x hx => hbR x (List.mem_of_mem_take hx)) (by decide) hdR,
                if_pos (by
                  rw [Nat.mod_eq_of_lt (by omega)]
                  simp only [List.length_cons, List.length_take]
                  omega)]
              exact ⟨_, rfl⟩

/-- C5 (amended) on the all-definite NTLMSSP token cut after 29 octets. -/
theorem truncated_definite_token_fails_witness :
    ∃ r, decode_negTokenInit false (tok_ntlmssp.take 29) 29 no_flags = some r ∧
      r.rc = 0 ∧ r.server = no_flags :=
  truncated_definite_token_fails false tok_ntlmssp.tail 28 1 29 no_flags
    (by decide) (by decide) (by decide) (by decide) (by decide)

/-! ## Object identifiers: encoding and decoding -/

theorem enc_hi_cont : ∀ (fuel v : Nat), ∀ b ∈ enc_hi fuel v, 128 ≤ b ∧ b < 256 := by
  intro fuel
  induction fuel with
  | zero => intro v b hb; simp [enc_hi] at hb
  | succ n ih =>
    intro v b hb
    unfold enc_hi at hb
    split_ifs at hb with h0
    · simp at hb
    · rcases List.mem_append.mp hb with h | h
      · exact ih _ b h
      · simp only [List.mem_singleton] at h
        omega

theorem base128_append (acc : Nat) (xs ys : List Nat) :
    base128 acc (xs ++ ys) = base128 (base128 acc xs) ys := by
  simp [base128, List.foldl_append]

theorem enc_hi_value : ∀ (fuel v : Nat), v ≤ fuel → base128 0 (enc_hi fuel v) = v := by
  intro fuel
  induction fuel with
  | zero => intro v h; simp [enc_hi, base128]; omega
  | succ n ih =>
    intro v h
    unfold enc_hi
    split_ifs with h0
    · simp [base128, h0]
    · rw [base128_append, ih (v / 128) (by omega)]
      simp only [base128, List.foldl_cons, List.foldl_nil]
      omega

theorem enc_subid_value (v : Nat) : base128 0 (enc_subid v) = v := by
  unfold enc_subid
  rw [base128_append, enc_hi_value v (v / 128) (Nat.div_le_self _ _)]
  simp only [base128, List.foldl_cons, List.foldl_nil]
  omega

theorem enc_subid_pos (v : Nat) : 1 ≤ (enc_subid v).length := by
  simp [enc_subid]

/-- The sub-identifier decoder reads back a standard encoding. -/
theorem subid_decode_run (buf : List Nat) (ctx : asn1_ctx) (v : Nat) (post : List Nat)
    (hat : At buf ctx (enc_subid v ++ post)) (hv : v < 2 ^ ULONG_BITS) :
    asn1_subid_decode buf ctx =
      some ({ ctx with pointer := ctx.pointer + (enc_subid v).length }, some v) := by
  have hat1 : At buf ctx (enc_hi v (v / 128) ++ (v % 128) :: post) := by
    simpa [enc_subid] using hat
  have hlen := at_length hat1
  rw [subid_decode_eq]
  unfold asn1_tag_decode
  rw [tag_loop_run buf (enc_hi v (v / 128)) (v % 128) post _ ctx 0 (enc_hi_cont _ _)
    (Nat.mod_lt _ (by norm_num)) hat1 (by rw [← hlen]; simp; omega)]
  rw [foldl_vstep _ 0 0 rfl]
  have hval := enc_subid_value v
  unfold enc_subid at hval
  have hv32 : v % 2 ^ 32 = v := Nat.mod_eq_of_lt hv
  rw [hval, hv32]
  simp [enc_subid]

theorem enc_subids_length_ge : ∀ (arcs : List Nat), arcs.length ≤ (enc_subids arcs).length := by
  intro arcs
  induction arcs with
  | nil => simp [enc_subids]
  | cons a t ih =>
    simp only [enc_subids, List.length_cons, List.length_append]
    have := enc_subid_pos a
    omega

theorem oid_size_run (ctx : asn1_ctx) (n : Nat) (h : n + 1 < 2 ^ 32) :
    asn1_oid_size ctx (ctx.pointer + n) = n + 1 := by
  unfold asn1_oid_size
  have e : ((ctx.pointer + n : Nat) : Int) - (ctx.pointer : Int) + 1 = ((n + 1 : Nat) : Int) := by
    push_cast
    ring
  rw [e, Int.emod_eq_of_lt (by positivity) (by norm_num at h ⊢; omega)]
  exact Int.toNat_ofNat _

theorem ctx_set_pointer_self (ctx : asn1_ctx) : { ctx with pointer := ctx.pointer } = ctx := by
  cases ctx
  rfl

/-- The sub-identifier loop reads back the standard encodings of `arcs`. -/
theorem oid_loop_run (buf : List Nat) (eoc size : Nat) : ∀ (arcs post : List Nat) (fuel : Nat)
    (ctx : asn1_ctx) (acc : List Nat) (len : Nat),
    At buf ctx (enc_subids arcs ++ post) → eoc = ctx.pointer + (enc_subids arcs).length →
    (∀ a ∈ arcs, a < 2 ^ ULONG_BITS) → arcs.length < fuel → len + arcs.length ≤ size →
    size < 2 ^ 32 →
    asn1_oid_loop buf eoc size fuel ctx acc len =
      some ({ ctx with pointer := eoc }, some (acc ++ arcs, len + arcs.length)) := by
  intro arcs
  induction arcs with
  | nil =>
    intro post fuel ctx acc len _ he _ hf _ _
    obtain ⟨n, rfl⟩ : ∃ n, fuel = n + 1 := ⟨fuel - 1, by simp at hf; omega⟩
    simp only [enc_subids, List.length_nil, Nat.add_zero] at he
    unfold asn1_oid_loop
    rw [if_neg (by omega), he, ctx_set_pointer_self]
    simp
  | cons a t ih =>
    intro post fuel ctx acc len hat he ha hf hlen hsz
    obtain ⟨n, rfl⟩ : ∃ n, fuel = n + 1 := ⟨fuel - 1, by simp at hf; omega⟩
    simp only [enc_subids, List.length_append] at he
    have hpos := enc_subid_pos a
    have hat1 : At buf ctx (enc_subid a ++ (enc_subids t ++ post)) := by
      simpa [enc_subids, List.append_assoc] using hat
    simp only [List.length_cons] at hlen hf
    unfold asn1_oid_loop
    rw [if_pos (by omega)]
    have hl1 : (len + 1) % 2 ^ UINT_BITS = len + 1 := Nat.mod_eq_of_lt (by
      show len + 1 < 2 ^ 32
      omega)
    simp only [hl1]
    have hns : ¬ (len + 1 > size) := by omega
    rw [if_neg hns, subid_decode_run buf ctx a _ hat1 (ha a (by simp))]
    simp only
    rw [ih post n _ (acc ++ [a]) (len + 1) (at_append hat1) (by simp only; omega)
      (fun x hx => ha x (by simp [hx])) (by omega) (by omega) hsz]
    simp only [List.append_assoc, List.singleton_append, List.length_cons]
    rw [show len + 1 + t.length = len + (t.length + 1) by omega]

/-- The OID decoder reads back the standard encoding of a valid OID that
passes the size guard, and stops on `eoc`. -/
theorem oid_decode_run (buf : List Nat) (ctx : asn1_ctx) (oid post : List Nat)
    (hat : At buf ctx (enc_oid oid ++ post)) (hv : valid_oid oid)
    (hsz : (enc_oid oid).length + 1 ≤ UINT_MAX / SIZEOF_ULONG) :
    asn1_oid_decode buf ctx (ctx.pointer + (enc_oid oid).length) =
      some ({ ctx with pointer := ctx.pointer + (enc_oid oid).length },
            some (oid, oid.length)) := by
  match oid, hv with
  | a0 :: a1 :: rest, hv =>
    obtain ⟨h0, h1, hv0, hr⟩ := hv
    have hguard : UINT_MAX / SIZEOF_ULONG = 1073741823 := by decide
    rw [hguard] at hsz
    simp only [enc_oid, List.length_append] at hsz hat ⊢
    have hpos := enc_subid_pos (40 * a0 + a1)
    have hge := enc_subids_length_ge rest
    unfold asn1_oid_decode
    simp only
    rw [oid_size_run ctx _ (by norm_num; omega), hguard, if_neg (by omega)]
    have hat1 : At buf ctx (enc_subid (40 * a0 + a1) ++ (enc_subids rest ++ post)) := by
      simpa [List.append_assoc] using hat
    rw [subid_decode_run buf ctx _ _ hat1 hv0]
    simp only
    have hat2 := at_append hat1
    have hrem := at_length hat2
    simp only [List.length_append] at hrem
    have hopt : (if 40 * a0 + a1 < 40 then [0, 40 * a0 + a1]
        else if 40 * a0 + a1 < 80 then [1, 40 * a0 + a1 - 40]
        else [2, 40 * a0 + a1 - 80]) = [a0, a1] := by
      interval_cases a0
      · have := h1 (by omega)
        simp only [Nat.mul_zero, Nat.zero_add, this, if_true]
      · have := h1 (by omega)
        rw [if_neg (by omega), if_pos (by omega), show 40 * 1 + a1 - 40 = a1 by omega]
      · rw [if_neg (by omega), if_neg (by omega), show 40 * 2 + a1 - 80 = a1 by omega]
    rw [hopt]
    have hloop := oid_loop_run buf
      (ctx.pointer + ((enc_subid (40 * a0 + a1)).length + (enc_subids rest).length))
      ((enc_subid (40 * a0 + a1)).length + (enc_subids rest).length + 1) rest post
      (ctx.end_ - (ctx.pointer + (enc_subid (40 * a0 + a1)).length) + 1)
      { ctx with pointer := ctx.pointer + (enc_subid (40 * a0 + a1)).length } [a0, a1] 2 hat2
      (by simp only; omega) hr (by omega) (by omega) (by norm_num; omega)
    rw [hloop]
    simp only [List.length_cons, List.cons_append, List.nil_append]
    rw [show 2 + rest.length = rest.length + 1 + 1 by omega]

theorem enc_subids_zeros (n : Nat) : (enc_subids (List.replicate n 0)).length = n := by
  induction n with
  | zero => rfl
  | succ k ih =>
    rw [List.replicate_succ]
    show (enc_subid 0 ++ enc_subids (List.replicate k 0)).length = k + 1
    rw [List.length_append, ih]
    have : (enc_subid 0).length = 1 := by decide
    omega

/-- The OID `1.0` followed by `n` zero arcs, for `n + 2` above the size guard:
it is valid, its encoding has `n + 1` octets, and the decoder rejects it
without reading an octet. -/
theorem oid_decode_over_guard (n : Nat) (h1 : UINT_MAX / SIZEOF_ULONG < n + 2)
    (hbig : n + 1 + 1 < 2 ^ 32) :
    valid_oid (1 :: 0 :: List.replicate n 0) ∧
    (enc_oid (1 :: 0 :: List.replicate n 0)).length = n + 1 ∧
    asn1_oid_decode (enc_oid (1 :: 0 :: List.replicate n 0)) (asn1_open (n + 1)) (n + 1) =
      some (asn1_open (n + 1), none) := by
  refine ⟨⟨by decide, fun _ => by decide, by decide, fun a ha => ?_⟩, ?_, ?_⟩
  · rw [List.eq_of_mem_replicate ha]
    decide
  · show (enc_subid (40 * 1 + 0) ++ enc_subids (List.replicate n 0)).length = n + 1
    rw [List.length_append, enc_subids_zeros]
    have : (enc_subid (40 * 1 + 0)).length = 1 := by decide
    omega
  · unfold asn1_oid_decode
    simp only
    by_cases hs : asn1_oid_size (asn1_open (n + 1)) (n + 1) < 2 ∨
        asn1_oid_size (asn1_open (n + 1)) (n + 1) > UINT_MAX / SIZEOF_ULONG
    · rw [if_pos hs]
    · exfalso
      apply hs
      right
      have := oid_size_run (asn1_open (n + 1)) (n + 1) hbig
      simp only [asn1_open, Nat.zero_add] at this ⊢
      rw [this]
      omega

/-- C7 as stated fails: `long_oid` has `2 ^ 30` arcs that all satisfy the
conditions of the claim, its standard encoding has `2 ^ 30 - 1` octets, and
`asn1_oid_decode` over exactly those octets returns 0: the element count
`size = 2 ^ 30` is above `UINT_MAX / sizeof(unsigned long)`. -/
theorem long_oid_rejected :
    valid_oid long_oid ∧ (enc_oid long_oid).length = 2 ^ 30 - 2 + 1 ∧
    asn1_oid_decode (enc_oid long_oid) (asn1_open (2 ^ 30 - 2 + 1)) (2 ^ 30 - 2 + 1) =
      some (asn1_open (2 ^ 30 - 2 + 1), none) :=
  oid_decode_over_guard (2 ^ 30 - 2) (by decide) (by decide)

/-- C7 (amended): for every valid OID (first arc 0, 1 or 2, second arc below
40 under 0 and 1, first sub-identifier and later arcs representable in
`unsigned long`) whose standard encoding, counted in octets plus one, is within
the guard `UINT_MAX / sizeof(unsigned long)`, `asn1_oid_decode` run over exactly
the octets of the encoding succeeds, returns the identical integer sequence and
its length, and leaves the cursor on the end of the encoding. -/
theorem oid_round_trip (oid : List Nat) (hv : valid_oid oid)
    (hsz : (enc_oid oid).length + 1 ≤ UINT_MAX / SIZEOF_ULONG) :
    asn1_oid_decode (enc_oid oid) (asn1_open (enc_oid oid).length) (enc_oid oid).length =
      some ({ error := ASN1_ERR_NOERROR, pointer := (enc_oid oid).length, begin := 0,
              end_ := (enc_oid oid).length },
            some (oid, oid.length)) := by
  have hat : At (enc_oid oid) (asn1_open (enc_oid oid).length) (enc_oid oid ++ []) := by
    refine ⟨?_, ?_⟩
    · simp [asn1_open]
    · simp [asn1_open]
  have h := oid_decode_run (enc_oid oid) (asn1_open (enc_oid oid).length) oid [] hat hv hsz
  simp only [asn1_open, Nat.zero_add] at h ⊢
  exact h

/-- C7 (amended) on the Kerberos OID `1.2.840.113554.1.2.2`, encoded as
`2a 86 48 86 f7 12 01 02 02`. -/
theorem oid_round_trip_witness :
    enc_oid KRB5_OID = [0x2a, 0x86, 0x48, 0x86, 0xf7, 0x12, 0x01, 0x02, 0x02] ∧
    asn1_oid_decode [0x2a, 0x86, 0x48, 0x86, 0xf7, 0x12, 0x01, 0x02, 0x02] (asn1_open 9) 9 =
      some ({ error := ASN1_ERR_NOERROR, pointer := 9, begin := 0, end_ := 9 },
            some ([1, 2, 840, 113554, 1, 2, 2], 7)) :=
  ⟨by decide,
   oid_round_trip KRB5_OID ⟨by decide, fun _ => by decide, by decide, by decide⟩ (by decide)⟩

/-! ## Comparing OIDs and setting flags -/

theorem compare_oid_loop_spec (a b : List Nat) : ∀ (n i : Nat),
    (compare_oid_loop a b n i = 1 ↔ ∀ j, i ≤ j → j < i + n → a.getD j 0 = b.getD j 0) ∧
    (compare_oid_loop a b n i = 0 ∨ compare_oid_loop a b n i = 1) := by
  intro n
  induction n with
  | zero =>
    intro i
    simp only [compare_oid_loop, Nat.add_zero, true_iff, or_true, and_true]
    intro j h1 h2
    omega
  | succ k ih =>
    intro i
    unfold compare_oid_loop
    by_cases hne : a.getD i 0 ≠ b.getD i 0
    · rw [if_pos hne]
      refine ⟨⟨fun h => by simp at h, fun h => absurd (h i (le_refl _) (by omega)) hne⟩,
        Or.inl rfl⟩
    · rw [if_neg hne]
      have heq : a.getD i 0 = b.getD i 0 := by
        by_contra hc
        exact hne hc
      obtain ⟨h1, h2⟩ := ih (i + 1)
      refine ⟨?_, h2⟩
      rw [h1]
      constructor
      · intro h j hj1 hj2
        by_cases hji : j = i
        · rw [hji]; exact heq
        · exact h j (by omega) (by omega)
      · intro h j hj1 hj2
        exact h j (by omega) (by omega)

/-- On two arrays given with their own lengths `compare_oid` returns nonzero
exactly when they are equal. -/
theorem compare_oid_eq (a b : List Nat) : compare_oid a a.length b b.length ≠ 0 ↔ a = b := by
  unfold compare_oid
  by_cases hl : a.length ≠ b.length
  · rw [if_pos hl]
    constructor
    · intro h; exact absurd rfl h
    · intro h; rw [h] at hl; exact absurd rfl hl
  · rw [if_neg hl]
    have hlen : a.length = b.length := by
      by_contra hc
      exact hl hc
    obtain ⟨h1, h2⟩ := compare_oid_loop_spec a b a.length 0
    constructor
    · intro h
      have h1' : compare_oid_loop a b a.length 0 = 1 := by
        rcases h2 with h0 | h1'
        · exact absurd h0 h
        · exact h1'
      have hall := h1.mp h1'
      apply List.ext_getElem hlen
      intro j hj1 hj2
      have := hall j (Nat.zero_le _) (by omega)
      rw [List.getD_eq_getElem _ _ hj1, List.getD_eq_getElem _ _ hj2] at this
      exact this
    · intro h
      subst h
      have : compare_oid_loop a a a.length 0 = 1 := h1.mpr (fun _ _ _ => rfl)
      rw [this]
      decide

theorem set_mech_flags_spec (s : TCP_Server_Info) (oid : List Nat) :
    set_mech_flags s oid oid.length =
      { sec_mskerberos := s.sec_mskerberos || decide (oid = MSKRB5_OID),
        sec_kerberosu2u := s.sec_kerberosu2u || decide (oid = KRB5U2U_OID),
        sec_kerberos := s.sec_kerberos || decide (oid = KRB5_OID),
        sec_ntlmssp := s.sec_ntlmssp || decide (oid = NTLMSSP_OID) } := by
  have e1 := compare_oid_eq oid MSKRB5_OID
  have e2 := compare_oid_eq oid KRB5U2U_OID
  have e3 := compare_oid_eq oid KRB5_OID
  have e4 := compare_oid_eq oid NTLMSSP_OID
  unfold set_mech_flags
  have l1 : MSKRB5_OID_LEN = MSKRB5_OID.length := rfl
  have l2 : KRB5U2U_OID_LEN = KRB5U2U_OID.length := rfl
  have l3 : KRB5_OID_LEN = KRB5_OID.length := rfl
  have l4 : NTLMSSP_OID_LEN = NTLMSSP_OID.length := rfl
  rw [l1, l2, l3, l4]
  cases s with
  | mk m u k n =>
  by_cases h1 : oid = MSKRB5_OID
  · rw [if_pos (e1.mpr h1)]
    subst h1
    simp only [decide_True, Bool.or_true, show ¬ (MSKRB5_OID = KRB5U2U_OID) by decide,
      show ¬ (MSKRB5_OID = KRB5_OID) by decide, show ¬ (MSKRB5_OID = NTLMSSP_OID) by decide,
      decide_False, Bool.or_false]
  · rw [if_neg (fun h => h1 (e1.mp h))]
    by_cases h2 : oid = KRB5U2U_OID
    · rw [if_pos (e2.mpr h2)]
      subst h2
      simp only [decide_True, Bool.or_true, show ¬ (KRB5U2U_OID = MSKRB5_OID) by decide,
        show ¬ (KRB5U2U_OID = KRB5_OID) by decide, show ¬ (KRB5U2U_OID = NTLMSSP_OID) by decide,
        decide_False, Bool.or_false]
    · rw [if_neg (fun h => h2 (e2.mp h))]
      by_cases h3 : oid = KRB5_OID
      · rw [if_pos (e3.mpr h3)]
        subst h3
        simp only [decide_True, Bool.or_true, show ¬ (KRB5_OID = MSKRB5_OID) by decide,
          show ¬ (KRB5_OID = KRB5U2U_OID) by decide, show ¬ (KRB5_OID = NTLMSSP_OID) by decide,
          decide_False, Bool.or_false]
      · rw [if_neg (fun h => h3 (e3.mp h))]
        by_cases h4 : oid = NTLMSSP_OID
        · rw [if_pos (e4.mpr h4)]
          subst h4
          simp only [decide_True, Bool.or_true, show ¬ (NTLMSSP_OID = MSKRB5_OID) by decide,
            show ¬ (NTLMSSP_OID = KRB5U2U_OID) by decide,
            show ¬ (NTLMSSP_OID = KRB5_OID) by decide, decide_False, Bool.or_false]
        · rw [if_neg (fun h => h4 (e4.mp h))]
          simp only [h1, h2, h3, h4, decide_False, Bool.or_false]

theorem foldl_set_mech_flags : ∀ (ms : List (List Nat × List Nat)) (s : TCP_Server_Info),
    ms.foldl (fun t m => set_mech_flags t m.2 m.2.length) s =
      { sec_mskerberos := s.sec_mskerberos || decide (MSKRB5_OID ∈ ms.map Prod.snd),
        sec_kerberosu2u := s.sec_kerberosu2u || decide (KRB5U2U_OID ∈ ms.map Prod.snd),
        sec_kerberos := s.sec_kerberos || decide (KRB5_OID ∈ ms.map Prod.snd),
        sec_ntlmssp := s.sec_ntlmssp || decide (NTLMSSP_OID ∈ ms.map Prod.snd) } := by
  intro ms
  induction ms with
  | nil => intro s; cases s; simp
  | cons m t ih =>
    intro s
    simp only [List.foldl_cons, List.map_cons, List.mem_cons]
    rw [ih, set_mech_flags_spec]
    simp only [Bool.decide_or, Bool.or_assoc, eq_comm]

/-! ## Decoding a well-formed token -/

theorem declared_length_append (ls post : List Nat) (L : Nat)
    (h : declared_length ls = some (L, ls.length)) :
    declared_length (ls ++ post) = some (L, ls.length) := by
  cases ls with
  | nil => simp [declared_length] at h
  | cons b rest =>
    simp only [declared_length, List.length_cons, List.cons_append] at h ⊢
    by_cases hlt : b < 0x80
    · rw [if_pos hlt] at h ⊢
      exact h
    · rw [if_neg hlt] at h ⊢
      by_cases hbad : b = 0x80 ∨ 0x100 ≤ b ∨ rest.length < b - 0x80
      · rw [if_pos hbad] at h
        cases h
      · rw [if_neg hbad] at h
        simp only [Option.some.injEq, Prod.mk.injEq] at h
        obtain ⟨hL, hn⟩ := h
        have hlen : rest.length = b - 0x80 := by omega
        have hbad2 : ¬ (b = 0x80 ∨ 0x100 ≤ b ∨ (rest ++ post).length < b - 0x80) := by
          rw [List.length_append]
          omega
        rw [if_neg hbad2]
        have ht1 : (rest ++ post).take (b - 0x80) = rest := by
          rw [← hlen]
          exact List.take_left _ _
        have ht2 : rest.take (b - 0x80) = rest := by
          rw [← hlen]
          exact List.take_length _
        rw [ht1]
        rw [ht2] at hL
        rw [hL, hn]

/-- The header decoder on an identifier octet with a low tag number followed
by the length octets of a definite length that fits the buffer. -/
theorem header_definite_run (buf : List Nat) (ctx : asn1_ctx) (idb cls con tag : Nat)
    (ls post : List Nat) (L : Nat) (hat : At buf ctx (idb :: (ls ++ post))) (h256 : idb < 256)
    (hcls : (idb &&& 0xC0) >>> 6 = cls) (hcon : (idb &&& 0x20) >>> 5 = con)
    (htag : idb &&& 0x1F = tag) (hlow : tag ≠ 0x1F)
    (hl : is_length ls L) (hfit : L ≤ post.length) (h32 : L < 2 ^ 32) :
    asn1_header_decode buf ctx =
      some ({ ctx with pointer := ctx.pointer + 1 + ls.length },
            some { eoc := some (ctx.pointer + 1 + ls.length + L),
                   cls := cls, con := con, tag := tag }) := by
  obtain ⟨hd, hb⟩ := hl
  have hrun := header_decode_run buf ctx idb (ls ++ post) L ls.length hat h256
    (by rw [List.take_left]; exact hb) (by rw [htag]; exact hlow)
    (declared_length_append ls post L hd)
  rw [hrun, Nat.mod_eq_of_lt h32, if_neg (by rw [List.length_append]; omega), hcls, hcon, htag]

/-- The header decoder on the identifier octet of a constructed wrapper
followed by legal length octets: the header is accepted whatever the length
form. -/
theorem header_wrapper_run (buf : List Nat) (ctx : asn1_ctx) (idb cls con tag : Nat)
    (ls post : List Nat) (hat : At buf ctx (idb :: (ls ++ post))) (h256 : idb < 256)
    (hcls : (idb &&& 0xC0) >>> 6 = cls) (hcon : (idb &&& 0x20) >>> 5 = con)
    (htag : idb &&& 0x1F = tag) (hlow : tag ≠ 0x1F) (hconstr : con ≠ ASN1_PRI)
    (hl : is_wrapper_length ls post.length) (h32 : post.length < 2 ^ 32) :
    ∃ eoc, asn1_header_decode buf ctx =
      some ({ ctx with pointer := ctx.pointer + 1 + ls.length },
            some { eoc := eoc, cls := cls, con := con, tag := tag }) := by
  rcases hl with rfl | ⟨L, hl, hfit⟩
  · refine ⟨none, ?_⟩
    rw [header_decode_run_indef buf ctx idb post (by simpa using hat) h256
      (by rw [htag]; exact hlow) (by rw [hcon]; exact hconstr), hcls, hcon, htag]
    rfl
  · exact ⟨_, header_definite_run buf ctx idb cls con tag ls post L hat h256 hcls hcon htag hlow
      hl hfit (by omega)⟩

theorem at_error (buf : List Nat) (ctx : asn1_ctx) (bs : List Nat) (e : Nat)
    (h : At buf ctx bs) : At buf { ctx with error := e } bs := h

theorem enc_mech_length_ge (m : List Nat × List Nat) : 2 ≤ (enc_mech m).length + 1 := by
  simp [enc_mech]

/-- One OID element of the mechanism list: its header is decoded, then its OID,
and the cursor stands behind the element. -/
theorem mech_element_run (buf : List Nat) (ctx : asn1_ctx) (m : List Nat × List Nat)
    (post : List Nat) (hat : At buf ctx (enc_mech m ++ post)) (hm : valid_mech m) :
    asn1_header_decode buf ctx =
      some ({ ctx with pointer := ctx.pointer + 1 + m.1.length },
            some { eoc := some (ctx.pointer + 1 + m.1.length + (enc_oid m.2).length),
                   cls := 0, con := 0, tag := 6 }) ∧
    asn1_oid_decode buf { ctx with pointer := ctx.pointer + 1 + m.1.length }
        (ctx.pointer + 1 + m.1.length + (enc_oid m.2).length) =
      some ({ ctx with pointer := ctx.pointer + (enc_mech m).length },
            some (m.2, m.2.length)) ∧
    At buf { ctx with pointer := ctx.pointer + (enc_mech m).length } post := by
  obtain ⟨hl, hv, hsz⟩ := hm
  have hguard : UINT_MAX / SIZEOF_ULONG = 1073741823 := by decide
  have hat1 : At buf ctx (0x06 :: (m.1 ++ (enc_oid m.2 ++ post))) := by
    simpa [enc_mech, List.append_assoc] using hat
  have hhdr := header_definite_run buf ctx 0x06 0 0 6 m.1 (enc_oid m.2 ++ post)
    (enc_oid m.2).length hat1 (by decide) (by decide) (by decide) (by decide) (by decide) hl
    (by rw [List.length_append]; omega) (by omega)
  have hat2 : At buf { ctx with pointer := ctx.pointer + 1 + m.1.length }
      (enc_oid m.2 ++ post) := by
    have h1 := (at_cons hat1).2
    have h2 := at_append h1
    exact h2
  have hoid := oid_decode_run buf _ m.2 post hat2 hv hsz
  simp only at hoid
  have hlen : (enc_mech m).length = 1 + m.1.length + (enc_oid m.2).length := by
    simp only [enc_mech, List.length_cons, List.length_append]
    omega
  refine ⟨hhdr, ?_, ?_⟩
  · rw [hoid, hlen]
    simp only [Nat.add_assoc]
  · have h3 := at_append hat2
    simp only at h3
    rw [hlen]
    simp only [Nat.add_assoc] at h3 ⊢
    exact h3

/-- The mechanism-list loop on a list of well-formed OID elements with a
definite `sequence_end` at the end of the list: success, with the flags of the
elements accumulated in order. -/
theorem mech_loop_run (dbg : Bool) (buf : List Nat) (seq_end : Nat) :
    ∀ (ms : List (List Nat × List Nat)) (trailer : List Nat) (fuel : Nat) (ctx : asn1_ctx)
      (server : TCP_Server_Info) (log : List Deref),
    At buf ctx (enc_mechs ms ++ trailer) → seq_end = ctx.pointer + (enc_mechs ms).length →
    (∀ m ∈ ms, valid_mech m) → ms.length < fuel →
    ∃ r, negTokenInit_loop dbg buf (some seq_end) fuel ctx server log = some r ∧ r.rc = 1 ∧
      r.server = ms.foldl (fun t m => set_mech_flags t m.2 m.2.length) server := by
  intro ms
  induction ms with
  | nil =>
    intro trailer fuel ctx server log _ he _ hf
    obtain ⟨n, rfl⟩ : ∃ n, fuel = n + 1 := ⟨fuel - 1, by simp at hf; omega⟩
    simp only [enc_mechs, List.length_nil, Nat.add_zero] at he
    unfold negTokenInit_loop negTokenInit_iter asn1_eoc_decode
    simp only [he, ne_eq, not_true_eq_false, if_false]
    exact ⟨_, rfl, rfl, rfl⟩
  | cons m t ih =>
    intro trailer fuel ctx server log hat he hv hf
    obtain ⟨n, rfl⟩ : ∃ n, fuel = n + 1 := ⟨fuel - 1, by simp at hf; omega⟩
    simp only [enc_mechs, List.length_append] at he
    have hpos := enc_mech_length_ge m
    have hne : ctx.pointer ≠ seq_end := by omega
    have hat1 : At buf { ctx with error := ASN1_ERR_DEC_LENGTH_MISMATCH }
        (enc_mech m ++ (enc_mechs t ++ trailer)) := by
      have : At buf ctx (enc_mech m ++ (enc_mechs t ++ trailer)) := by
        simpa [enc_mechs, List.append_assoc] using hat
      exact this
    obtain ⟨hhdr, hoid, hat2⟩ := mech_element_run buf _ m _ hat1 (hv m (by simp))
    simp only at hhdr hoid hat2
    have hiter : negTokenInit_iter dbg buf (some seq_end) ctx server log =
        some (Sum.inr ({ ctx with error := ASN1_ERR_DEC_LENGTH_MISMATCH,
                                  pointer := ctx.pointer + (enc_mech m).length },
          set_mech_flags server m.2 m.2.length,
          if dbg then
            log ++ [Deref.oid_elem 0 m.2.length
                      (asn1_oid_size { ctx with error := ASN1_ERR_DEC_LENGTH_MISMATCH,
                                                pointer := ctx.pointer + 1 + m.1.length }
                        (ctx.pointer + 1 + m.1.length + (enc_oid m.2).length)),
                    Deref.oid_elem 1 m.2.length
                      (asn1_oid_size { ctx with error := ASN1_ERR_DEC_LENGTH_MISMATCH,
                                                pointer := ctx.pointer + 1 + m.1.length }
                        (ctx.pointer + 1 + m.1.length + (enc_oid m.2).length)),
                    Deref.oid_elem 2 m.2.length
                      (asn1_oid_size { ctx with error := ASN1_ERR_DEC_LENGTH_MISMATCH,
                                                pointer := ctx.pointer + 1 + m.1.length }
                        (ctx.pointer + 1 + m.1.length + (enc_oid m.2).length)),
                    Deref.oid_elem 3 m.2.length
                      (asn1_oid_size { ctx with error := ASN1_ERR_DEC_LENGTH_MISMATCH,
                                                pointer := ctx.pointer + 1 + m.1.length }
                        (ctx.pointer + 1 + m.1.length + (enc_oid m.2).length))]
          else log)) := by
      unfold negTokenInit_iter asn1_eoc_decode
      simp only [ne_eq, hne, not_false_eq_true, if_true, hhdr, hoid]
      rfl
    unfold negTokenInit_loop
    rw [hiter]
    simp only
    obtain ⟨r, h1, h2, h3⟩ := ih trailer n _ (set_mech_flags server m.2 m.2.length) _ hat2
      (by simp only; omega) (fun x hx => hv x (by simp [hx])) (by simp at hf; omega)
    exact ⟨r, h1, h2, by rw [h3]; rfl⟩

theorem is_length_pos (ls : List Nat) (L : Nat) (h : is_length ls L) : 1 ≤ ls.length := by
  cases ls with
  | nil => simp [is_length, declared_length] at h
  | cons b t => simp

theorem enc_mechs_length_ge : ∀ (ms : List (List Nat × List Nat)),
    (∀ m ∈ ms, valid_mech m) → 2 * ms.length ≤ (enc_mechs ms).length := by
  intro ms
  induction ms with
  | nil => intro _; simp [enc_mechs]
  | cons m t ih =>
    intro hv
    have h1 := is_length_pos _ _ (hv m (by simp)).1
    have h2 := ih (fun x hx => hv x (by simp [hx]))
    simp only [enc_mechs, enc_mech, List.length_cons, List.length_append]
    omega

theorem compare_spnego : compare_oid SPNEGO_OID SPNEGO_OID.length SPNEGO_OID SPNEGO_OID_LEN ≠ 0 := by
  decide

set_option maxHeartbeats 4000000 in
/-- The six header steps on a well-formed token: the loop is entered at the
first element of the mechanism list with `sequence_end` behind the last. -/
theorem steps_run (dbg : Bool) (t : neg_token) (server : TCP_Server_Info) (hv : t.valid) :
    ∃ c, negTokenInit_steps dbg t.bytes t.bytes.length server =
        some (Sum.inr (c, some (c.pointer + (enc_mechs t.mechs).length))) ∧
      At t.bytes c (enc_mechs t.mechs ++ t.trailer) := by
  obtain ⟨h1, hS, h3, h4, h5, h6, _, hlen⟩ := hv
  have hguard : UINT_MAX / SIZEOF_ULONG = 1073741823 := by decide
  have hb : t.bytes = 0x60 :: (t.l1 ++ t.part2) := rfl
  have hp2 : t.part2 = 0x06 :: (t.lS ++ (enc_oid SPNEGO_OID ++ t.part3)) := rfl
  have hp3 : t.part3 = 0xa0 :: (t.l3 ++ t.part4) := rfl
  have hp4 : t.part4 = 0x30 :: (t.l4 ++ t.part5) := rfl
  have hp5 : t.part5 = 0xa0 :: (t.l5 ++ t.part6) := rfl
  have hp6 : t.part6 = 0x30 :: (t.l6 ++ (enc_mechs t.mechs ++ t.trailer)) := rfl
  have hl2 : t.part2.length ≤ t.bytes.length := by
    rw [hb]; simp only [List.length_cons, List.length_append]; omega
  have hl3 : t.part3.length ≤ t.part2.length := by
    rw [hp2]; simp only [List.length_cons, List.length_append]; omega
  have hl4 : t.part4.length ≤ t.part3.length := by
    rw [hp3]; simp only [List.length_cons, List.length_append]; omega
  have hl5 : t.part5.length ≤ t.part4.length := by
    rw [hp4]; simp only [List.length_cons, List.length_append]; omega
  have hl6 : t.part6.length ≤ t.part5.length := by
    rw [hp5]; simp only [List.length_cons, List.length_append]; omega
  have hl7 : (enc_mechs t.mechs).length ≤ t.part6.length := by
    rw [hp6]; simp only [List.length_cons, List.length_append]; omega
  have hspn : (enc_oid SPNEGO_OID).length = 6 := by decide
  -- step 1
  have hat0 : At t.bytes (asn1_open t.bytes.length) (0x60 :: (t.l1 ++ t.part2)) := by
    refine ⟨by simp [asn1_open], ?_⟩
    show t.bytes.drop 0 = _
    rw [List.drop_zero, hb]
  obtain ⟨e1, hh1⟩ := header_wrapper_run t.bytes _ 0x60 1 1 0 t.l1 t.part2 hat0 (by decide)
    (by decide) (by decide) (by decide) (by decide) (by decide) h1 (by omega)
  have hat1 := at_append (at_cons hat0).2
  -- step 2
  rw [hp2] at hat1
  have hh2 := header_definite_run t.bytes _ 0x06 0 0 6 t.lS (enc_oid SPNEGO_OID ++ t.part3)
    (enc_oid SPNEGO_OID).length hat1 (by decide) (by decide) (by decide) (by decide) (by decide)
    hS (by rw [List.length_append]; omega) (by omega)
  have hat2 := at_append (at_cons hat1).2
  have ho2 := oid_decode_run t.bytes _ SPNEGO_OID t.part3 hat2
    ⟨by decide, fun _ => by decide, by decide, by decide⟩ (by rw [hguard, hspn]; decide)
  have hat3 := at_append hat2
  -- step 3
  rw [hp3] at hat3
  obtain ⟨e3, hh3⟩ := header_wrapper_run t.bytes _ 0xa0 2 1 0 t.l3 t.part4 hat3 (by decide)
    (by decide) (by decide) (by decide) (by decide) (by decide) h3 (by omega)
  have hat4 := at_append (at_cons hat3).2
  -- step 4
  rw [hp4] at hat4
  obtain ⟨e4, hh4⟩ := header_wrapper_run t.bytes _ 0x30 0 1 16 t.l4 t.part5 hat4 (by decide)
    (by decide) (by decide) (by decide) (by decide) (by decide) h4 (by omega)
  have hat5 := at_append (at_cons hat4).2
  -- step 5
  rw [hp5] at hat5
  obtain ⟨e5, hh5⟩ := header_wrapper_run t.bytes _ 0xa0 2 1 0 t.l5 t.part6 hat5 (by decide)
    (by decide) (by decide) (by decide) (by decide) (by decide) h5 (by omega)
  have hat6 := at_append (at_cons hat5).2
  -- step 6
  rw [hp6] at hat6
  have hh6 := header_definite_run t.bytes _ 0x30 0 1 16 t.l6 (enc_mechs t.mechs ++ t.trailer)
    (enc_mechs t.mechs).length hat6 (by decide) (by decide) (by decide) (by decide) (by decide)
    h6 (by rw [List.length_append]; omega) (by omega)
  have hat7 := at_append (at_cons hat6).2
  simp only at hh2 ho2 hh3 hh4 hh5 hh6 hat7
  refine ⟨_, ?_, hat7⟩
  unfold negTokenInit_steps
  simp only [hh1]
  rw [if_neg (by decide)]
  simp only [hh2]
  rw [if_pos (by decide)]
  simp only [ho2]
  rw [if_neg compare_spnego]
  simp only [hh3]
  rw [if_neg (by decide)]
  simp only [hh4]
  rw [if_neg (by decide)]
  simp only [hh5]
  rw [if_neg (by decide)]
  simp only [hh6]
  rw [if_neg (by decide)]

/-- C1 as stated fails, in two ways.  On `tok_indef_list`, a valid encoding
whose mechanism list has indefinite length and holds the NTLMSSP OID, the
decoder returns 0 with no flag set: the loop check consumes the identifier
octet of the element.  On `tok_wide_arc`, whose mechanism list holds only the
unrecognised OID `1.2.840.(2 ^ 32 + 113554).1.2.2`, the decoder returns 1 with
`sec_kerberos` set: the arc has wrapped to that of the Kerberos OID. -/
theorem valid_tokens_misdecoded :
    decode_negTokenInit false tok_indef_list 40 no_flags =
      some { rc := 0, server := no_flags,
             ctx := { error := ASN1_ERR_DEC_EOC_MISMATCH, pointer := 21, begin := 0,
                      end_ := 40 },
             derefs := [] } ∧
    enc_oid [1, 2, 840, 2 ^ 32 + 113554, 1, 2, 2] =
      [0x2a, 0x86, 0x48, 0x90, 0x80, 0x86, 0xf7, 0x12, 0x01, 0x02, 0x02] ∧
    decode_negTokenInit false tok_wide_arc 31 no_flags =
      some { rc := 1, server := { no_flags with sec_kerberos := true },
             ctx := { error := ASN1_ERR_DEC_LENGTH_MISMATCH, pointer := 31, begin := 0,
                      end_ := 31 },
             derefs := [] } := by
  refine ⟨by decide, by decide, by decide⟩

/-- C1 (amended): for every well-formed token with a definite-length mechanism
list (wrappers of definite or indefinite length, any legal definite length
octets, any octets behind the list) whose elements are OIDs with arcs
representable in `unsigned long` and encodings within the size guard, the
decoder entered with all flags false returns 1 and the flags that are true on
exit are exactly those of the known mechanisms whose OID is in the list. -/
theorem definite_list_decoded (dbg : Bool) (t : neg_token) (hv : t.valid) :
    ∃ r, decode_negTokenInit dbg t.bytes t.bytes.length no_flags = some r ∧ r.rc = 1 ∧
      r.server = mech_flags (t.mechs.map Prod.snd) := by
  obtain ⟨c, hsteps, hat⟩ := steps_run dbg t no_flags hv
  have hms := hv.2.2.2.2.2.2.1
  have hrem := at_length hat
  have hge := enc_mechs_length_ge t.mechs hms
  rw [List.length_append] at hrem
  obtain ⟨r, h1, h2, h3⟩ := mech_loop_run dbg t.bytes (c.pointer + (enc_mechs t.mechs).length)
    t.mechs t.trailer ((c.end_ - c.pointer) / 2 + 1) c no_flags [] hat rfl hms (by omega)
  refine ⟨r, ?_, h2, ?_⟩
  · unfold decode_negTokenInit
    rw [hsteps]
    exact h1
  · rw [h3, foldl_set_mech_flags]
    simp [no_flags, mech_flags]

/-- C1 (amended) on the 30-octet NTLMSSP token. -/
theorem definite_list_decoded_witness :
    ntlmssp_token.bytes = tok_ntlmssp ∧
    ∃ r, decode_negTokenInit false tok_ntlmssp 30 no_flags = some r ∧ r.rc = 1 ∧
      r.server = { no_flags with sec_ntlmssp := true } :=
  ⟨by decide,
   definite_list_decoded false ntlmssp_token
     ⟨Or.inr ⟨28, ⟨by decide, by decide⟩, by decide⟩, ⟨by decide, by decide⟩,
      Or.inr ⟨18, ⟨by decide, by decide⟩, by decide⟩,
      Or.inr ⟨16, ⟨by decide, by decide⟩, by decide⟩,
      Or.inr ⟨14, ⟨by decide, by decide⟩, by decide⟩, ⟨by decide, by decide⟩,
      by
        intro m hm
        rw [show ntlmssp_token.mechs = [([0x0a], NTLMSSP_OID)] from rfl,
          List.mem_singleton] at hm
        subst hm
        exact ⟨⟨by decide, by decide⟩,
          ⟨by decide, fun _ => by decide, by decide, by decide⟩, by decide⟩,
      by decide⟩⟩

/-! ## The NTLMSSP scenario, OID comparison and the octet reader -/

/-- C11: on the 30-byte definite-length NTLMSSP token, entered with all four
flags false, `decode_negTokenInit` returns 1 with `sec_ntlmssp` true and the
three Kerberos flags false, with or without debug output. -/
theorem ntlmssp_token_scenario :
    tok_ntlmssp.length = 30 ∧
    ∀ dbg : Bool, ∃ r, decode_negTokenInit dbg tok_ntlmssp 30 no_flags = some r ∧
      r.rc = 1 ∧ r.server.sec_ntlmssp = true ∧ r.server.sec_kerberos = false ∧
      r.server.sec_kerberosu2u = false ∧ r.server.sec_mskerberos = false := by
  refine ⟨by decide, ?_⟩
  intro dbg
  cases dbg
  · exact ⟨_, rfl, rfl, rfl, rfl, rfl, rfl⟩
  · exact ⟨_, rfl, rfl, rfl, rfl, rfl, rfl⟩

/-- C13: `compare_oid` returns 0 or 1, and returns 1 exactly when the two
lengths are equal and the arrays agree at every index below that length; the
Kerberos OID against the Kerberos-U2U OID gives 0 in both argument orders. -/
theorem compare_oid_exact :
    (∀ (a : List Nat) (la : Nat) (b : List Nat) (lb : Nat),
      (compare_oid a la b lb = 1 ↔ la = lb ∧ ∀ i, i < la → a.getD i 0 = b.getD i 0) ∧
      (compare_oid a la b lb = 0 ∨ compare_oid a la b lb = 1)) ∧
    compare_oid KRB5_OID KRB5_OID_LEN KRB5U2U_OID KRB5U2U_OID_LEN = 0 ∧
    compare_oid KRB5U2U_OID KRB5U2U_OID_LEN KRB5_OID KRB5_OID_LEN = 0 := by
  refine ⟨?_, by decide, by decide⟩
  intro a la b lb
  unfold compare_oid
  by_cases hl : la ≠ lb
  · rw [if_pos hl]
    refine ⟨⟨fun h => by simp at h, fun h => absurd h.1 hl⟩, Or.inl rfl⟩
  · rw [if_neg hl]
    have hlen : la = lb := by
      by_contra hc
      exact hl hc
    obtain ⟨h1, h2⟩ := compare_oid_loop_spec a b la 0
    refine ⟨?_, h2⟩
    rw [h1]
    constructor
    · intro h
      exact ⟨hlen, fun i hi => h i (Nat.zero_le _) (by omega)⟩
    · intro h j _ hj
      exact h.2 j (by omega)

/-- C14: `asn1_octet_decode` fails exactly when the cursor is at or past the
end of the buffer; it then records `ASN1_ERR_DEC_EMPTY` and changes nothing
else; otherwise it returns the octet under the cursor and moves the cursor on
by one.  With a length of 0 the first header decode of `decode_negTokenInit`
fails with that error and the function returns 0. -/
theorem octet_decode_contract :
    (∀ (buf : List Nat) (ctx : asn1_ctx),
      ((asn1_octet_decode buf ctx).2 = none ↔ ctx.end_ ≤ ctx.pointer) ∧
      (ctx.end_ ≤ ctx.pointer →
        asn1_octet_decode buf ctx = ({ ctx with error := ASN1_ERR_DEC_EMPTY }, none)) ∧
      (ctx.pointer < ctx.end_ →
        asn1_octet_decode buf ctx =
          ({ ctx with pointer := ctx.pointer + 1 }, some (buf.getD ctx.pointer 0 % 256)))) ∧
    (∀ (dbg : Bool) (buf : List Nat) (server : TCP_Server_Info),
      asn1_header_decode buf (asn1_open 0) =
        some ({ error := ASN1_ERR_DEC_EMPTY, pointer := 0, begin := 0, end_ := 0 }, none) ∧
      decode_negTokenInit dbg buf 0 server =
        some { rc := 0, server := server,
               ctx := { error := ASN1_ERR_DEC_EMPTY, pointer := 0, begin := 0, end_ := 0 },
               derefs := [] }) := by
  constructor
  · intro buf ctx
    refine ⟨?_, octet_empty buf ctx, octet_ok buf ctx⟩
    rcases octet_cases buf ctx with ⟨h, he⟩ | ⟨h, he⟩
    · rw [he]
      constructor
      · intro h1; simp at h1
      · intro h1; omega
    · rw [he]
      exact ⟨fun _ => h, fun _ => rfl⟩
  · intro dbg buf server
    have hh : asn1_header_decode buf (asn1_open 0) =
        some ({ error := ASN1_ERR_DEC_EMPTY, pointer := 0, begin := 0, end_ := 0 }, none) := by
      unfold asn1_header_decode asn1_id_decode
      rw [octet_empty buf (asn1_open 0) (by decide)]
      rfl
    exact ⟨hh, decode_first_header_fails dbg buf 0 server _ hh⟩

/-- C15: the mechanism-list loop accepts an element of context class.  On the
NTLMSSP token whose mechanism element starts with `86` (context class,
primitive, tag 6) the header decoded in the loop has class `ASN1_CTX`, and the
decode returns 1 with `sec_ntlmssp` set; the same octet in front of the SPNEGO
OID makes the second step, which also tests the class, return 0. -/
theorem loop_accepts_any_class :
    asn1_header_decode tok_ctx_class_mech
        { error := ASN1_ERR_NOERROR, pointer := 18, begin := 0, end_ := 30 } =
      some ({ error := ASN1_ERR_NOERROR, pointer := 20, begin := 0, end_ := 30 },
            some { eoc := some 30, cls := ASN1_CTX, con := ASN1_PRI, tag := ASN1_OJI }) ∧
    (∀ dbg : Bool, ∃ r, decode_negTokenInit dbg tok_ctx_class_mech 30 no_flags = some r ∧
      r.rc = 1 ∧ r.server = { no_flags with sec_ntlmssp := true }) ∧
    (∀ dbg : Bool, ∃ r, decode_negTokenInit dbg tok_ctx_class_spnego 30 no_flags = some r ∧
      r.rc = 0 ∧ r.server = no_flags) := by
  refine ⟨by decide, ?_, ?_⟩
  · intro dbg
    cases dbg
    · exact ⟨_, rfl, rfl, rfl⟩
    · exact ⟨_, rfl, rfl, rfl⟩
  · intro dbg
    cases dbg
    · exact ⟨_, rfl, rfl, rfl⟩
    · exact ⟨_, rfl, rfl, rfl⟩


/-! ## The elements of a decoded OID -/

/-- A successful run of the sub-identifier loop appends the values it read,
in order, and `*len` stays the number of elements written. -/
theorem oid_loop_result (buf : List Nat) (eoc size : Nat) (hsz : size + 1 < 2 ^ 32) :
    ∀ (fuel : Nat) (ctx : asn1_ctx) (oid : List Nat) (len : Nat) (c : asn1_ctx)
      (oid1 : List Nat) (len1 : Nat),
      asn1_oid_loop buf eoc size fuel ctx oid len = some (c, some (oid1, len1)) →
      len ≤ size → oid.length = len →
      ∃ rest, oid1 = oid ++ rest ∧ later_subids buf eoc ctx rest = some c ∧
        oid1.length = len1 ∧ len1 ≤ size := by
  intro fuel
  induction fuel with
  | zero => intro ctx oid len c oid1 len1 h; simp [asn1_oid_loop] at h
  | succ n ih =>
    intro ctx oid len c oid1 len1 h hle hlen
    unfold asn1_oid_loop at h
    by_cases hp : ctx.pointer < eoc
    · rw [if_pos hp] at h
      simp only at h
      have hmod : (len + 1) % 2 ^ UINT_BITS = len + 1 :=
        Nat.mod_eq_of_lt (show len + 1 < 2 ^ 32 by omega)
      rw [hmod] at h
      by_cases hl : len + 1 > size
      · rw [if_pos hl] at h
        simp at h
      · rw [if_neg hl] at h
        rcases hd : asn1_subid_decode buf ctx with _ | ⟨c1, _ | v⟩
        · rw [hd] at h; simp at h
        · rw [hd] at h; simp at h
        · rw [hd] at h
          simp only at h
          obtain ⟨rest, h1, h2, h3, h4⟩ := ih c1 (oid ++ [v]) (len + 1) c oid1 len1 h
            (by omega) (by rw [List.length_append, hlen]; rfl)
          refine ⟨v :: rest, ?_, ?_, h3, h4⟩
          · rw [h1, List.append_assoc]; rfl
          · unfold later_subids
            rw [if_pos hp, hd]
            simp only [if_true]
            exact h2
    · rw [if_neg hp] at h
      simp only [Option.some.injEq, Prod.mk.injEq] at h
      obtain ⟨hc, ho, hl⟩ := h
      refine ⟨[], ?_, ?_, ?_, ?_⟩
      · rw [List.append_nil]; exact ho.symm
      · unfold later_subids
        rw [if_neg hp, hc]
      · rw [← ho]; omega
      · omega

/-- C16: when `asn1_oid_decode` succeeds, the first sub-identifier `v` was
decoded, the OID has at least two elements and as many as `*len` says, its
first two elements are `(0, v)` for `v < 40`, `(1, v - 40)` for
`40 <= v < 80` and `(2, v - 80)` otherwise, so the first one is 0, 1 or 2, and
the elements after them are the sub-identifiers the loop read, in order. -/
theorem oid_first_two_arcs (buf : List Nat) (ctx : asn1_ctx) (eoc : Nat) (c : asn1_ctx)
    (oid : List Nat) (len : Nat)
    (h : asn1_oid_decode buf ctx eoc = some (c, some (oid, len))) :
    ∃ c1 v, asn1_subid_decode buf ctx = some (c1, some v) ∧
      2 ≤ oid.length ∧ oid.length = len ∧
      (v < 40 → oid.take 2 = [0, v]) ∧
      (40 ≤ v → v < 80 → oid.take 2 = [1, v - 40]) ∧
      (80 ≤ v → oid.take 2 = [2, v - 80]) ∧
      (oid.getD 0 0 = 0 ∨ oid.getD 0 0 = 1 ∨ oid.getD 0 0 = 2) ∧
      later_subids buf eoc c1 (oid.drop 2) = some c := by
  unfold asn1_oid_decode at h
  simp only at h
  by_cases hs : asn1_oid_size ctx eoc < 2 ∨ asn1_oid_size ctx eoc > UINT_MAX / SIZEOF_ULONG
  · rw [if_pos hs] at h
    simp at h
  · rw [if_neg hs] at h
    have hs2 : 2 ≤ asn1_oid_size ctx eoc ∧ asn1_oid_size ctx eoc ≤ 1073741823 := by
      have e : UINT_MAX / SIZEOF_ULONG = 1073741823 := by decide
      rw [e] at hs
      omega
    rcases hd : asn1_subid_decode buf ctx with _ | ⟨c1, _ | v⟩
    · rw [hd] at h; simp at h
    · rw [hd] at h; simp at h
    · rw [hd] at h
      simp only at h
      refine ⟨c1, v, rfl, ?_⟩
      by_cases h40 : v < 40
      · rw [if_pos h40] at h
        obtain ⟨rest, h1, h2, h3, _⟩ := oid_loop_result buf eoc _ (by omega) _ c1 [0, v] 2 c oid len
          h hs2.1 rfl
        subst h1
        refine ⟨by simp, h3, fun _ => rfl, fun h' => by omega, fun h' => by omega,
          Or.inl rfl, h2⟩
      · rw [if_neg h40] at h
        by_cases h80 : v < 80
        · rw [if_pos h80] at h
          obtain ⟨rest, h1, h2, h3, _⟩ := oid_loop_result buf eoc _ (by omega) _ c1 [1, v - 40] 2
            c oid len h hs2.1 rfl
          subst h1
          refine ⟨by simp, h3, fun h' => by omega, fun _ _ => rfl, fun h' => by omega,
            Or.inr (Or.inl rfl), h2⟩
        · rw [if_neg h80] at h
          obtain ⟨rest, h1, h2, h3, _⟩ := oid_loop_result buf eoc _ (by omega) _ c1 [2, v - 80] 2
            c oid len h hs2.1 rfl
          subst h1
          refine ⟨by simp, h3, fun h' => by omega, fun h' h'' => by omega, fun _ => rfl,
            Or.inr (Or.inr rfl), h2⟩

/-- C16 on the encoded Kerberos OID `2a 86 48 86 f7 12 01 02 02`: the first
sub-identifier 42 gives the arcs 1 and 2. -/
theorem oid_first_two_arcs_witness :
    asn1_oid_decode krb5_value (asn1_open 9) 9 =
      some ({ error := ASN1_ERR_NOERROR, pointer := 9, begin := 0, end_ := 9 },
            some ([1, 2, 840, 113554, 1, 2, 2], 7)) ∧
    ∃ c1 v, asn1_subid_decode krb5_value (asn1_open 9) = some (c1, some v) ∧
      2 ≤ [1, 2, 840, 113554, 1, 2, 2].length ∧ [1, 2, 840, 113554, 1, 2, 2].length = 7 ∧
      (v < 40 → [1, 2, 840, 113554, 1, 2, 2].take 2 = [0, v]) ∧
      (40 ≤ v → v < 80 → [1, 2, 840, 113554, 1, 2, 2].take 2 = [1, v - 40]) ∧
      (80 ≤ v → [1, 2, 840, 113554, 1, 2, 2].take 2 = [2, v - 80]) ∧
      ([1, 2, 840, 113554, 1, 2, 2].getD 0 0 = 0 ∨ [1, 2, 840, 113554, 1, 2, 2].getD 0 0 = 1 ∨
        [1, 2, 840, 113554, 1, 2, 2].getD 0 0 = 2) ∧
      later_subids krb5_value 9 c1 ([1, 2, 840, 113554, 1, 2, 2].drop 2) =
        some { error := ASN1_ERR_NOERROR, pointer := 9, begin := 0, end_ := 9 } :=
  ⟨by decide, oid_first_two_arcs krb5_value (asn1_open 9) 9 _ _ _ (by decide)⟩


/-! ## The capacity of the OID array -/

/-- With the end offset inside a 32-bit address space the size that passes the
guard of `asn1_oid_decode` is `eoc - pointer + 1`, not a wrapped value. -/
theorem oid_size_exact (ctx : asn1_ctx) (eoc : Nat) (hp : ctx.pointer ≤ eoc)
    (h32 : eoc < 2 ^ 32) (h2 : 2 ≤ asn1_oid_size ctx eoc) :
    asn1_oid_size ctx eoc = eoc - ctx.pointer + 1 := by
  by_cases hw : eoc - ctx.pointer + 1 < 2 ^ 32
  · have e := oid_size_run ctx (eoc - ctx.pointer) hw
    rw [show ctx.pointer + (eoc - ctx.pointer) = eoc by omega] at e
    exact e
  · exfalso
    have hz : asn1_oid_size ctx eoc = 0 := by
      have e1 : eoc = 4294967295 := by norm_num at h32 hw; omega
      have e2 : ctx.pointer = 0 := by norm_num at h32 hw; omega
      unfold asn1_oid_size
      rw [e1, e2]
      rfl
    omega

/-- In every state of the loop the elements written are as many as `*len`
says, and each of them but the first cost at least one octet. -/
theorem oid_loop_at_inv (buf : List Nat) (ctx : asn1_ctx) (eoc : Nat)
    (hp : ctx.pointer ≤ eoc) (h32 : eoc < 2 ^ 32) (c : asn1_ctx) (oid : List Nat) (len : Nat)
    (h : oid_loop_at buf ctx eoc c oid len) :
    oid.length = len ∧ 2 ≤ len ∧ len + ctx.pointer ≤ c.pointer + 1 ∧
      len ≤ asn1_oid_size ctx eoc ∧ asn1_oid_size ctx eoc = eoc - ctx.pointer + 1 ∧
      asn1_oid_size ctx eoc ≤ 1073741823 := by
  induction h with
  | first c v hg hd =>
    have e : UINT_MAX / SIZEOF_ULONG = 1073741823 := by decide
    rw [e] at hg
    have hsz := oid_size_exact ctx eoc hp h32 (by omega)
    obtain ⟨c1, r1, h1, _, hs1, _⟩ := subid_decode_spec buf ctx
    rw [hd] at h1
    simp only [Option.some.injEq, Prod.mk.injEq] at h1
    obtain ⟨hc, hr⟩ := h1
    subst hc
    subst hr
    have := hs1 rfl
    refine ⟨?_, le_refl _, by omega, by omega, hsz, by omega⟩
    split_ifs <;> rfl
  | next c c1 oid len v _ hlt hchk hd ih =>
    obtain ⟨i1, i2, i3, i4, i5, i6⟩ := ih
    have hmod : (len + 1) % 2 ^ UINT_BITS = len + 1 :=
      Nat.mod_eq_of_lt (show len + 1 < 2 ^ 32 by omega)
    rw [hmod] at hchk ⊢
    obtain ⟨c2, r2, h2, _, hs2, _⟩ := subid_decode_spec buf c
    rw [hd] at h2
    simp only [Option.some.injEq, Prod.mk.injEq] at h2
    obtain ⟨hc, hr⟩ := h2
    subst hc
    subst hr
    have := hs2 rfl
    refine ⟨by rw [List.length_append, i1]; rfl, by omega, by omega, by omega, i5, i6⟩

/-- A successful run of the loop from one of its states ends in one of its
states, and a failed run from a state in which the capacity is not exhausted
has recorded `ASN1_ERR_DEC_EMPTY`. -/
theorem oid_loop_at_run (buf : List Nat) (ctx : asn1_ctx) (eoc : Nat)
    (hp : ctx.pointer ≤ eoc) (h32 : eoc < 2 ^ 32) :
    ∀ (fuel : Nat) (c : asn1_ctx) (oid : List Nat) (len : Nat) (c1 : asn1_ctx)
      (r : Option (List Nat × Nat)),
      oid_loop_at buf ctx eoc c oid len →
      asn1_oid_loop buf eoc (asn1_oid_size ctx eoc) fuel c oid len = some (c1, r) →
      (r = none → c1.error = ASN1_ERR_DEC_EMPTY) ∧
      (∀ oid1 len1, r = some (oid1, len1) →
        oid_loop_at buf ctx eoc c1 oid1 len1 ∧ ¬ c1.pointer < eoc) := by
  intro fuel
  induction fuel with
  | zero => intro c oid len c1 r _ h; simp [asn1_oid_loop] at h
  | succ n ih =>
    intro c oid len c1 r hat h
    obtain ⟨i1, i2, i3, i4, i5, i6⟩ := oid_loop_at_inv buf ctx eoc hp h32 c oid len hat
    unfold asn1_oid_loop at h
    by_cases hlt : c.pointer < eoc
    · rw [if_pos hlt] at h
      simp only at h
      have hchk : ¬ ((len + 1) % 2 ^ UINT_BITS > asn1_oid_size ctx eoc) := by
        have hmod : (len + 1) % 2 ^ UINT_BITS = len + 1 :=
          Nat.mod_eq_of_lt (show len + 1 < 2 ^ 32 by omega)
        rw [hmod]
        omega
      rw [if_neg hchk] at h
      obtain ⟨c2, r2, h2, _, _, he2⟩ := subid_decode_spec buf c
      rw [h2] at h
      cases r2 with
      | none =>
        simp only [Option.some.injEq, Prod.mk.injEq] at h
        obtain ⟨hc, hr⟩ := h
        subst hc
        subst hr
        exact ⟨fun _ => he2 rfl, fun _ _ h' => by simp at h'⟩
      | some v =>
        simp only at h
        exact ih c2 (oid ++ [v]) _ c1 r (oid_loop_at.next c c2 oid len v hat hlt hchk h2) h
    · rw [if_neg hlt] at h
      simp only [Option.some.injEq, Prod.mk.injEq] at h
      obtain ⟨hc, hr⟩ := h
      subst hc
      subst hr
      refine ⟨fun h' => by simp at h', ?_⟩
      intro oid1 len1 he
      simp only [Option.some.injEq, Prod.mk.injEq] at he
      obtain ⟨ho, hl⟩ := he
      subst ho
      subst hl
      exact ⟨hat, hlt⟩

/-- C17: for `pointer <= eoc <= end` inside a 32-bit address space, in every
state of the loop of `asn1_oid_decode` the elements written are as many as
`*len`, with `2 <= *len <= size` and `size = eoc - pointer + 1`; when the loop
goes on, the index of the next write is below `size` and the capacity check
does not fire.  A successful decode ends in such a state, and a failed one has
recorded nothing or `ASN1_ERR_DEC_EMPTY`, never `ASN1_ERR_DEC_BADVALUE`. -/
theorem oid_capacity (buf : List Nat) (ctx : asn1_ctx) (eoc : Nat)
    (hp : ctx.pointer ≤ eoc) (he : eoc ≤ ctx.end_) (h32 : ctx.end_ < 2 ^ 32) :
    (∀ c oid len, oid_loop_at buf ctx eoc c oid len →
      asn1_oid_size ctx eoc = eoc - ctx.pointer + 1 ∧
      oid.length = len ∧ 2 ≤ len ∧ len ≤ asn1_oid_size ctx eoc ∧
      (c.pointer < eoc → oid.length < asn1_oid_size ctx eoc ∧
        ¬ ((len + 1) % 2 ^ UINT_BITS > asn1_oid_size ctx eoc))) ∧
    (∃ c r, asn1_oid_decode buf ctx eoc = some (c, r) ∧
      (r = none → c.error = ctx.error ∨ c.error = ASN1_ERR_DEC_EMPTY) ∧
      (∀ oid len, r = some (oid, len) → oid_loop_at buf ctx eoc c oid len ∧
        oid.length = len ∧ 2 ≤ len ∧ len ≤ asn1_oid_size ctx eoc)) := by
  have h32e : eoc < 2 ^ 32 := by omega
  constructor
  · intro c oid len hat
    obtain ⟨i1, i2, i3, i4, i5, i6⟩ := oid_loop_at_inv buf ctx eoc hp h32e c oid len hat
    refine ⟨i5, i1, i2, i4, ?_⟩
    intro hlt
    have hmod : (len + 1) % 2 ^ UINT_BITS = len + 1 :=
      Nat.mod_eq_of_lt (show len + 1 < 2 ^ 32 by omega)
    rw [hmod]
    omega
  · obtain ⟨c, r, hr, _⟩ := oid_decode_spec buf ctx eoc
    refine ⟨c, r, hr, ?_⟩
    unfold asn1_oid_decode at hr
    simp only at hr
    by_cases hs : asn1_oid_size ctx eoc < 2 ∨ asn1_oid_size ctx eoc > UINT_MAX / SIZEOF_ULONG
    · rw [if_pos hs] at hr
      simp only [Option.some.injEq, Prod.mk.injEq] at hr
      obtain ⟨hc, hn⟩ := hr
      subst hc
      subst hn
      exact ⟨fun _ => Or.inl rfl, fun _ _ h' => by simp at h'⟩
    · rw [if_neg hs] at hr
      obtain ⟨c2, r2, h2, _, _, he2⟩ := subid_decode_spec buf ctx
      rw [h2] at hr
      cases r2 with
      | none =>
        simp only [Option.some.injEq, Prod.mk.injEq] at hr
        obtain ⟨hc, hn⟩ := hr
        subst hc
        subst hn
        exact ⟨fun _ => Or.inr (he2 rfl), fun _ _ h' => by simp at h'⟩
      | some v =>
        simp only at hr
        obtain ⟨g1, g2⟩ := oid_loop_at_run buf ctx eoc hp h32e _ c2 _ 2 c r
          (oid_loop_at.first c2 v hs h2) hr
        refine ⟨fun hn => Or.inr (g1 hn), ?_⟩
        intro oid len hsome
        have hat := (g2 oid len hsome).1
        obtain ⟨i1, i2, _, i4, _, _⟩ := oid_loop_at_inv buf ctx eoc hp h32e c oid len hat
        exact ⟨hat, i1, i2, i4⟩

/-- C17 on the encoded Kerberos OID: nine octets give a capacity of ten and
seven elements are written. -/
theorem oid_capacity_witness :
    (asn1_open 9).pointer ≤ 9 ∧ 9 ≤ (asn1_open 9).end_ ∧
    asn1_oid_decode krb5_value (asn1_open 9) 9 =
      some ({ error := ASN1_ERR_NOERROR, pointer := 9, begin := 0, end_ := 9 },
            some ([1, 2, 840, 113554, 1, 2, 2], 7)) ∧
    asn1_oid_size (asn1_open 9) 9 = 10 ∧
    ∃ c r, asn1_oid_decode krb5_value (asn1_open 9) 9 = some (c, r) ∧
      (r = none → c.error = (asn1_open 9).error ∨ c.error = ASN1_ERR_DEC_EMPTY) ∧
      (∀ oid len, r = some (oid, len) → oid_loop_at krb5_value (asn1_open 9) 9 c oid len ∧
        oid.length = len ∧ 2 ≤ len ∧ len ≤ asn1_oid_size (asn1_open 9) 9) :=
  ⟨by decide, by decide, by decide, by decide,
   (oid_capacity krb5_value (asn1_open 9) 9 (by decide) (by decide) (by decide)).2⟩


/-! ## Where the OID decoder leaves the cursor -/

set_option maxRecDepth 100000 in
theorem con_bit (b : Nat) (h : b < 256) :
    (b &&& 0x20) >>> 5 = ASN1_PRI ∨ (b &&& 0x20) >>> 5 = ASN1_CON := by
  revert b
  decide

/-- The constructed flag that `asn1_id_decode` reports is 0 or 1. -/
theorem id_decode_con (buf : List Nat) (ctx c : asn1_ctx) (cls con tag : Nat)
    (h : asn1_id_decode buf ctx = some (c, some (cls, con, tag))) :
    con = ASN1_PRI ∨ con = ASN1_CON := by
  unfold asn1_id_decode at h
  rcases octet_cases buf ctx with ⟨hp, e⟩ | ⟨hp, e⟩ <;> rw [e] at h
  · simp only at h
    have hb : buf.getD ctx.pointer 0 % 256 < 256 := Nat.mod_lt _ (by norm_num)
    have hc := con_bit _ hb
    by_cases ht : (buf.getD ctx.pointer 0 % 256) &&& 0x1F = 0x1F
    · rw [if_pos ht] at h
      rcases hd : asn1_tag_decode buf { ctx with pointer := ctx.pointer + 1 } with
        _ | ⟨c2, _ | t⟩
      · rw [hd] at h; simp at h
      · rw [hd] at h; simp at h
      · rw [hd] at h
        simp only [Option.some.injEq, Prod.mk.injEq] at h
        rw [← h.2.2.1]
        exact hc
    · rw [if_neg ht] at h
      simp only [Option.some.injEq, Prod.mk.injEq] at h
      rw [← h.2.2.1]
      exact hc
  · simp at h

/-- C19: from a context with `begin <= pointer <= end`, `asn1_header_decode`
returns, and a header it decodes carries the class, flag and tag of the
identifier and obeys the invariant: with a definite length the end offset is
the cursor after the header plus the length and lies between that cursor and
the buffer end; with an indefinite length the header is constructed and the
end offset is NULL.  A primitive identifier followed by an indefinite length
makes the function fail. -/
theorem header_invariant (buf : List Nat) (ctx : asn1_ctx)
    (hctx : ctx.begin ≤ ctx.pointer ∧ ctx.pointer ≤ ctx.end_) :
    ∃ c r, asn1_header_decode buf ctx = some (c, r) ∧ c.end_ = ctx.end_ ∧
      (∀ h, r = some h →
        ∃ c1 d len, asn1_id_decode buf ctx = some (c1, some (h.cls, h.con, h.tag)) ∧
          asn1_length_decode buf c1 0 = (c, some (d, len)) ∧
          (d ≠ 0 → h.eoc = some (c.pointer + len) ∧ c.pointer ≤ c.pointer + len ∧
            c.pointer + len ≤ c.end_) ∧
          (d = 0 → h.eoc = none ∧ h.con = ASN1_CON)) ∧
      (∀ c1 cls tag c2 len, asn1_id_decode buf ctx = some (c1, some (cls, ASN1_PRI, tag)) →
        asn1_length_decode buf c1 0 = (c2, some (0, len)) → r = none) := by
  unfold asn1_header_decode
  obtain ⟨c1, r1, h1, hf1, _, _⟩ := id_decode_spec buf ctx
  rw [h1]
  cases r1 with
  | none =>
    exact ⟨_, _, rfl, hf1.2.1, fun h hh => by simp at hh, fun _ _ _ _ _ _ _ => rfl⟩
  | some v =>
    obtain ⟨cls, con, tag⟩ := v
    have hcon := id_decode_con buf ctx c1 cls con tag h1
    obtain ⟨hf2, hs2, _⟩ := length_decode_spec buf c1 0
    simp only
    rcases hr : asn1_length_decode buf c1 0 with ⟨c2, _ | ⟨d, len⟩⟩
    · rw [hr] at hf2
      simp only
      exact ⟨_, _, rfl, by rw [hf2.2.1, hf1.2.1], fun h hh => by simp at hh,
        fun _ _ _ _ _ _ _ => rfl⟩
    · rw [hr] at hf2 hs2
      obtain ⟨_, _, hlen, _⟩ := hs2 d len rfl
      simp only at hlen hf2
      simp only
      have hend : c2.end_ = ctx.end_ := by rw [hf2.2.1, hf1.2.1]
      have hc1 : c1.pointer ≤ c1.end_ := by
        have := hf1.2.2.2 hctx.2
        rw [hf1.2.1]
        exact this
      have hc2 : c2.pointer ≤ c2.end_ := by
        have := hf2.2.2.2 hc1
        rw [hf2.2.1]
        exact this
      by_cases hpi : con = ASN1_PRI ∧ d = 0
      · rw [if_pos hpi]
        exact ⟨_, _, rfl, hend, fun h hh => by simp at hh, fun _ _ _ _ _ _ _ => rfl⟩
      · rw [if_neg hpi]
        by_cases hd : d ≠ 0
        · rw [if_pos hd]
          refine ⟨_, _, rfl, hend, ?_, ?_⟩
          · intro h hh
            simp only [Option.some.injEq] at hh
            subst hh
            exact ⟨c1, d, len, rfl, hr, fun _ => ⟨rfl, by omega, by omega⟩,
              fun h0 => absurd h0 hd⟩
          · intro c1' cls' tag' c2' len' hid hlen'
            simp only [Option.some.injEq, Prod.mk.injEq] at hid
            obtain ⟨hc, -, -, -⟩ := hid
            subst hc
            rw [hr] at hlen'
            simp only [Prod.mk.injEq, Option.some.injEq] at hlen'
            exact absurd hlen'.2.1 hd
        · rw [if_neg hd]
          have hd0 : d = 0 := by
            by_contra hc
            exact hd hc
          have hcc : con = ASN1_CON := by
            rcases hcon with h | h
            · exact absurd ⟨h, hd0⟩ hpi
            · exact h
          refine ⟨_, _, rfl, hend, ?_, ?_⟩
          · intro h hh
            simp only [Option.some.injEq] at hh
            subst hh
            exact ⟨c1, d, len, rfl, hr, fun h0 => absurd hd0 h0, fun _ => ⟨rfl, hcc⟩⟩
          · intro c1' cls' tag' c2' len' hid hlen'
            simp only [Option.some.injEq, Prod.mk.injEq] at hid
            obtain ⟨-, -, hp, -⟩ := hid
            rw [hcc] at hp
            exact absurd hp (by decide)

/-- C19 on the header `06 06` of the SPNEGO OID element. -/
theorem header_invariant_witness :
    ((asn1_open 8).begin ≤ (asn1_open 8).pointer ∧ (asn1_open 8).pointer ≤ (asn1_open 8).end_) ∧
    asn1_header_decode spnego_tlv (asn1_open 8) =
      some ({ error := ASN1_ERR_NOERROR, pointer := 2, begin := 0, end_ := 8 },
            some { eoc := some 8, cls := ASN1_UNI, con := ASN1_PRI, tag := ASN1_OJI }) ∧
    ∃ c r, asn1_header_decode spnego_tlv (asn1_open 8) = some (c, r) ∧
      c.end_ = (asn1_open 8).end_ ∧
      (∀ h, r = some h →
        ∃ c1 d len, asn1_id_decode spnego_tlv (asn1_open 8) =
            some (c1, some (h.cls, h.con, h.tag)) ∧
          asn1_length_decode spnego_tlv c1 0 = (c, some (d, len)) ∧
          (d ≠ 0 → h.eoc = some (c.pointer + len) ∧ c.pointer ≤ c.pointer + len ∧
            c.pointer + len ≤ c.end_) ∧
          (d = 0 → h.eoc = none ∧ h.con = ASN1_CON)) ∧
      (∀ c1 cls tag c2 len,
        asn1_id_decode spnego_tlv (asn1_open 8) = some (c1, some (cls, ASN1_PRI, tag)) →
        asn1_length_decode spnego_tlv c1 0 = (c2, some (0, len)) → r = none) :=
  ⟨by decide, by decide, header_invariant spnego_tlv (asn1_open 8) (by decide)⟩


/-! ## The three forms of a length -/

set_option maxRecDepth 100000 in
theorem and7f_exact : ∀ b, b < 256 → 128 ≤ b → b &&& 0x7F = b - 128 := by decide

theorem foldl_be_lt (ds : List Nat) (h : ∀ d ∈ ds, d < 256) : ∀ a : Nat,
    ds.foldl (fun x o => x * 256 + o) a < (a + 1) * 256 ^ ds.length := by
  induction ds with
  | nil => intro a; simp
  | cons b t ih =>
    intro a
    simp only [List.foldl_cons, List.length_cons]
    have hb : b < 256 := h b (by simp)
    have h1 := ih (fun d hd => h d (by simp [hd])) (a * 256 + b)
    have h2 : (a * 256 + b + 1) * 256 ^ t.length ≤ ((a + 1) * 256) * 256 ^ t.length :=
      Nat.mul_le_mul_right _ (by omega)
    have h3 : (a + 1) * 256 ^ (t.length + 1) = ((a + 1) * 256) * 256 ^ t.length := by
      rw [pow_succ]
      ring
    rw [h3]
    omega

/-- At most four octets hold a value below `2 ^ 32`. -/
theorem be_value_small (ds : List Nat) (h : ∀ d ∈ ds, d < 256) (hl : ds.length ≤ 4) :
    be_value ds % 2 ^ 32 = be_value ds := by
  apply Nat.mod_eq_of_lt
  have h1 := foldl_be_lt ds h 0
  have h2 : 256 ^ ds.length ≤ 256 ^ 4 := Nat.pow_le_pow_right (by norm_num) hl
  unfold be_value
  have h3 : (256 : Nat) ^ 4 = 2 ^ 32 := by norm_num
  omega

/-- C20 (amended): reading from the octets `bs` of the blob, `asn1_length_decode`
fails with `ASN1_ERR_DEC_EMPTY` when there is none; after a first octet `80`
it reports an indefinite length and after a first octet `b < 80` the definite
length `b`, one octet consumed; after a first octet `b > 80` it reads
`n = b & 7F` octets, fails when they are not all there, and otherwise reports
the definite length they hold, most significant first and reduced modulo
`2 ^ 32` (the value itself when `n <= 4`), `1 + n` octets consumed.  In every
form it fails, recording no error, when `*len` is more than the octets left
behind the length. -/
theorem length_decode_forms (buf : List Nat) (ctx : asn1_ctx) (bs : List Nat) (len0 : Nat)
    (hat : At buf ctx bs) (hb : ∀ x ∈ bs, x < 256) :
    (bs = [] →
      asn1_length_decode buf ctx len0 = ({ ctx with error := ASN1_ERR_DEC_EMPTY }, none)) ∧
    (∀ b rest, bs = b :: rest →
      (b = 0x80 → asn1_length_decode buf ctx len0 =
        if len0 > rest.length then ({ ctx with pointer := ctx.pointer + 1 }, none)
        else ({ ctx with pointer := ctx.pointer + 1 }, some (0, len0))) ∧
      (b < 0x80 → asn1_length_decode buf ctx len0 =
        if b > rest.length then ({ ctx with pointer := ctx.pointer + 1 }, none)
        else ({ ctx with pointer := ctx.pointer + 1 }, some (1, b))) ∧
      (0x80 < b → rest.length < b &&& 0x7F →
        asn1_length_decode buf ctx len0 =
          ({ ctx with pointer := ctx.pointer + 1 + rest.length,
                      error := ASN1_ERR_DEC_EMPTY }, none)) ∧
      (0x80 < b → b &&& 0x7F ≤ rest.length →
        asn1_length_decode buf ctx len0 =
          if be_value (rest.take (b &&& 0x7F)) % 2 ^ 32 > rest.length - (b &&& 0x7F) then
            ({ ctx with pointer := ctx.pointer + (1 + (b &&& 0x7F)) }, none)
          else
            ({ ctx with pointer := ctx.pointer + (1 + (b &&& 0x7F)) },
              some (1, be_value (rest.take (b &&& 0x7F)) % 2 ^ 32))) ∧
      (b &&& 0x7F ≤ 4 →
        be_value (rest.take (b &&& 0x7F)) % 2 ^ 32 = be_value (rest.take (b &&& 0x7F)))) := by
  constructor
  · intro hnil
    subst hnil
    unfold asn1_length_decode
    rw [at_nil hat]
  · intro b rest hcons
    subst hcons
    obtain ⟨ho, hat1⟩ := at_cons hat
    have hb256 : b < 256 := hb b (by simp)
    have hlen := at_length hat1
    simp only at hlen
    refine ⟨?_, ?_, ?_, ?_, ?_⟩
    · intro h80
      unfold asn1_length_decode
      rw [ho]
      simp only [Nat.mod_eq_of_lt hb256, h80, if_true]
      rw [hlen]
    · intro hlt
      have h80 : ¬ (b = 0x80) := by omega
      unfold asn1_length_decode
      rw [ho]
      simp only [Nat.mod_eq_of_lt hb256, h80, hlt, if_true, if_false]
      rw [hlen]
    · intro hgt hshort
      rw [and7f_exact b hb256 (by omega)] at hshort
      have h80 : ¬ (b = 0x80) := by omega
      have hlt : ¬ (b < 0x80) := by omega
      unfold asn1_length_decode
      rw [ho]
      simp only [Nat.mod_eq_of_lt hb256, h80, hlt, if_false, and7f b hb256 (by omega)]
      rw [length_loop_short buf rest (b - 128) _ 0 hat1 hshort]
    · intro hgt hall
      rw [and7f_exact b hb256 (by omega)] at hall ⊢
      have hd : declared_length (b :: rest) =
          some (be_value (rest.take (b - 0x80)), 1 + (b - 0x80)) := by
        simp only [declared_length]
        rw [if_neg (by omega), if_neg (by omega)]
      have hrun := length_decode_run buf ctx (b :: rest) _ _ len0 hat
        (fun x hx => hb x (List.mem_of_mem_take hx)) hd
      have e : (b :: rest).length - (1 + (b - 0x80)) = rest.length - (b - 128) := by
        simp only [List.length_cons]
        omega
      rw [e] at hrun
      exact hrun
    · intro h4
      exact be_value_small _ (fun x hx => hb x (List.mem_cons_of_mem _ (List.mem_of_mem_take hx)))
        (by rw [List.length_take]; omega)

/-- C20 (amended) on the long-form length `81 02` with two octets behind it. -/
theorem length_decode_forms_witness :
    At length_long_form (asn1_open 4) length_long_form ∧
    asn1_length_decode length_long_form (asn1_open 4) 0 =
      ({ error := ASN1_ERR_NOERROR, pointer := 2, begin := 0, end_ := 4 }, some (1, 2)) :=
  ⟨⟨rfl, rfl⟩,
   ((length_decode_forms length_long_form (asn1_open 4) length_long_form 0 ⟨rfl, rfl⟩
      (by decide)).2 0x81 [0x02, 0xaa, 0xbb] rfl).2.2.2.1 (by decide) (by decide)⟩

/-- C20 as stated fails: the single octet `05` at the end of the buffer is a
short-form length 5, and `asn1_length_decode` fails on it, one octet consumed
and no error recorded, because five octets are not left; the long form
`82 01 00` with nothing behind it fails the same way after three octets; and
the five octets `01 00 00 00 00` after `85` hold `2 ^ 32`, reported as 0. -/
theorem length_not_always_reported :
    asn1_length_decode [0x05] (asn1_open 1) 0 =
      ({ error := ASN1_ERR_NOERROR, pointer := 1, begin := 0, end_ := 1 }, none) ∧
    asn1_length_decode [0x82, 0x01, 0x00] (asn1_open 3) 0 =
      ({ error := ASN1_ERR_NOERROR, pointer := 3, begin := 0, end_ := 3 }, none) ∧
    be_value [0x01, 0x00, 0x00, 0x00, 0x00] = 2 ^ 32 ∧
    asn1_length_decode [0x85, 0x01, 0x00, 0x00, 0x00, 0x00] (asn1_open 6) 0 =
      ({ error := ASN1_ERR_NOERROR, pointer := 6, begin := 0, end_ := 6 }, some (1, 0)) := by
  refine ⟨by decide, by decide, by decide, by decide⟩


/-! ## The six header steps -/

/-- C21, the code at two failing inputs, with debugging output switched on.
The statement after a successful `asn1_oid_decode` in the loop reads `oid[0]`
to `oid[3]` whatever was decoded.  On `tok_one_octet_oid` the OID value is one
octet: two elements are allocated and two are written, and the reads of
`oid[2]` and `oid[3]` lie outside the allocation.  On `tok_two_octet_oid` the
value is two octets: three elements are allocated and written, and the read of
`oid[3]` lies outside the allocation.  Both tokens are decoded with success. -/
theorem debug_reads_past_oid :
    asn1_oid_decode tok_one_octet_oid
        { error := ASN1_ERR_DEC_LENGTH_MISMATCH, pointer := 20, begin := 0, end_ := 21 } 21 =
      some ({ error := ASN1_ERR_DEC_LENGTH_MISMATCH, pointer := 21, begin := 0, end_ := 21 },
            some ([1, 3], 2)) ∧
    decode_negTokenInit true tok_one_octet_oid 21 no_flags =
      some { rc := 1, server := no_flags,
             ctx := { error := ASN1_ERR_DEC_LENGTH_MISMATCH, pointer := 21, begin := 0,
                      end_ := 21 },
             derefs := [Deref.oid_elem 0 2 2, Deref.oid_elem 1 2 2, Deref.oid_elem 2 2 2,
                        Deref.oid_elem 3 2 2] } ∧
    decode_negTokenInit true tok_two_octet_oid 22 no_flags =
      some { rc := 1, server := no_flags,
             ctx := { error := ASN1_ERR_DEC_LENGTH_MISMATCH, pointer := 22, begin := 0,
                      end_ := 22 },
             derefs := [Deref.oid_elem 0 3 3, Deref.oid_elem 1 3 3, Deref.oid_elem 2 3 3,
                        Deref.oid_elem 3 3 3] } := by
  refine ⟨by decide, by decide, by decide⟩


/-! ## From a decoded header back to the octets -/

end Asn1
